import Mathlib

/-!
Shallow embedding of the docopt.cpp98 argument-parsing library
(src/docopt_value.h, src/docopt_util.h, src/docopt_private.h, src/docopt.cpp).

Modelling conventions:
* C++ `value` is the inductive `Value`; C++ `long` is modelled as `Int`
  (all integers produced by the library are small match counters).
* The pattern AST is the pure inductive `Pattern`; leaves carry a `LeafObj`
  (runtime class, `fName`, `fValue`).  The extra fields of `Option`
  (`fShortOption`, `fLongOption`, `fArgcount`) live in `LeafKind.option`.
* The matcher mutates leaf objects through `boost::shared_ptr` aliases, so the
  argv-derived pattern list is modelled as a heap: a `Store` (list of
  `LeafObj`) plus lists of references (indices) for `left` and `collected`.
  `setValue` becomes a store update; `boost::make_shared` becomes appending a
  fresh object to the store.
* Structural `hash()` equality is modelled as structural equality of the
  nodes themselves (hash collisions are ignored, as the code itself assumes).
* The `while` loop of `OneOrMore::match` is modelled with explicit fuel
  `left.length + 2`; a theorem below proves this fuel always suffices, so the
  out-of-fuel branch is unreachable.
-/

namespace Docopt

/-- C++ `docopt::value` (docopt_value.h): Empty / Bool / Long / String /
StringList. -/
inductive Value where
  | empty
  | bool (b : Bool)
  | long (n : Int)
  | str (s : String)
  | strList (xs : List String)
deriving DecidableEq, Repr

/-- `value::isLong()` -/
def Value.isLong : Value → Bool
  | .long _ => true
  | _ => false

/-- `value::isString()` -/
def Value.isString : Value → Bool
  | .str _ => true
  | _ => false

/-- `value::isStringList()` -/
def Value.isStringList : Value → Bool
  | .strList _ => true
  | _ => false

/-- `value::isBool()` -/
def Value.isBool : Value → Bool
  | .bool _ => true
  | _ => false

/-- `value::operator bool()` : kind != Empty -/
def Value.truthy : Value → Bool
  | .empty => false
  | _ => true

/-- Runtime class of a leaf pattern: `Argument`, `Command` (a subclass of
`Argument`), or `Option` with its `fShortOption`/`fLongOption`/`fArgcount`
fields. -/
inductive LeafKind where
  | argument
  | command
  | option (shortOpt : String) (longOpt : String) (argcount : Nat)
deriving DecidableEq, Repr

/-- `dynamic_cast<Argument const*>` succeeds exactly on `Argument` and its
subclass `Command`. -/
def isArgLike : LeafKind → Bool
  | .argument => true
  | .command => true
  | .option _ _ _ => false

/-- A leaf pattern object (`LeafPattern`): runtime class, `fName`, `fValue`. -/
structure LeafObj where
  kind : LeafKind
  name : String
  val : Value
deriving DecidableEq, Repr

instance : Inhabited LeafObj := ⟨⟨.argument, "", .empty⟩⟩

/-- Runtime class of a branch pattern: `Required`, `Optional`,
`OptionsShortcut` (an `Optional` subclass), `OneOrMore`, `Either`. -/
inductive BranchKind where
  | required
  | optional
  | optionsShortcut
  | oneOrMore
  | either
deriving DecidableEq, Repr

/-- The pattern AST (`Pattern` and its subclasses in docopt_private.h). -/
inductive Pattern where
  | leaf (d : LeafObj)
  | branch (k : BranchKind) (children : List Pattern)
deriving Repr

mutual

def Pattern.beq : Pattern → Pattern → Bool
  | .leaf d, .leaf d' => d == d'
  | .branch k cs, .branch k' cs' => k == k' && Pattern.beqList cs cs'
  | _, _ => false

def Pattern.beqList : List Pattern → List Pattern → Bool
  | [], [] => true
  | p :: rest, p' :: rest' => Pattern.beq p p' && Pattern.beqList rest rest'
  | _, _ => false

end

mutual

theorem Pattern.beq_iff : ∀ p q : Pattern, Pattern.beq p q = true ↔ p = q
  | .leaf d, .leaf d' => by simp [Pattern.beq]
  | .leaf _, .branch _ _ => by simp [Pattern.beq]
  | .branch _ _, .leaf _ => by simp [Pattern.beq]
  | .branch k cs, .branch k' cs' => by
      simp [Pattern.beq, Pattern.beqList_iff cs cs']

theorem Pattern.beqList_iff : ∀ ps qs : List Pattern, Pattern.beqList ps qs = true ↔ ps = qs
  | [], [] => by simp [Pattern.beqList]
  | [], _ :: _ => by simp [Pattern.beqList]
  | _ :: _, [] => by simp [Pattern.beqList]
  | p :: rest, p' :: rest' => by
      simp [Pattern.beqList, Pattern.beq_iff p p', Pattern.beqList_iff rest rest']

end

instance : DecidableEq Pattern := fun p q =>
  decidable_of_iff (Pattern.beq p q = true) (Pattern.beq_iff p q)

/-- An element of the `std::vector<Option>& options` table threaded through
parsing. -/
structure OptionSpec where
  shortOpt : String
  longOpt : String
  argcount : Nat
  val : Value
deriving DecidableEq, Repr

/-- `Option`'s `name()`: the long spelling when present, otherwise the short
one. -/
def OptionSpec.name (o : OptionSpec) : String :=
  if o.longOpt = "" then o.shortOpt else o.longOpt

/-- The `Option` constructor, including (from the Python source, quoted in
the C++): `self.value = None if value is False and argcount else value`. -/
def OptionSpec.make (s l : String) (ac : Nat) (v : Value) : OptionSpec :=
  ⟨s, l, ac, if ac ≠ 0 ∧ v = .bool false then .empty else v⟩

/-- The `Option` leaf object corresponding to an option spec. -/
def OptionSpec.toLeaf (o : OptionSpec) : LeafObj :=
  ⟨.option o.shortOpt o.longOpt o.argcount, o.name, o.val⟩

/-! ## The matcher's heap

`PatternList& left` and `collected` hold `boost::shared_ptr`s; copying the
lists copies the pointers, not the pointed-to leaf objects.  We model the
pointed-to objects in a `Store` and the lists as lists of indices. -/

/-- The heap of leaf objects referenced from `left`/`collected`. -/
abbrev Store := List LeafObj

/-- Dereference (out-of-range yields a default object; the code never
dereferences an invalid pointer). -/
def getObj (s : Store) (r : Nat) : LeafObj := s.getD r default

/-- `LeafPattern::setValue` through a reference. -/
def storeSet (s : Store) (r : Nat) (v : Value) : Store :=
  s.set r { getObj s r with val := v }

/-- Scan `left` for the first element whose runtime class is `Argument` (or
subclass); returns (position, reference).  Used by `Argument::single_match`
and `Command::single_match`. -/
def findArgLike (s : Store) : List Nat → Option (Nat × Nat)
  | [] => none
  | r :: rest =>
      if isArgLike (getObj s r).kind then some (0, r)
      else (findArgLike s rest).map (fun pr => (pr.1 + 1, pr.2))

/-- Scan `left` for the first leaf with the given name; returns
(position, reference).  Used by `Option::single_match`. -/
def findName (s : Store) (nm : String) : List Nat → Option (Nat × Nat)
  | [] => none
  | r :: rest =>
      if (getObj s r).name = nm then some (0, r)
      else (findName s nm rest).map (fun pr => (pr.1 + 1, pr.2))

/-- `single_match` of the three leaf classes (docopt_private.h).
`Argument` copies the matched value into a fresh `Argument` object;
`Command` checks the first positional's value against its name (and gives up
otherwise: the loop `break`s either way) and allocates a fresh
`Command(name, value(true))`; `Option` returns the matched element of `left`
itself (the same shared pointer, no fresh object). -/
def single_match (d : LeafObj) (s : Store) (l : List Nat) : Store × Option (Nat × Nat) :=
  match d.kind with
  | .argument =>
      match findArgLike s l with
      | none => (s, none)
      | some (i, r) => (s ++ [⟨.argument, d.name, (getObj s r).val⟩], some (i, s.length))
  | .command =>
      match findArgLike s l with
      | none => (s, none)
      | some (i, r) =>
          if (getObj s r).val = .str d.name then
            (s ++ [⟨.command, d.name, .bool true⟩], some (i, s.length))
          else (s, none)
  | .option _ _ _ => (s, findName s d.name l)

/-- First element of `collected` with the given name (the `same_name`
iterator); returns the reference itself. -/
def findCollectedRef (s : Store) (nm : String) : List Nat → Option Nat
  | [] => none
  | r :: rest => if (getObj s r).name = nm then some r else findCollectedRef s nm rest

/-- `val.insert(val.begin(), list.begin(), list.end())` source list for the
string-list branch of `LeafPattern::match`: the matched leaf's own value. -/
def listValOf : Value → List String
  | .str s => [s]
  | .strList xs => xs
  | _ => []

/-- `LeafPattern::match` (docopt_private.h, lines 461-511).  On success the
matched element is erased from `left` and merged into `collected`: if the
grammar leaf's declared value is a counter, increment (or initialise to 1);
if it is a list, concatenate (old list first); otherwise append the matched
leaf as-is.  All value writes go through shared pointers, i.e. mutate the
store. -/
def leaf_match (d : LeafObj) (s : Store) (l c : List Nat) :
    Store × Bool × List Nat × List Nat :=
  match single_match d s l with
  | (s1, none) => (s1, false, l, c)
  | (s1, some (i, r)) =>
      let l' := l.eraseIdx i
      match findCollectedRef s1 d.name c with
      | none =>
          if d.val.isLong then (storeSet s1 r (.long 1), true, l', c ++ [r])
          else if d.val.isStringList then
            (storeSet s1 r (.strList (listValOf (getObj s1 r).val)), true, l', c ++ [r])
          else (s1, true, l', c ++ [r])
      | some r2 =>
          if d.val.isLong then
            match (getObj s1 r2).val with
            | .long n => (storeSet s1 r2 (.long (1 + n)), true, l', c)
            | _ => (storeSet s1 r2 (.long 1), true, l', c)
          else if d.val.isStringList then
            match (getObj s1 r2).val with
            | .strList xs =>
                (storeSet s1 r2 (.strList (xs ++ listValOf (getObj s1 r).val)), true, l', c)
            | _ => (storeSet s1 r2 (.strList (listValOf (getObj s1 r).val)), true, l', c)
          else (s1, true, l', c ++ [r])

/-- `ULONG_MAX` on the (64-bit) target, the sentinel of `Either::match`. -/
def ULONG_MAX : Nat := 2 ^ 64 - 1

/-- The selection loop of `Either::match`: keep the first outcome whose
remaining list is strictly shorter than the current minimum. -/
def eitherFold :
    List (List Nat × List Nat) → Nat → List Nat × List Nat → Nat × (List Nat × List Nat)
  | [], cur, best => (cur, best)
  | o :: rest, cur, best =>
      if o.1.length < cur then eitherFold rest o.1.length o else eitherFold rest cur best

mutual

/-- Virtual dispatch of `Pattern::match(left, collected)`.  The result is
(store, success, left, collected); in C++ `left`/`collected` are in-out
parameters and the store is the implicit heap. -/
def matchPattern (p : Pattern) (s : Store) (l c : List Nat) :
    Store × Bool × List Nat × List Nat :=
  match p with
  | .leaf d => leaf_match d s l c
  | .branch .required cs => requiredGo cs s l c l c
  | .branch .optional cs => optionalGo cs s l c
  | .branch .optionsShortcut cs => optionalGo cs s l c
  | .branch .oneOrMore cs =>
      match cs with
      | [] => (s, false, l, c)
      | ch :: _ =>
          match oomLoop ch (l.length + 2) s l c [] true 0 with
          | none => (s, false, l, c)
          | some (s', l', c', times) =>
              if times = 0 then (s', false, l, c) else (s', true, l', c')
  | .branch .either cs =>
      let ro := eitherOutcomes cs s l c
      let rsel := eitherFold ro.2 ULONG_MAX ([], [])
      if rsel.1 = ULONG_MAX then (ro.1, false, l, c)
      else (ro.1, true, rsel.2.1, rsel.2.2)

/-- `Required::match`: children in order on a copy of the state; the first
failure returns with the caller's original lists (`l0`, `c0`). -/
def requiredGo (cs : List Pattern) (s : Store) (l c l0 c0 : List Nat) :
    Store × Bool × List Nat × List Nat :=
  match cs with
  | [] => (s, true, l, c)
  | p :: rest =>
      let r := matchPattern p s l c
      if r.2.1 then requiredGo rest r.1 r.2.2.1 r.2.2.2 l0 c0
      else (r.1, false, l0, c0)

/-- `Optional::match` (also `OptionsShortcut`): every child is attempted on
the live state, individual failures ignored, overall success. -/
def optionalGo (cs : List Pattern) (s : Store) (l c : List Nat) :
    Store × Bool × List Nat × List Nat :=
  match cs with
  | [] => (s, true, l, c)
  | p :: rest =>
      let r := matchPattern p s l c
      optionalGo rest r.1 r.2.2.1 r.2.2.2

/-- The `while (matched)` loop of `OneOrMore::match`: `lprev` is `l_` (the
remaining list after the previous iteration, initially a default-constructed
empty vector, never compared on the first pass thanks to `firstLoop`).
Exits when the child fails or (from the second iteration on) the remaining
list did not change.  `fuel` bounds the iterations; `none` means fuel ran
out (proved unreachable below). -/
def oomLoop (ch : Pattern) (fuel : Nat) (s : Store) (l c lprev : List Nat)
    (firstLoop : Bool) (times : Nat) :
    Option (Store × List Nat × List Nat × Nat) :=
  match fuel with
  | 0 => none
  | fuel' + 1 =>
      let r := matchPattern ch s l c
      let times' := if r.2.1 then times + 1 else times
      if r.2.1 = false then some (r.1, r.2.2.1, r.2.2.2, times')
      else if firstLoop = false && decide (r.2.2.1 = lprev) then
        some (r.1, r.2.2.1, r.2.2.2, times')
      else oomLoop ch fuel' r.1 r.2.2.1 r.2.2.2 r.2.2.1 false times'

/-- `Either::match`, first phase: attempt every child on a copy of the
caller's lists (the heap mutations of each attempt persist), collecting the
outcomes of the successful children in child order. -/
def eitherOutcomes (cs : List Pattern) (s : Store) (l c : List Nat) :
    Store × List (List Nat × List Nat) :=
  match cs with
  | [] => (s, [])
  | p :: rest =>
      let r := matchPattern p s l c
      let rr := eitherOutcomes rest r.1 l c
      (rr.1, if r.2.1 then (r.2.2.1, r.2.2.2) :: rr.2 else rr.2)

end

/-! ## Tree normalizer (docopt_private.h)

`BranchPattern::fix()` runs `fix_identities` (which only redirects child
shared-pointers to structurally identical nodes already seen: on the pure
tree it is the identity, it changes sharing, not structure) and then
`fix_repeating_arguments`.  Because of the folding, pointer identity in
`fix_repeating_arguments` coincides with structural equality, which is how
duplicate counting is modelled below. -/

mutual

/-- Weight used to prove termination of the `transform` work-list loop. -/
def patW : Pattern → Nat
  | .leaf _ => 1
  | .branch _ cs => 2 + 2 * listW cs

def listW : List Pattern → Nat
  | [] => 0
  | p :: rest => patW p + listW rest

end

/-- Potential of the `groups` work list: sum of `2 ^ listW`. -/
def phiW : List (List Pattern) → Nat
  | [] => 0
  | g :: rest => 2 ^ listW g + phiW rest

theorem patW_pos : ∀ p : Pattern, 1 ≤ patW p
  | .leaf _ => le_refl 1
  | .branch _ _ => by simp [patW]; omega

theorem listW_append : ∀ a b : List Pattern, listW (a ++ b) = listW a + listW b
  | [], b => by simp [listW]
  | p :: rest, b => by simp [listW, listW_append rest b]; omega

theorem phiW_append : ∀ a b : List (List Pattern), phiW (a ++ b) = phiW a + phiW b
  | [], b => by simp [phiW]
  | g :: rest, b => by simp [phiW, phiW_append rest b]; omega

/-- Find the first branch-typed member of a group: returns the leaves before
it, its kind and children, and the members after it. -/
def splitAtBranch :
    List Pattern → Option (List Pattern × BranchKind × List Pattern × List Pattern)
  | [] => none
  | .branch k cs :: rest => some ([], k, cs, rest)
  | .leaf d :: rest =>
      (splitAtBranch rest).map (fun q => (.leaf d :: q.1, q.2.1, q.2.2.1, q.2.2.2))

theorem splitAtBranch_weight :
    ∀ g pre k cs post, splitAtBranch g = some (pre, k, cs, post) →
      listW g = listW pre + (2 + 2 * listW cs) + listW post := by
  intro g
  induction g with
  | nil => intro pre k cs post h; simp [splitAtBranch] at h
  | cons p rest ih =>
      intro pre k cs post h
      match p with
      | .branch k' cs' =>
          simp only [splitAtBranch, Option.some.injEq, Prod.mk.injEq] at h
          obtain ⟨h1, h2, h3, h4⟩ := h
          subst h1; subst h2; subst h3; subst h4
          simp [listW, patW]
      | .leaf d =>
          simp only [splitAtBranch] at h
          cases hs : splitAtBranch rest with
          | none => rw [hs] at h; simp at h
          | some q =>
              rw [hs] at h
              simp only [Option.map_some', Option.some.injEq, Prod.mk.injEq] at h
              obtain ⟨h1, h2, h3, h4⟩ := h
              have := ih q.1 q.2.1 q.2.2.1 q.2.2.2 (by rw [hs])
              subst h1; subst h2; subst h3; subst h4
              simp only [listW, patW] at this ⊢
              omega

/-- Expansion of one branch node inside a group (the body of the `transform`
work-list loop): `Either` produces one new group per alternative (the
alternative prepended to the rest), `OneOrMore` duplicates its children
twice, any other branch splices its children in. -/
def expandOne (k : BranchKind) (cs rest : List Pattern) : List (List Pattern) :=
  match k with
  | .either => cs.map (fun e => e :: rest)
  | .oneOrMore => [cs ++ cs ++ rest]
  | _ => [cs ++ rest]

theorem phiW_either_le :
    ∀ (cs rest : List Pattern),
      phiW (cs.map (fun e => e :: rest)) ≤ listW cs * 2 ^ (listW cs + listW rest) := by
  intro cs rest
  induction cs with
  | nil => simp [phiW, listW]
  | cons e cs ih =>
      simp only [List.map_cons, phiW, listW]
      have h1 : 2 ^ listW (e :: rest) ≤ patW e * 2 ^ (patW e + listW cs + listW rest) := by
        have he : 1 ≤ patW e := patW_pos e
        calc 2 ^ listW (e :: rest) = 2 ^ (patW e + listW rest) := by simp [listW]
          _ ≤ 2 ^ (patW e + listW cs + listW rest) :=
              Nat.pow_le_pow_right (by norm_num) (by omega)
          _ ≤ patW e * 2 ^ (patW e + listW cs + listW rest) :=
              Nat.le_mul_of_pos_left _ (by omega)
      have h2 : phiW (cs.map (fun e => e :: rest)) ≤
          listW cs * 2 ^ (patW e + listW cs + listW rest) := by
        refine le_trans ih ?_
        exact Nat.mul_le_mul_left _ (Nat.pow_le_pow_right (by norm_num) (by omega))
      calc 2 ^ listW (e :: rest) + phiW (cs.map (fun e => e :: rest)) ≤
            patW e * 2 ^ (patW e + listW cs + listW rest) +
              listW cs * 2 ^ (patW e + listW cs + listW rest) := Nat.add_le_add h1 h2
        _ = (patW e + listW cs) * 2 ^ (patW e + listW cs + listW rest) := by ring

theorem phiW_expand_lt (k : BranchKind) (cs rest : List Pattern) :
    phiW (expandOne k cs rest) < 2 ^ (2 + 2 * listW cs + listW rest) := by
  have hpow : ∀ a b : Nat, a ≤ b → 2 ^ a ≤ 2 ^ b :=
    fun a b h => Nat.pow_le_pow_right (by norm_num) h
  match k with
  | .either =>
      refine lt_of_le_of_lt (phiW_either_le cs rest) ?_
      have hW : listW cs < 2 ^ listW cs := Nat.lt_two_pow _
      calc listW cs * 2 ^ (listW cs + listW rest) <
            2 ^ listW cs * 2 ^ (listW cs + listW rest) :=
              Nat.mul_lt_mul_of_lt_of_le hW (le_refl _) (by positivity)
        _ = 2 ^ (listW cs + (listW cs + listW rest)) := by rw [← pow_add]
        _ ≤ 2 ^ (2 + 2 * listW cs + listW rest) := hpow _ _ (by omega)
  | .oneOrMore =>
      simp only [expandOne, phiW, listW_append]
      have := hpow (listW cs + listW cs + listW rest) (1 + 2 * listW cs + listW rest)
        (by omega)
      have h2 : (2:Nat) ^ (1 + 2 * listW cs + listW rest) <
          2 ^ (2 + 2 * listW cs + listW rest) :=
        Nat.pow_lt_pow_right (by norm_num) (by omega)
      omega
  | .required =>
      simp only [expandOne, phiW, listW_append]
      have h2 : (2:Nat) ^ (listW cs + listW rest) < 2 ^ (2 + 2 * listW cs + listW rest) :=
        Nat.pow_lt_pow_right (by norm_num) (by omega)
      omega
  | .optional =>
      simp only [expandOne, phiW, listW_append]
      have h2 : (2:Nat) ^ (listW cs + listW rest) < 2 ^ (2 + 2 * listW cs + listW rest) :=
        Nat.pow_lt_pow_right (by norm_num) (by omega)
      omega
  | .optionsShortcut =>
      simp only [expandOne, phiW, listW_append]
      have h2 : (2:Nat) ^ (listW cs + listW rest) < 2 ^ (2 + 2 * listW cs + listW rest) :=
        Nat.pow_lt_pow_right (by norm_num) (by omega)
      omega

/-- The work-list loop of `transform` (docopt_private.h, lines 354-415):
pop the first group; if it contains no branch node it is finished (appended
to the result in completion order); otherwise remove its first branch node,
expand it, and append the new groups at the back of the queue. -/
def transformGo (groups : List (List Pattern)) : List (List Pattern) :=
  match groups with
  | [] => []
  | g :: rest =>
      match h : splitAtBranch g with
      | none => g :: transformGo rest
      | some (pre, k, cs, post) => transformGo (rest ++ expandOne k cs (pre ++ post))
termination_by phiW groups
decreasing_by
  · simp only [phiW]
    have : 0 < 2 ^ listW g := Nat.pos_pow_of_pos _ (by norm_num)
    omega
  · have hw := splitAtBranch_weight g pre k cs post h
    have he := phiW_expand_lt k cs (pre ++ post)
    rw [phiW_append]
    simp only [phiW]
    rw [listW_append] at he
    have : phiW (expandOne k cs (pre ++ post)) < 2 ^ listW g := by
      rw [hw]
      refine lt_of_lt_of_le he (Nat.pow_le_pow_right (by norm_num) (by omega))
    omega

/-- `transform(pattern)` : expand a child list into the list of its
fully-expanded alternative leaf sequences. -/
def transform (pattern : List Pattern) : List (List Pattern) :=
  transformGo [pattern]

/-- `split()` from docopt_util.h with its default whitespace set
`" \t\r\n\v\f"`. -/
def isAnySpace (ch : Char) : Bool :=
  ch = ' ' ∨ ch = '\t' ∨ ch = '\r' ∨ ch = '\n' ∨ ch = (Char.ofNat 11) ∨ ch = (Char.ofNat 12)

/-- Take the maximal non-whitespace run: returns (run, rest). -/
def takeRun : List Char → List Char × List Char
  | [] => ([], [])
  | ch :: rest =>
      if isAnySpace ch then ([], ch :: rest)
      else
        let q := takeRun rest
        (ch :: q.1, q.2)

theorem takeRun_rest_le : ∀ cs : List Char, (takeRun cs).2.length ≤ cs.length
  | [] => by simp [takeRun]
  | ch :: rest => by
      simp only [takeRun]
      by_cases h : isAnySpace ch
      · simp [h]
      · simp only [h]
        have := takeRun_rest_le rest
        simp only [Bool.false_eq_true, if_false]
        simp only [List.length_cons]
        omega

def splitWSChars : List Char → List String
  | [] => []
  | ch :: rest =>
      if isAnySpace ch then splitWSChars rest
      else ⟨(takeRun (ch :: rest)).1⟩ :: splitWSChars (takeRun (ch :: rest)).2
termination_by cs => cs.length
decreasing_by
  · simp
  · simp only [takeRun]
    split
    · simp_all
    · have := takeRun_rest_le rest
      simp only [List.length_cons]
      omega

def split (s : String) : List String := splitWSChars s.data

/-- The value rewrite of `fix_repeating_arguments` for the ensure-list case:
a plain-string value is split on whitespace, a value that is not already a
string-list becomes the (possibly empty) list, an existing string-list is
kept. -/
def ensureListVal : Value → Value
  | .str s => .strList (split s)
  | .strList xs => .strList xs
  | _ => .strList []

/-- The per-leaf retyping of `fix_repeating_arguments`: `Command` and
zero-argument `Option` leaves get the counter 0, `Argument` and
argument-taking `Option` leaves get the ensure-list treatment. -/
def retypeLeaf (d : LeafObj) : LeafObj :=
  match d.kind with
  | .command => { d with val := .long 0 }
  | .argument => { d with val := ensureListVal d.val }
  | .option _ _ ac =>
      if ac ≠ 0 then { d with val := ensureListVal d.val } else { d with val := .long 0 }

/-- The leaves that occur more than once in a fully-expanded group (the
`unordered_multiset` count in `fix_repeating_arguments`; after the identity
folding, pointer equality there is structural equality here). -/
def groupFlagged (g : List Pattern) : List LeafObj :=
  g.filterMap (fun p =>
    match p with
    | .leaf d => if 2 ≤ g.count (Pattern.leaf d) then some d else none
    | .branch _ _ => none)

/-- All leaves flagged by some expanded group. -/
def flaggedLeaves (cs : List Pattern) : List LeafObj :=
  ((transform cs).map groupFlagged).flatten

mutual

/-- In-place mutation of the flagged (shared) leaf nodes, visible at every
occurrence in the tree. -/
def replaceLeaves (fl : List LeafObj) : Pattern → Pattern
  | .leaf d => if fl.contains d then .leaf (retypeLeaf d) else .leaf d
  | .branch k cs => .branch k (replaceLeavesList fl cs)

def replaceLeavesList (fl : List LeafObj) : List Pattern → List Pattern
  | [] => []
  | p :: rest => replaceLeaves fl p :: replaceLeavesList fl rest

end

/-- `BranchPattern::fix_repeating_arguments()` on the root's child list. -/
def fix_repeating_arguments (cs : List Pattern) : List Pattern :=
  replaceLeavesList (flaggedLeaves cs) cs

/-- `BranchPattern::fix()` : `fix_identities` (the identity on the pure
tree: it only unifies structurally equal nodes into shared pointers)
followed by `fix_repeating_arguments`. -/
def fix : Pattern → Pattern
  | .leaf d => .leaf d
  | .branch k cs => .branch k (fix_repeating_arguments cs)

mutual

/-- `Pattern::leaves()` / `collect_leaves`: all leaves, depth first, left to
right. -/
def leavesOf : Pattern → List LeafObj
  | .leaf d => [d]
  | .branch _ cs => leavesList cs

def leavesList : List Pattern → List LeafObj
  | [] => []
  | p :: rest => leavesOf p ++ leavesList rest

end

/-! ## String utilities (docopt_util.h) -/

/-- `starts_with` -/
def startsWithStr (s pre : String) : Bool := pre.data.isPrefixOf s.data

theorem dropWhile_length_le (p : Char → Bool) :
    ∀ cs : List Char, (cs.dropWhile p).length ≤ cs.length := by
  intro cs
  induction cs with
  | nil => simp [List.dropWhile]
  | cons c rest ih =>
      simp only [List.dropWhile]
      by_cases h : p c
      · simp only [h]; simpa using Nat.le_succ_of_le ih
      · simp [h]

/-- `trim(str)` with whitespace `" \t\n"` (strips the end, then the
beginning). -/
def isTrimSpace (c : Char) : Bool := c = ' ' ∨ c = '\t' ∨ c = '\n'

def trimChars (cs : List Char) : List Char :=
  ((cs.dropWhile isTrimSpace).reverse.dropWhile isTrimSpace).reverse

def trim (s : String) : String := ⟨trimChars s.data⟩

/-- `join(iter, end, delim)` -/
def joinSep : List String → String → String
  | [], _ => ""
  | [x], _ => x
  | x :: rest, d => x ++ d ++ joinSep rest d

/-- Index of the first occurrence of a character. -/
def findCharIdx (cs : List Char) (c : Char) : Option Nat :=
  (cs.enum.find? (fun pr => pr.2 = c)).map (·.1)

/-- Index of the first occurrence of a two-character substring. -/
def findSub2Idx : List Char → Char → Char → Option Nat
  | [], _, _ => none
  | [_], _, _ => none
  | a :: b :: rest, x, y =>
      if a = x ∧ b = y then some 0
      else (findSub2Idx (b :: rest) x y).map (· + 1)

/-- `partition(str, "=")`: (before, "=", after), or (str, "", "") when the
point does not occur. -/
def strPartitionEq (s : String) : String × String × String :=
  match findCharIdx s.data '=' with
  | none => (s, "", "")
  | some i => (⟨s.data.take i⟩, "=", ⟨s.data.drop (i + 1)⟩)

/-! ## Tokenizer (class `Tokens` in docopt.cpp) -/

structure Tokens where
  toks : List String
  argvMode : Bool
deriving DecidableEq, Repr

/-- `Tokens::operator bool()` -/
def Tokens.hasMore (t : Tokens) : Bool := ¬ t.toks.isEmpty

/-- `Tokens::current()` (empty string when exhausted) -/
def Tokens.current (t : Tokens) : String := t.toks.headD ""

/-- `Tokens::pop()` -/
def Tokens.pop (t : Tokens) : String × Tokens :=
  (t.toks.headD "", { t with toks := t.toks.tail })

/-- `Tokens::the_rest()` -/
def Tokens.theRest (t : Tokens) : String := joinSep t.toks " "

/-- ECMAScript `\s` for the characters that occur in usage text. -/
def isRegexSpace (c : Char) : Bool :=
  c = ' ' ∨ c = '\t' ∨ c = '\n' ∨ c = '\r' ∨ c = Char.ofNat 11 ∨ c = Char.ofNat 12

/-- The strong delimiters of `re_separators`: brackets, parens, pipe. -/
def isSepChar (c : Char) : Bool :=
  c = '[' ∨ c = ']' ∨ c = '(' ∨ c = ')' ∨ c = '|'

/-- Find the next separator (`[ ] ( ) |` or `...`) in the grammar text:
returns (text before it, the separator token, text after it). -/
def findSep : List Char → Option (List Char × String × List Char)
  | [] => none
  | c :: rest =>
      if isSepChar c then some ([], ⟨[c]⟩, rest)
      else if c = '.' ∧ rest.take 2 = ['.', '.'] then some ([], "...", rest.drop 2)
      else (findSep rest).map (fun q => (c :: q.1, q.2.1, q.2.2))

theorem findSep_rest_lt :
    ∀ cs pre sep rest, findSep cs = some (pre, sep, rest) → rest.length < cs.length := by
  intro cs
  induction cs with
  | nil => intro pre sep rest h; simp [findSep] at h
  | cons c cr ih =>
      intro pre sep rest h
      simp only [findSep] at h
      by_cases hc : isSepChar c
      · simp only [hc, if_true, Option.some.injEq, Prod.mk.injEq] at h
        obtain ⟨_, _, h3⟩ := h
        subst h3; simp
      · simp only [hc, Bool.false_eq_true, if_false] at h
        by_cases hd : c = '.' ∧ cr.take 2 = ['.', '.']
        · rw [if_pos hd] at h
          simp only [Option.some.injEq, Prod.mk.injEq] at h
          obtain ⟨_, _, h3⟩ := h
          subst h3
          simp only [List.length_drop, List.length_cons]
          omega
        · rw [if_neg hd] at h
          cases hf : findSep cr with
          | none => rw [hf] at h; simp at h
          | some q =>
              rw [hf] at h
              simp only [Option.map_some', Option.some.injEq, Prod.mk.injEq] at h
              obtain ⟨_, _, h3⟩ := h
              have := ih q.1 q.2.1 q.2.2 (by rw [hf])
              subst h3
              simp only [List.length_cons]
              omega

/-- Positions of `<` in the maximal non-space run, last first (the greedy
backtracking order of `\S*` in `re_strings`). -/
def ltPosDesc (run : List Char) : List Nat :=
  ((run.enum.filter (fun pr => pr.2 = '<')).map (·.1)).reverse

def firstGtIdx (cs : List Char) : Option Nat :=
  (cs.enum.find? (fun pr => pr.2 = '>')).map (·.1)

/-- Attempt `\S*<.*?>` at the head of `cs`: for the latest `<` in the
non-space run followed (anywhere, spaces allowed) by a `>`, the match runs
through the first such `>`. -/
def alt1Try (cs : List Char) : List Nat → Option (List Char × List Char)
  | [] => none
  | q :: more =>
      match firstGtIdx (cs.drop (q + 1)) with
      | some j => some (cs.take (q + 1 + j + 1), cs.drop (q + 1 + j + 1))
      | none => alt1Try cs more

def alt1Match (cs : List Char) : Option (List Char × List Char) :=
  alt1Try cs (ltPosDesc (cs.takeWhile (fun x => ¬ isRegexSpace x)))

theorem alt1Try_rest_lt (cs : List Char) (hne : cs ≠ []) :
    ∀ qs tok rest, alt1Try cs qs = some (tok, rest) → rest.length < cs.length := by
  intro qs
  induction qs with
  | nil => intro tok rest h; simp [alt1Try] at h
  | cons q more ih =>
      intro tok rest h
      simp only [alt1Try] at h
      cases hg : firstGtIdx (cs.drop (q + 1)) with
      | none => rw [hg] at h; exact ih tok rest h
      | some j =>
          rw [hg] at h
          simp only [Option.some.injEq, Prod.mk.injEq] at h
          obtain ⟨_, h2⟩ := h
          subst h2
          have : cs.length ≠ 0 := by
            intro h0
            exact hne (List.length_eq_zero.mp h0)
          simp only [List.length_drop]
          omega

/-- Maximal run without whitespace, `<` or `>` (the `[^<>\s]+` alternative
of `re_strings`): returns (run, rest). -/
def takeTok : List Char → List Char × List Char
  | [] => ([], [])
  | c :: rest =>
      if ¬ isRegexSpace c ∧ c ≠ '<' ∧ c ≠ '>' then
        let q := takeTok rest
        (c :: q.1, q.2)
      else ([], c :: rest)

theorem takeTok_rest_le : ∀ cs : List Char, (takeTok cs).2.length ≤ cs.length
  | [] => by simp [takeTok]
  | c :: rest => by
      simp only [takeTok]
      by_cases h : ¬ isRegexSpace c ∧ c ≠ '<' ∧ c ≠ '>'
      · rw [if_pos h]
        have := takeTok_rest_le rest
        simp only [List.length_cons]
        omega
      · rw [if_neg h]

/-- The string-token pass of the tokenizer (`re_strings`): at each position,
skip whitespace, prefer a `\S*<.*?>` match (keeping `<a name>` together),
otherwise take a maximal run without `<`, `>` or whitespace. -/
def scanStrings : List Char → List String
  | [] => []
  | c :: rest =>
      if isRegexSpace c then scanStrings rest
      else
        match h : alt1Match (c :: rest) with
        | some (tok, rest') => (⟨tok⟩ : String) :: scanStrings rest'
        | none =>
            if c = '<' ∨ c = '>' then scanStrings rest
            else
              (⟨(takeTok (c :: rest)).1⟩ : String) ::
                scanStrings (takeTok (c :: rest)).2
termination_by cs => cs.length
decreasing_by
  · simp
  · exact alt1Try_rest_lt _ (by simp) _ _ _ h
  · simp
  · have hlem : ∀ (a : Char) (as : List Char), ¬ isRegexSpace a ∧ a ≠ '<' ∧ a ≠ '>' →
        (takeTok (a :: as)).2.length < (a :: as).length := by
      intro a as ha
      simp only [takeTok]
      rw [if_pos ha]
      have := takeTok_rest_le as
      simp only [List.length_cons]
      omega
    exact hlem _ _ ⟨by simp_all, by simp_all, by simp_all⟩

/-- `Tokens::from_pattern`: find the strong separators in order; the text
between consecutive separators is scanned for string tokens; text after the
last separator is never reached (the C++ only iterates separator matches). -/
def tokenizeGrammarChars (cs : List Char) : List String :=
  match h : findSep cs with
  | none => []
  | some (pre, sep, rest) => scanStrings pre ++ sep :: tokenizeGrammarChars rest
termination_by cs.length
decreasing_by
  · exact findSep_rest_lt cs pre sep rest h

def Tokens.from_pattern (source : String) : Tokens :=
  ⟨tokenizeGrammarChars source.data, false⟩

theorem scanStrings_nil : scanStrings [] = [] := by
  rw [scanStrings]

/-- One non-dependent unfolding of `scanStrings` (for evaluation). -/
theorem scanStrings_cons (c : Char) (rest : List Char) :
    scanStrings (c :: rest) =
      if isRegexSpace c then scanStrings rest
      else
        match alt1Match (c :: rest) with
        | some (tok, rest') => (⟨tok⟩ : String) :: scanStrings rest'
        | none =>
            if c = '<' ∨ c = '>' then scanStrings rest
            else
              (⟨(takeTok (c :: rest)).1⟩ : String) ::
                scanStrings (takeTok (c :: rest)).2 := by
  conv_lhs => rw [scanStrings]
  by_cases hsp : isRegexSpace c
  · rw [if_pos hsp, if_pos hsp]
  · rw [if_neg hsp, if_neg hsp]
    split
    · next tok rest' heq => rw [heq]
    · next heq => rw [heq]

/-- One non-dependent unfolding of `tokenizeGrammarChars` (for
evaluation). -/
theorem tokenizeGrammarChars_eq (cs : List Char) :
    tokenizeGrammarChars cs =
      match findSep cs with
      | none => []
      | some (pre, sep, rest) => scanStrings pre ++ sep :: tokenizeGrammarChars rest := by
  conv_lhs => rw [tokenizeGrammarChars]
  split
  · next heq => rw [heq]
  · next pre sep rest heq => rw [heq]

/-! ## Section extraction (docopt.cpp `parse_section`) -/

/-- Split into newline-separated lines (keeping empty lines). -/
def splitLinesChars : List Char → List (List Char)
  | [] => [[]]
  | c :: rest =>
      let r := splitLinesChars rest
      if c = '\n' then [] :: r
      else (c :: r.headD []) :: r.tail

def lowerChars (cs : List Char) : List Char := cs.map Char.toLower

def listInfixOf (needle : List Char) : List Char → Bool
  | [] => needle.isEmpty
  | c :: rest => needle.isPrefixOf (c :: rest) || listInfixOf needle rest

/-- A line that contains the (case-insensitive) section label. -/
def lineHasLabel (lab line : List Char) : Bool :=
  listInfixOf (lowerChars lab) (lowerChars line)

/-- A continuation line of a section block: starts with a space or tab. -/
def isIndented : List Char → Bool
  | ' ' :: _ => true
  | '\t' :: _ => true
  | _ => false

def joinLinesChars (lns : List (List Char)) : List Char :=
  List.intercalate ['\n'] lns

/-- `parse_section(name, source)`: every block made of a line containing the
label plus all immediately following indented lines, trimmed. -/
def sectionScan (lab : List Char) : List (List Char) → List String
  | [] => []
  | line :: rest =>
      if lineHasLabel lab line then
        let cont := rest.takeWhile (fun ln => isIndented ln)
        trim ⟨joinLinesChars (line :: cont)⟩ ::
          sectionScan lab (rest.drop cont.length)
      else sectionScan lab rest
termination_by lns => lns.length
decreasing_by
  · simp only [List.length_drop, List.length_cons]
    omega
  · simp

def parse_section (name source : String) : List String :=
  sectionScan name.data (splitLinesChars source.data)

/-- `formal_usage(section)`: drop through the `:` of `usage:`, treat the
first whitespace word as the program name, replace later repetitions of it
by `) | (`, and parenthesise the whole expression. -/
def formal_usage (sec : String) : String :=
  let i := match findCharIdx sec.data ':' with
    | some j => j + 1
    | none => 0
  let parts := splitWSChars (sec.data.drop i)
  match parts with
  | [] => "( )"
  | p0 :: rest =>
      "(" ++ (rest.foldl (fun acc part =>
        if part = p0 then acc ++ " ) | (" else acc ++ " " ++ part) "") ++ " )"

/-! ## Option descriptions (`Option::parse`, `parse_defaults`) -/

def isOptDelim (c : Char) : Bool := c = ',' ∨ c = '=' ∨ c = ' '

/-- The leading `(-{1,2})?` of one `Option::parse` match: number of dashes
consumed (greedy, at most two) and the remaining text. -/
def optDashes (c : Char) (cs : List Char) : Nat × List Char :=
  if c = '-' then
    match cs with
    | '-' :: cs' => (2, cs')
    | _ => (1, cs)
  else (0, c :: cs)

theorem optDashes_le (c : Char) (cs : List Char) :
    (optDashes c cs).2.length ≤ cs.length + 1 := by
  simp only [optDashes]
  by_cases hc : c = '-'
  · rw [if_pos hc]
    match cs with
    | '-' :: cs' => simp; omega
    | [] => simp
    | x :: cs' =>
        by_cases hx : x = '-'
        · subst hx; simp; omega
        · split <;> simp_all <;> omega
  · rw [if_neg hc]; simp

/-- The match loop of `Option::parse` over the text before the first double
space: each match is up-to-two leading dashes, a lazy body, and a
`,`/`=`/space delimiter (or end of text). -/
def optScan : List Char → String → String → Nat → String × String × Nat
  | [], s, l, ac => (s, l, ac)
  | c :: cs, s, l, ac =>
      let da := optDashes c cs
      let mid := da.2.takeWhile (fun x => ¬ isOptDelim x)
      let nxt : String × String × Nat :=
        if da.1 = 1 then ("-" ++ (⟨mid⟩ : String), l, ac)
        else if da.1 = 2 then (s, "--" ++ (⟨mid⟩ : String), ac)
        else if mid ≠ [] then (s, l, 1)
        else (s, l, ac)
      match hr : da.2.drop mid.length with
      | [] => nxt
      | _ :: rest' => optScan rest' nxt.1 nxt.2.1 nxt.2.2
termination_by cs _ _ _ => cs.length
decreasing_by
  · have h1 := optDashes_le c cs
    have h2 := congrArg List.length hr
    have h3 : da.2.length = (optDashes c cs).2.length := rfl
    simp only [List.length_drop, List.length_cons] at h2 ⊢
    omega

/-- Case-insensitive prefix test against the literal `[default: `. -/
def defaultPrefix : List Char := ['[', 'd', 'e', 'f', 'a', 'u', 'l', 't', ':', ' ']

/-- The `[default: (.*)]` (case-insensitive) search over the text after the
double space: from the first position where the literal prefix matches and a
`]` still occurs on the same line, capture greedily up to the last `]` of
that line. -/
def findDefault : List Char → Option String
  | [] => none
  | c :: rest =>
      if defaultPrefix.isPrefixOf (lowerChars (c :: rest)) then
        let after := (c :: rest).drop defaultPrefix.length
        let line := after.takeWhile (fun x => x ≠ '\n')
        match (((line.enum.filter (fun pr => pr.2 = ']')).map (·.1)).getLast?) with
        | some k => some ⟨line.take k⟩
        | none => findDefault rest
      else findDefault rest

/-- `Option::parse(option_description)` -/
def Option_parse (desc : String) : OptionSpec :=
  let ds := desc.data
  let mainLen := match findSub2Idx ds ' ' ' ' with
    | some i => i
    | none => ds.length
  let dsMain := ds.take mainLen
  let scanned := optScan dsMain "" "" 0
  let argcount := scanned.2.2
  let val : Value :=
    if argcount ≠ 0 then
      match findDefault (ds.drop mainLen) with
      | some v => .str v
      | none => .bool false
    else .bool false
  OptionSpec.make scanned.1 scanned.2.1 argcount val

/-- The `re_delimiter` split of an options section: pieces separated by a
newline (or start of text) followed by indentation and a dash. -/
def delimAhead (cs : List Char) : Bool :=
  match cs.dropWhile (fun x => x = ' ' ∨ x = '\t') with
  | '-' :: _ => true
  | _ => false

def dropIndent (cs : List Char) : List Char :=
  cs.dropWhile (fun x => x = ' ' ∨ x = '\t')

def delimSplitGo : List Char → List Char → List String
  | [], acc => [⟨acc⟩]
  | '\n' :: rest, acc =>
      if delimAhead rest then (⟨acc⟩ : String) :: delimSplitGo (dropIndent rest) []
      else delimSplitGo rest (acc ++ ['\n'])
  | c :: rest, acc => delimSplitGo rest (acc ++ [c])
termination_by cs _ => cs.length
decreasing_by
  · have := dropWhile_length_le (fun x => x = ' ' ∨ x = '\t') rest
    simp only [dropIndent, List.length_cons]
    omega
  · simp
  · simp

def regexSplitDelim (s : String) : List String :=
  if delimAhead s.data then "" :: delimSplitGo (dropIndent s.data) []
  else delimSplitGo s.data []

/-- `parse_defaults(doc)`: for each `options:` section, drop through the
colon, split at option-description starts, and parse each piece that starts
with a dash. -/
def parse_defaults (doc : String) : List OptionSpec :=
  ((parse_section "options:" doc).map (fun sec =>
    let s1 : String := match findCharIdx sec.data ':' with
      | some i => ⟨sec.data.drop (i + 1)⟩
      | none => sec
    ((regexSplitDelim s1).filter (fun piece => startsWithStr piece "-")).map
      Option_parse)).flatten

/-! ## Long and short options (`parse_long`, `parse_short`) -/

/-- `parse_long(tokens, options)` : resolve (or register) a `--token`,
returning the produced leaf objects, the updated option table and tokens. -/
def parse_long (t : Tokens) (opts : List OptionSpec) :
    Except String (List LeafObj × List OptionSpec × Tokens) :=
  let pr := t.pop
  let t1 := pr.2
  let part := strPartitionEq pr.1
  let longOpt := part.1
  let equal := part.2.1
  let val0 : Value := if equal = "" then .empty else .str part.2.2
  let exact := opts.filter (fun o => o.longOpt = longOpt)
  let similar :=
    if t.argvMode ∧ exact = [] then
      opts.filter (fun o => o.longOpt ≠ "" ∧ startsWithStr o.longOpt longOpt)
    else exact
  match similar with
  | [] =>
      let argcount := if equal = "" then 0 else 1
      let newOpt := OptionSpec.make "" longOpt argcount (.bool false)
      let obj : LeafObj :=
        ⟨.option "" longOpt argcount, newOpt.name,
          if t.argvMode then (if argcount ≠ 0 then val0 else .bool true) else newOpt.val⟩
      .ok ([obj], opts ++ [newOpt], t1)
  | o :: rest =>
      if rest ≠ [] then
        .error ("'" ++ longOpt ++ "' is not a unique prefix: " ++
          joinSep (similar.map (·.longOpt)) ", ")
      else
        if o.argcount = 0 then
          if val0.truthy then .error (o.longOpt ++ " must not have an argument")
          else
            .ok ([⟨.option o.shortOpt o.longOpt o.argcount, o.name,
              if t.argvMode then .bool true else o.val⟩], opts, t1)
        else
          if val0.truthy then
            .ok ([⟨.option o.shortOpt o.longOpt o.argcount, o.name,
              if t.argvMode then val0 else o.val⟩], opts, t1)
          else
            let tok2 := t1.current
            if tok2 = "" ∨ tok2 = "--" then .error (o.longOpt ++ " requires an argument")
            else
              let pr2 := t1.pop
              .ok ([⟨.option o.shortOpt o.longOpt o.argcount, o.name,
                if t.argvMode then .str pr2.1 else o.val⟩], opts, pr2.2)

/-- The per-character loop of `parse_short` over the characters of a
`-abc` run. -/
def parseShortGo (argvMode : Bool) :
    List Char → List OptionSpec → Tokens → List LeafObj →
    Except String (List LeafObj × List OptionSpec × Tokens)
  | [], opts, tk, acc => .ok (acc, opts, tk)
  | ch :: rest, opts, tk, acc =>
      let shortOpt : String := ⟨['-', ch]⟩
      let similar := opts.filter (fun o => o.shortOpt = shortOpt)
      match similar with
      | [] =>
          let newOpt := OptionSpec.make shortOpt "" 0 (.bool false)
          let obj : LeafObj :=
            ⟨.option shortOpt "" 0, newOpt.name,
              if argvMode then .bool true else newOpt.val⟩
          parseShortGo argvMode rest (opts ++ [newOpt]) tk (acc ++ [obj])
      | o :: more =>
          if more ≠ [] then
            .error (shortOpt ++ " is specified ambiguously " ++
              toString similar.length ++ " times")
          else
            if o.argcount ≠ 0 then
              if rest = [] then
                let tt := tk.current
                if tt = "" ∨ tt = "--" then
                  .error (shortOpt ++ " requires an argument")
                else
                  let pr2 := tk.pop
                  .ok (acc ++ [⟨.option o.shortOpt o.longOpt o.argcount, o.name,
                      if argvMode then .str pr2.1 else o.val⟩], opts, pr2.2)
              else
                .ok (acc ++ [⟨.option o.shortOpt o.longOpt o.argcount, o.name,
                    if argvMode then .str ⟨rest⟩ else o.val⟩], opts, tk)
            else
              parseShortGo argvMode rest opts tk
                (acc ++ [⟨.option o.shortOpt o.longOpt o.argcount, o.name,
                  if argvMode then .bool true else o.val⟩])

/-- `parse_short(tokens, options)` -/
def parse_short (t : Tokens) (opts : List OptionSpec) :
    Except String (List LeafObj × List OptionSpec × Tokens) :=
  let pr := t.pop
  parseShortGo t.argvMode pr.1.data.tail opts pr.2 []

/-! ## Recursive-descent grammar parser (`parse_atom` / `parse_seq` /
`parse_expr`), with explicit fuel for the mutual recursion. -/

/-- `is_argument_spec(token)`: `<...>`-delimited or fully upper case. -/
def is_argument_spec (token : String) : Bool :=
  match token.data with
  | [] => false
  | c :: rest =>
      (c = '<' ∧ (c :: rest).getLast? = some '>') ∨ (c :: rest).all Char.isUpper

/-- Collapse a sequence to its sole member or wrap in `Required`. -/
def maybe_collapse_to_required (seq : List Pattern) : Pattern :=
  match seq with
  | [x] => x
  | _ => .branch .required seq

/-- Collapse alternatives to the sole one or wrap in `Either`. -/
def maybe_collapse_to_either (seq : List Pattern) : Pattern :=
  match seq with
  | [x] => x
  | _ => .branch .either seq

mutual

def parse_expr (fuel : Nat) (t : Tokens) (opts : List OptionSpec) :
    Except String (List Pattern × List OptionSpec × Tokens) :=
  match fuel with
  | 0 => .error "out of fuel"
  | fuel + 1 => do
      let (seq1, opts1, t1) ← parse_seq fuel t opts
      if t1.current ≠ "|" then .ok (seq1, opts1, t1)
      else do
        let (alts, opts2, t2) ←
          parse_expr_alts fuel t1 opts1 [maybe_collapse_to_required seq1]
        .ok ([maybe_collapse_to_either alts], opts2, t2)

termination_by structural fuel

def parse_expr_alts (fuel : Nat) (t : Tokens) (opts : List OptionSpec)
    (acc : List Pattern) :
    Except String (List Pattern × List OptionSpec × Tokens) :=
  match fuel with
  | 0 => .error "out of fuel"
  | fuel + 1 =>
      if t.current = "|" then do
        let t1 := t.pop.2
        let (seq1, opts1, t2) ← parse_seq fuel t1 opts
        parse_expr_alts fuel t2 opts1 (acc ++ [maybe_collapse_to_required seq1])
      else .ok (acc, opts, t)

termination_by structural fuel

def parse_seq (fuel : Nat) (t : Tokens) (opts : List OptionSpec) :
    Except String (List Pattern × List OptionSpec × Tokens) :=
  match fuel with
  | 0 => .error "out of fuel"
  | fuel + 1 =>
      if ¬ t.hasMore ∨ t.current = "]" ∨ t.current = ")" ∨ t.current = "|" then
        .ok ([], opts, t)
      else do
        let (atom1, opts1, t1) ← parse_atom fuel t opts
        if t1.current = "..." then do
          let (restSeq, opts2, t3) ← parse_seq fuel t1.pop.2 opts1
          .ok (.branch .oneOrMore atom1 :: restSeq, opts2, t3)
        else do
          let (restSeq, opts2, t3) ← parse_seq fuel t1 opts1
          .ok (atom1 ++ restSeq, opts2, t3)

termination_by structural fuel

def parse_atom (fuel : Nat) (t : Tokens) (opts : List OptionSpec) :
    Except String (List Pattern × List OptionSpec × Tokens) :=
  match fuel with
  | 0 => .error "out of fuel"
  | fuel + 1 =>
      let token := t.current
      if token = "[" then do
        let (expr1, opts1, t2) ← parse_expr fuel t.pop.2 opts
        let pr := t2.pop
        if pr.1 ≠ "]" then .error "Mismatched '['"
        else .ok ([.branch .optional expr1], opts1, pr.2)
      else if token = "(" then do
        let (expr1, opts1, t2) ← parse_expr fuel t.pop.2 opts
        let pr := t2.pop
        if pr.1 ≠ ")" then .error "Mismatched '('"
        else .ok ([.branch .required expr1], opts1, pr.2)
      else if token = "options" then
        .ok ([.branch .optionsShortcut []], opts, t.pop.2)
      else if startsWithStr token "--" ∧ token ≠ "--" then
        (parse_long t opts).map (fun q => (q.1.map Pattern.leaf, q.2.1, q.2.2))
      else if startsWithStr token "-" ∧ token ≠ "-" ∧ token ≠ "--" then
        (parse_short t opts).map (fun q => (q.1.map Pattern.leaf, q.2.1, q.2.2))
      else if is_argument_spec token then
        .ok ([.leaf ⟨.argument, token, .empty⟩], opts, t.pop.2)
      else
        .ok ([.leaf ⟨.command, token, .bool false⟩], opts, t.pop.2)
termination_by structural fuel

end

/-- `parse_pattern(source, options)` -/
def parse_pattern (source : String) (opts : List OptionSpec) :
    Except String (Pattern × List OptionSpec) := do
  let t := Tokens.from_pattern source
  let fuel := 3 * t.toks.length + 10
  let (result, opts1, t1) ← parse_expr fuel t opts
  if t1.hasMore then .error ("Unexpected ending: '" ++ t1.theRest ++ "'")
  else .ok (.branch .required result, opts1)

/-! ## Pattern-tree construction (`create_pattern_tree`) -/

/-- The `Option` leaves of the tree, depth first
(`flat_filter<Option const>`). -/
def patternOptionLeaves (p : Pattern) : List LeafObj :=
  (leavesOf p).filter (fun d =>
    match d.kind with
    | .option _ _ _ => true
    | _ => false)

/-- Deduplication identity of an option (spec §3: short flag, long flag,
arity). -/
def optIdent (o : OptionSpec) : String × String × Nat := (o.shortOpt, o.longOpt, o.argcount)

def leafOptIdent (d : LeafObj) : Option (String × String × Nat) :=
  match d.kind with
  | .option s l ac => some (s, l, ac)
  | _ => none

/-- Lexicographic byte order on strings (`std::string operator<` for the
ASCII strings this library handles). -/
def charsLt : List Char → List Char → Bool
  | [], [] => false
  | [], _ :: _ => true
  | _ :: _, [] => false
  | a :: as, b :: bs =>
      if a.val < b.val then true
      else if b.val < a.val then false
      else charsLt as bs

def strLt (a b : String) : Bool := charsLt a.data b.data

/-- Modelled from the spec: the comparator `PatternLess` used for the
`std::set<Option const*>` in `create_pattern_tree` is referenced in
src/docopt.cpp but its definition is not among the provided sources.  Per
spec §3, option identity for deduplication is the triple (short flag, long
flag, arity); the set is modelled as ordered by that triple
lexicographically, with first-inserted element kept among equivalents. -/
def optLt (a b : OptionSpec) : Bool :=
  strLt a.shortOpt b.shortOpt ∨
    (a.shortOpt = b.shortOpt ∧
      (strLt a.longOpt b.longOpt ∨
        (a.longOpt = b.longOpt ∧ a.argcount < b.argcount)))

/-- `std::set` insertion under `optLt`: keeps the existing element when
equivalent. -/
def setInsert : List OptionSpec → OptionSpec → List OptionSpec
  | [], o => [o]
  | x :: rest, o =>
      if optLt o x then o :: x :: rest
      else if optLt x o then x :: setInsert rest o
      else x :: rest

mutual

/-- Install the computed children into every `OptionsShortcut` node (they
are all created with empty child lists by the parser). -/
def fillShortcuts (children : List Pattern) : Pattern → Pattern
  | .leaf d => .leaf d
  | .branch .optionsShortcut _ => .branch .optionsShortcut children
  | .branch k cs => .branch k (fillShortcutsList children cs)

def fillShortcutsList (children : List Pattern) : List Pattern → List Pattern
  | [] => []
  | p :: rest => fillShortcuts children p :: fillShortcutsList children rest

end

/-- The part of `create_pattern_tree` that runs once the single usage
section is in hand: parse the defaults, parse the usage pattern, and fill
the `[options]` shortcuts with the doc options not already in the tree. -/
def createFromUsage (doc u : String) : Except String (Pattern × List OptionSpec) := do
  let options := parse_defaults doc
  let (pattern, options1) ← parse_pattern (formal_usage u) options
  let patOpts := patternOptionLeaves pattern
  let docOptions := parse_defaults doc
  let uniqDoc := (docOptions.filter (fun o =>
    ¬ (patOpts.any (fun d => leafOptIdent d = some (optIdent o))))).foldl setInsert []
  let children := (uniqDoc.map OptionSpec.toLeaf).map Pattern.leaf
  .ok (fillShortcuts children pattern, options1)

/-- `create_pattern_tree(doc)` -/
def create_pattern_tree (doc : String) : Except String (Pattern × List OptionSpec) :=
  match parse_section "usage:" doc with
  | [] => .error "'usage:' (case-insensitive) not found."
  | [u] => createFromUsage doc u
  | _ :: _ :: _ => .error "More than one 'usage:' (case-insensitive)."

/-! ## Argument-vector parsing (`parse_argv`) -/

def tokenFirstIsDash (token : String) : Bool :=
  match token.data with
  | '-' :: _ => true
  | _ => false

/-- The loop of `parse_argv`, with fuel (each iteration pops at least one
token). -/
def parseArgvGo (fuel : Nat) (t : Tokens) (opts : List OptionSpec)
    (options_first : Bool) (acc : List LeafObj) :
    Except String (List LeafObj × List OptionSpec) :=
  match fuel with
  | 0 => .error "out of fuel"
  | fuel + 1 =>
      if ¬ t.hasMore then .ok (acc, opts)
      else
        let token := t.current
        if token = "--" then
          .ok (acc ++ t.toks.map (fun tok => ⟨.argument, "", .str tok⟩), opts)
        else if startsWithStr token "--" then do
          let (objs, opts1, t1) ← parse_long t opts
          parseArgvGo fuel t1 opts1 options_first (acc ++ objs)
        else if tokenFirstIsDash token ∧ token ≠ "-" then do
          let (objs, opts1, t1) ← parse_short t opts
          parseArgvGo fuel t1 opts1 options_first (acc ++ objs)
        else if options_first then
          .ok (acc ++ t.toks.map (fun tok => ⟨.argument, "", .str tok⟩), opts)
        else
          parseArgvGo fuel t.pop.2 opts options_first
            (acc ++ [⟨.argument, "", .str token⟩])

/-- `parse_argv(tokens, options, options_first)` -/
def parse_argv (t : Tokens) (opts : List OptionSpec) (options_first : Bool) :
    Except String (List LeafObj × List OptionSpec) :=
  parseArgvGo (t.toks.length + 1) t opts options_first []

/-! ## Top level (`extras`, `docopt_parse`) -/

/-- `isOptionSet(options, opt1, opt2)` on the argv pattern list. -/
def isOptionSet (s : Store) (refs : List Nat) (opt1 opt2 : String) : Bool :=
  refs.any (fun r =>
    let nm := (getObj s r).name
    (nm = opt1 ∨ (opt2 ≠ "" ∧ nm = opt2)) ∧ (getObj s r).val.truthy)

/-- The exceptions of docopt.h. -/
inductive DocoptError where
  | languageError (msg : String)
  | argumentError (msg : String)
  | exitHelp
  | exitVersion
deriving DecidableEq, Repr

/-- `extras(help, version, options)`: the help/version short circuit. -/
def extras (help version : Bool) (s : Store) (refs : List Nat) : Option DocoptError :=
  if help ∧ isOptionSet s refs "-h" "--help" then some .exitHelp
  else if version ∧ isOptionSet s refs "--version" "" then some .exitVersion
  else none

/-- `std::map<std::string, value>` assignment `ret[k] = v` (sorted by key,
overwriting). -/
def mapSet : List (String × Value) → String → Value → List (String × Value)
  | [], k, v => [(k, v)]
  | (k', v') :: rest, k, v =>
      if k = k' then (k, v) :: rest
      else if strLt k k' then (k, v) :: (k', v') :: rest
      else (k', v') :: mapSet rest k v

def lookupMap : List (String × Value) → String → Option Value
  | [], _ => none
  | (k', v) :: rest, k => if k = k' then some v else lookupMap rest k

/-- The result-map construction of `docopt_parse`: an entry per leaf of the
fixed pattern tree, then the collected bindings overwrite by name. -/
def buildRet (s : Store) (leaves : List LeafObj) (collected : List Nat) :
    List (String × Value) :=
  let m1 := leaves.foldl (fun m d => mapSet m d.name d.val) []
  collected.foldl (fun m r => mapSet m (getObj s r).name (getObj s r).val) m1

/-- `docopt_parse(doc, argv, help, version, options_first)`; exceptions are
modelled as `Except.error`. -/
def docopt_parse (doc : String) (argv : List String)
    (help version options_first : Bool) :
    Except DocoptError (List (String × Value)) :=
  match create_pattern_tree doc with
  | .error e => .error (.languageError e)
  | .ok (pattern, options) =>
      match parse_argv ⟨argv, true⟩ options options_first with
      | .error e => .error (.argumentError e)
      | .ok (objs, _) =>
          let store : Store := objs
          let argvRefs := List.range objs.length
          match extras help version store argvRefs with
          | some e => .error e
          | none =>
              let fixed := fix pattern
              let mr := matchPattern fixed store argvRefs []
              if mr.2.1 ∧ mr.2.2.1 = [] then
                .ok (buildRet mr.1 (leavesOf fixed) mr.2.2.2)
              else if mr.2.1 then
                .error (.argumentError ("Unexpected argument: " ++ joinSep argv ", "))
              else .error (.argumentError "Arguments did not match expected patterns")

/-! # Matcher lemmas -/

/-- `LeafPattern::match` either succeeds, or returns `false` with the
caller's lists untouched (the store keeps whatever `single_match`
allocated). -/
theorem leaf_match_shape (d : LeafObj) (s : Store) (l c : List Nat) :
    (leaf_match d s l c).2.1 = true ∨
      leaf_match d s l c = ((single_match d s l).1, false, l, c) := by
  unfold leaf_match
  rcases hs : single_match d s l with ⟨s1, io⟩
  cases io with
  | none => right; rfl
  | some ir =>
      left
      rcases ir with ⟨i, r⟩
      dsimp only
      repeat' split
      all_goals first
        | rfl
        | (exfalso; simp_all)

/-- `Required::match` on failure returns the caller's original lists. -/
theorem requiredGo_false :
    ∀ (cs : List Pattern) (s : Store) (l c l0 c0 : List Nat),
      (requiredGo cs s l c l0 c0).2.1 = false →
      (requiredGo cs s l c l0 c0).2.2.1 = l0 ∧ (requiredGo cs s l c l0 c0).2.2.2 = c0 := by
  intro cs
  induction cs with
  | nil => intro s l c l0 c0 h; simp [requiredGo] at h
  | cons p rest ih =>
      intro s l c l0 c0 h
      simp only [requiredGo] at h ⊢
      by_cases hr : (matchPattern p s l c).2.1
      · rw [if_pos hr] at h ⊢
        exact ih _ _ _ _ _ h
      · rw [if_neg hr] at h ⊢
        exact ⟨rfl, rfl⟩

/-- `Optional::match` always reports success. -/
theorem optionalGo_true :
    ∀ (cs : List Pattern) (s : Store) (l c : List Nat),
      (optionalGo cs s l c).2.1 = true := by
  intro cs
  induction cs with
  | nil => intro s l c; simp [optionalGo]
  | cons p rest ih =>
      intro s l c
      simp only [optionalGo]
      exact ih _ _ _

theorem matchPattern_leaf (d : LeafObj) (s : Store) (l c : List Nat) :
    matchPattern (.leaf d) s l c = leaf_match d s l c := by
  simp only [matchPattern]

theorem matchPattern_required (cs : List Pattern) (s : Store) (l c : List Nat) :
    matchPattern (.branch .required cs) s l c = requiredGo cs s l c l c := by
  simp only [matchPattern]

theorem matchPattern_optional (cs : List Pattern) (s : Store) (l c : List Nat) :
    matchPattern (.branch .optional cs) s l c = optionalGo cs s l c := by
  simp only [matchPattern]

theorem matchPattern_optionsShortcut (cs : List Pattern) (s : Store) (l c : List Nat) :
    matchPattern (.branch .optionsShortcut cs) s l c = optionalGo cs s l c := by
  simp only [matchPattern]

theorem matchPattern_oneOrMore_nil (s : Store) (l c : List Nat) :
    matchPattern (.branch .oneOrMore []) s l c = (s, false, l, c) := by
  simp only [matchPattern]

theorem matchPattern_oneOrMore_cons (ch : Pattern) (tail : List Pattern)
    (s : Store) (l c : List Nat) :
    matchPattern (.branch .oneOrMore (ch :: tail)) s l c =
      (match oomLoop ch (l.length + 2) s l c [] true 0 with
      | none => (s, false, l, c)
      | some (s', l', c', times) =>
          if times = 0 then (s', false, l, c) else (s', true, l', c')) := by
  simp only [matchPattern]

theorem matchPattern_either (cs : List Pattern) (s : Store) (l c : List Nat) :
    matchPattern (.branch .either cs) s l c =
      (if (eitherFold (eitherOutcomes cs s l c).2 ULONG_MAX ([], [])).1 = ULONG_MAX
       then ((eitherOutcomes cs s l c).1, false, l, c)
       else ((eitherOutcomes cs s l c).1, true,
         (eitherFold (eitherOutcomes cs s l c).2 ULONG_MAX ([], [])).2.1,
         (eitherFold (eitherOutcomes cs s l c).2 ULONG_MAX ([], [])).2.2)) := by
  simp only [matchPattern]

/-- Every failure path of `match` hands the caller's `left` and `collected`
lists back unchanged (the reference lists, not the objects they point to). -/
theorem matchPattern_fail_restore (p : Pattern) (s : Store) (l c : List Nat) :
    (matchPattern p s l c).2.1 = false →
    (matchPattern p s l c).2.2.1 = l ∧ (matchPattern p s l c).2.2.2 = c := by
  intro h
  cases p with
  | leaf d =>
      rw [matchPattern_leaf] at h ⊢
      rcases leaf_match_shape d s l c with ht | he
      · rw [ht] at h; exact absurd h (by simp)
      · rw [he]; exact ⟨rfl, rfl⟩
  | branch k cs =>
      cases k with
      | required =>
          rw [matchPattern_required] at h ⊢
          exact requiredGo_false cs s l c l c h
      | optional =>
          rw [matchPattern_optional] at h
          rw [optionalGo_true] at h
          exact absurd h (by simp)
      | optionsShortcut =>
          rw [matchPattern_optionsShortcut] at h
          rw [optionalGo_true] at h
          exact absurd h (by simp)
      | oneOrMore =>
          cases cs with
          | nil => rw [matchPattern_oneOrMore_nil]; exact ⟨rfl, rfl⟩
          | cons ch tail =>
              rw [matchPattern_oneOrMore_cons] at h ⊢
              cases hl : oomLoop ch (l.length + 2) s l c [] true 0 with
              | none => exact ⟨rfl, rfl⟩
              | some q =>
                  rw [hl] at h
                  rcases q with ⟨s', l', c', times⟩
                  by_cases ht : times = 0
                  · simp [ht]
                  · simp [ht] at h
      | either =>
          rw [matchPattern_either] at h ⊢
          by_cases hm :
              (eitherFold (eitherOutcomes cs s l c).2 ULONG_MAX ([], [])).1 = ULONG_MAX
          · rw [if_pos hm]; exact ⟨rfl, rfl⟩
          · rw [if_neg hm] at h; exact absurd h (by simp)

/-- Following the spec's words (§4.6 Either): "among the children that
succeeded, selects the outcome whose resulting `remaining` list is shortest
(fewest leftover tokens) — ties keep whichever candidate was found first in
child order".  This is the refinement target the selection loop of
`Either::match` is compared against. -/
def specFirstMin : List (List Nat × List Nat) → Option (List Nat × List Nat)
  | [] => none
  | o :: rest =>
      match specFirstMin rest with
      | none => some o
      | some b => if o.1.length ≤ b.1.length then some o else some b

/-- What the selection loop returns once the first minimal outcome (if any)
is known. -/
def selOf (cur : Nat) (best : List Nat × List Nat) :
    Option (List Nat × List Nat) → Nat × (List Nat × List Nat)
  | none => (cur, best)
  | some b => if b.1.length < cur then (b.1.length, b) else (cur, best)

/-- The selection loop, fully characterised against the spec's first-minimal
choice. -/
theorem eitherFold_spec :
    ∀ (outs : List (List Nat × List Nat)) (cur : Nat) (best : List Nat × List Nat),
      eitherFold outs cur best = selOf cur best (specFirstMin outs) := by
  intro outs
  induction outs with
  | nil => intro cur best; simp [eitherFold, specFirstMin, selOf]
  | cons o rest ih =>
      intro cur best
      simp only [eitherFold, specFirstMin]
      cases hr : specFirstMin rest with
      | none =>
          by_cases ho : o.1.length < cur
          · rw [if_pos ho, ih, hr]
            simp [selOf, ho]
          · rw [if_neg ho, ih, hr]
            simp [selOf, ho]
      | some b =>
          by_cases hob : o.1.length ≤ b.1.length
          · by_cases ho : o.1.length < cur
            · rw [if_pos ho, ih, hr]
              have h1 : ¬ b.1.length < o.1.length := by omega
              simp [selOf, h1, ho, hob]
            · rw [if_neg ho, ih, hr]
              have h1 : ¬ b.1.length < cur := by omega
              simp [selOf, h1, ho, hob]
          · by_cases ho : o.1.length < cur
            · rw [if_pos ho, ih, hr]
              have h1 : b.1.length < o.1.length := by omega
              have h2 : b.1.length < cur := by omega
              simp [selOf, h1, h2, hob]
            · rw [if_neg ho, ih, hr]
              simp [selOf, hob]

theorem eitherFold_cases :
    ∀ (outs : List (List Nat × List Nat)) (cur : Nat) (best : List Nat × List Nat),
      (eitherFold outs cur best = (cur, best)) ∨
        ((eitherFold outs cur best).2 ∈ outs ∧
          (eitherFold outs cur best).1 < cur ∧
          (eitherFold outs cur best).1 = (eitherFold outs cur best).2.1.length) := by
  intro outs
  induction outs with
  | nil => intro cur best; left; rfl
  | cons o rest ih =>
      intro cur best
      simp only [eitherFold]
      by_cases ho : o.1.length < cur
      · rw [if_pos ho]
        rcases ih o.1.length o with h | ⟨h1, h2, h3⟩
        · right
          rw [h]
          exact ⟨List.mem_cons_self o rest, ho, rfl⟩
        · right
          exact ⟨List.mem_cons_of_mem o h1, lt_trans h2 ho, h3⟩
      · rw [if_neg ho]
        rcases ih cur best with h | ⟨h1, h2, h3⟩
        · left; exact h
        · right
          exact ⟨List.mem_cons_of_mem o h1, h2, h3⟩

theorem leaf_match_left_sublist (d : LeafObj) (s : Store) (l c : List Nat) :
    (leaf_match d s l c).2.2.1.Sublist l := by
  unfold leaf_match
  repeat' split
  all_goals first
    | exact List.Sublist.refl l
    | exact List.eraseIdx_sublist l _

/-- One unfolding of the `OneOrMore` loop at positive fuel. -/
theorem oomLoop_succ (ch : Pattern) (fuel : Nat) (s : Store) (l c lprev : List Nat)
    (firstLoop : Bool) (times : Nat) :
    oomLoop ch (fuel + 1) s l c lprev firstLoop times =
      (if (matchPattern ch s l c).2.1 = false then
        some ((matchPattern ch s l c).1, (matchPattern ch s l c).2.2.1,
          (matchPattern ch s l c).2.2.2,
          if (matchPattern ch s l c).2.1 then times + 1 else times)
      else if firstLoop = false && decide ((matchPattern ch s l c).2.2.1 = lprev) then
        some ((matchPattern ch s l c).1, (matchPattern ch s l c).2.2.1,
          (matchPattern ch s l c).2.2.2,
          if (matchPattern ch s l c).2.1 then times + 1 else times)
      else
        oomLoop ch fuel (matchPattern ch s l c).1 (matchPattern ch s l c).2.2.1
          (matchPattern ch s l c).2.2.2 (matchPattern ch s l c).2.2.1 false
          (if (matchPattern ch s l c).2.1 then times + 1 else times)) := by
  conv_lhs => rw [oomLoop]

/-- One unfolding of `Required`'s child loop at a cons cell. -/
theorem requiredGo_cons (p : Pattern) (rest : List Pattern) (s : Store)
    (l c l0 c0 : List Nat) :
    requiredGo (p :: rest) s l c l0 c0 =
      (if (matchPattern p s l c).2.1 then
        requiredGo rest (matchPattern p s l c).1 (matchPattern p s l c).2.2.1
          (matchPattern p s l c).2.2.2 l0 c0
      else ((matchPattern p s l c).1, false, l0, c0)) := by
  conv_lhs => rw [requiredGo]

theorem optionalGo_cons (p : Pattern) (rest : List Pattern) (s : Store)
    (l c : List Nat) :
    optionalGo (p :: rest) s l c =
      optionalGo rest (matchPattern p s l c).1 (matchPattern p s l c).2.2.1
        (matchPattern p s l c).2.2.2 := by
  conv_lhs => rw [optionalGo]

theorem eitherOutcomes_cons (p : Pattern) (rest : List Pattern) (s : Store)
    (l c : List Nat) :
    eitherOutcomes (p :: rest) s l c =
      ((eitherOutcomes rest (matchPattern p s l c).1 l c).1,
        if (matchPattern p s l c).2.1 then
          ((matchPattern p s l c).2.2.1, (matchPattern p s l c).2.2.2) ::
            (eitherOutcomes rest (matchPattern p s l c).1 l c).2
        else (eitherOutcomes rest (matchPattern p s l c).1 l c).2) := by
  conv_lhs => rw [eitherOutcomes]

/-- Matching only ever removes elements from the remaining-input list: the
result is a sublist of the input (joint induction over the matcher). -/
theorem matchPattern_left_sublist :
    ∀ (p : Pattern) (s : Store) (l c : List Nat), (matchPattern p s l c).2.2.1.Sublist l := by
  refine matchPattern.induct
    (fun p s l c => (matchPattern p s l c).2.2.1.Sublist l)
    (fun cs s l c => ∀ o ∈ (eitherOutcomes cs s l c).2, o.1.Sublist l)
    (fun ch fuel s l c lprev fl t =>
      ∀ s' l' c' t', oomLoop ch fuel s l c lprev fl t = some (s', l', c', t') → l'.Sublist l)
    (fun cs s l c => (optionalGo cs s l c).2.2.1.Sublist l)
    (fun cs s l c l0 c0 =>
      (requiredGo cs s l c l0 c0).2.1 = true → (requiredGo cs s l c l0 c0).2.2.1.Sublist l)
    ?_ ?_ ?_ ?_ ?_ ?_ ?_ ?_ ?_ ?_ ?_ ?_ ?_ ?_ ?_ ?_ ?_ ?_ ?_ ?_ ?_
  · intro s l c d
    rw [matchPattern_leaf]
    exact leaf_match_left_sublist d s l c
  · intro s l c cs ih
    rw [matchPattern_required]
    by_cases hr : (requiredGo cs s l c l c).2.1 = true
    · exact ih hr
    · rw [(requiredGo_false cs s l c l c (by simpa using hr)).1]
  · intro s l c cs ih
    rw [matchPattern_optional]
    exact ih
  · intro s l c cs ih
    rw [matchPattern_optionsShortcut]
    exact ih
  · intro s l c
    rw [matchPattern_oneOrMore_nil]
  · intro s l c ch tail hnone ih
    rw [matchPattern_oneOrMore_cons, hnone]
  · intro s l c ch tail s' l' c' hsome ih
    rw [matchPattern_oneOrMore_cons, hsome]
    simp
  · intro s l c ch tail s' l' c' times hsome ht ih
    rw [matchPattern_oneOrMore_cons, hsome]
    simp only [ht, if_false]
    exact ih s' l' c' times hsome
  · intro s l c cs ro rsel hUM ih
    rw [matchPattern_either, if_pos hUM]
  · intro s l c cs ro rsel hUM ih
    have hUM' : ¬ (eitherFold (eitherOutcomes cs s l c).2 ULONG_MAX ([], [])).1 = ULONG_MAX :=
      hUM
    rw [matchPattern_either, if_neg hUM']
    rcases eitherFold_cases (eitherOutcomes cs s l c).2 ULONG_MAX ([], []) with h | ⟨h1, _, _⟩
    · exfalso
      apply hUM'
      rw [h]
    · exact ih _ h1
  · intro s l c o ho
    simp [eitherOutcomes] at ho
  · intro s l c ch tail r ih1 ih2 o ho
    rw [eitherOutcomes_cons] at ho
    by_cases hr : (matchPattern ch s l c).2.1
    · rw [if_pos hr] at ho
      rcases List.mem_cons.mp ho with he | hm
      · rw [he]
        exact ih1
      · exact ih2 o hm
    · rw [if_neg hr] at ho
      exact ih2 o ho
  · intro ch s l c lprev fl t s' l' c' t' h
    simp [oomLoop] at h
  · intro ch s l c lprev fl t fuel' r hfalse ih
    intro s' l' c' t' h
    simp only [Nat.succ_eq_add_one] at h
    rw [oomLoop_succ, if_pos hfalse] at h
    simp only [Option.some.injEq, Prod.mk.injEq] at h
    obtain ⟨-, h2, -, -⟩ := h
    rw [← h2]
    exact ih
  · intro ch s l c lprev fl t fuel' r hfalse hbrk ih
    intro s' l' c' t' h
    simp only [Nat.succ_eq_add_one] at h
    rw [oomLoop_succ, if_neg hfalse, if_pos hbrk] at h
    simp only [Option.some.injEq, Prod.mk.injEq] at h
    obtain ⟨-, h2, -, -⟩ := h
    rw [← h2]
    exact ih
  · intro ch s l c lprev fl t fuel' r t2 hfalse hbrk ih1 ih2
    intro s' l' c' t' h
    simp only [Nat.succ_eq_add_one] at h
    rw [oomLoop_succ, if_neg hfalse, if_neg hbrk] at h
    exact (ih2 s' l' c' t' h).trans ih1
  · intro s l c
    simp [optionalGo]
  · intro s l c ch tail r ih1 ih2
    rw [optionalGo_cons]
    exact ih2.trans ih1
  · intro s l c l0 c0 _
    simp [requiredGo]
  · intro s l c l0 c0 ch tail r hr ih1 ih2 hs
    rw [requiredGo_cons, if_pos hr] at hs ⊢
    exact (ih2 hs).trans ih1
  · intro s l c l0 c0 ch tail r hr ih1 hs
    rw [requiredGo_cons, if_neg hr] at hs
    simp at hs

/-- The remaining list each successful `Either` child produces is a sublist
of the input. -/
theorem eitherOutcomes_left_sublist :
    ∀ (cs : List Pattern) (s : Store) (l c : List Nat),
      ∀ o ∈ (eitherOutcomes cs s l c).2, o.1.Sublist l := by
  intro cs
  induction cs with
  | nil => intro s l c o ho; simp [eitherOutcomes] at ho
  | cons p rest ih =>
      intro s l c o ho
      rw [eitherOutcomes_cons] at ho
      by_cases hr : (matchPattern p s l c).2.1
      · rw [if_pos hr] at ho
        rcases List.mem_cons.mp ho with he | hm
        · rw [he]
          exact matchPattern_left_sublist p s l c
        · exact ih _ l c o hm
      · rw [if_neg hr] at ho
        exact ih _ l c o ho

/-- Whatever the loop commits is a sublist of its input list. -/
theorem oomLoop_left_sublist :
    ∀ (fuel : Nat) (ch : Pattern) (s : Store) (l c lprev : List Nat) (fl : Bool)
      (t : Nat) (s' : Store) (l' c' : List Nat) (t' : Nat),
      oomLoop ch fuel s l c lprev fl t = some (s', l', c', t') → l'.Sublist l := by
  intro fuel
  induction fuel with
  | zero => intro ch s l c lprev fl t s' l' c' t' h; simp [oomLoop] at h
  | succ fuel ih =>
      intro ch s l c lprev fl t s' l' c' t' h
      rw [oomLoop_succ] at h
      by_cases h1 : (matchPattern ch s l c).2.1 = false
      · rw [if_pos h1] at h
        simp only [Option.some.injEq, Prod.mk.injEq] at h
        obtain ⟨-, h2, -, -⟩ := h
        rw [← h2]
        exact matchPattern_left_sublist ch s l c
      · rw [if_neg h1] at h
        by_cases h2 : fl = false && decide ((matchPattern ch s l c).2.2.1 = lprev)
        · rw [if_pos h2] at h
          simp only [Option.some.injEq, Prod.mk.injEq] at h
          obtain ⟨-, h3, -, -⟩ := h
          rw [← h3]
          exact matchPattern_left_sublist ch s l c
        · rw [if_neg h2] at h
          exact (ih ch _ _ _ _ false _ s' l' c' t' h).trans
            (matchPattern_left_sublist ch s l c)

/-- The fixed-point guard works: with `lprev` equal to the current list (the
loop's invariant from the second iteration on), fuel `l.length + 1`
suffices. -/
theorem oomLoop_main_some :
    ∀ (fuel : Nat) (ch : Pattern) (s : Store) (l c : List Nat) (t : Nat),
      l.length + 1 ≤ fuel →
      oomLoop ch fuel s l c l false t ≠ none := by
  intro fuel
  induction fuel with
  | zero => intro ch s l c t hf; omega
  | succ fuel ih =>
      intro ch s l c t hf
      rw [oomLoop_succ]
      by_cases h1 : (matchPattern ch s l c).2.1 = false
      · rw [if_pos h1]; simp
      · rw [if_neg h1]
        by_cases h2 : (false = false && decide ((matchPattern ch s l c).2.2.1 = l)) = true
        · rw [if_pos h2]; simp
        · rw [if_neg h2]
          have hne : (matchPattern ch s l c).2.2.1 ≠ l := by
            simpa using h2
          have hsub := matchPattern_left_sublist ch s l c
          have hlt : (matchPattern ch s l c).2.2.1.length < l.length := by
            rcases Nat.lt_or_ge (matchPattern ch s l c).2.2.1.length l.length with h | h
            · exact h
            · exact absurd (hsub.eq_of_length (le_antisymm (hsub.length_le) h)) hne
          exact ih ch _ _ _ _ (by omega)

/-- `OneOrMore::match` always terminates: the fuel `left.length + 2` the
embedding passes is never exhausted. -/
theorem oomLoop_entry_some (ch : Pattern) (s : Store) (l c : List Nat) :
    oomLoop ch (l.length + 2) s l c [] true 0 ≠ none := by
  rw [show l.length + 2 = (l.length + 1) + 1 from rfl, oomLoop_succ]
  by_cases h1 : (matchPattern ch s l c).2.1 = false
  · rw [if_pos h1]; simp
  · rw [if_neg h1]
    rw [if_neg (by simp)]
    have hsub := matchPattern_left_sublist ch s l c
    exact oomLoop_main_some _ ch _ _ _ _ (by have := hsub.length_le; omega)

/-- Iteration-count bound for the loop's invariant states. -/
theorem oomLoop_main_times :
    ∀ (fuel : Nat) (ch : Pattern) (s : Store) (l c : List Nat) (t : Nat)
      (s' : Store) (l' c' : List Nat) (t' : Nat),
      oomLoop ch fuel s l c l false t = some (s', l', c', t') →
      t' ≤ t + 1 + (l.length - l'.length) := by
  intro fuel
  induction fuel with
  | zero => intro ch s l c t s' l' c' t' h; simp [oomLoop] at h
  | succ fuel ih =>
      intro ch s l c t s' l' c' t' h
      rw [oomLoop_succ] at h
      by_cases h1 : (matchPattern ch s l c).2.1 = false
      · rw [if_pos h1] at h
        simp [h1] at h
        omega
      · rw [if_neg h1] at h
        have h1' : (matchPattern ch s l c).2.1 = true := by
          simpa using h1
        by_cases h2 : (false = false && decide ((matchPattern ch s l c).2.2.1 = l)) = true
        · rw [if_pos h2] at h
          simp [h1'] at h
          omega
        · rw [if_neg h2] at h
          have hne : (matchPattern ch s l c).2.2.1 ≠ l := by
            simpa using h2
          have hsub := matchPattern_left_sublist ch s l c
          have hlt : (matchPattern ch s l c).2.2.1.length < l.length := by
            rcases Nat.lt_or_ge (matchPattern ch s l c).2.2.1.length l.length with hx | hx
            · exact hx
            · exact absurd (hsub.eq_of_length (le_antisymm (hsub.length_le) hx)) hne
          have hrec := ih ch _ _ _ _ s' l' c' t' (by simpa [h1'] using h)
          have hl' : l'.length ≤ (matchPattern ch s l c).2.2.1.length :=
            (oomLoop_left_sublist fuel ch _ _ _ _ false _ s' l' c' t'
              (by simpa [h1'] using h)).length_le
          omega

/-- Iteration-count bound for the loop as `OneOrMore::match` enters it: at
most two more than the number of tokens the loop consumed. -/
theorem oomLoop_entry_times (ch : Pattern) (s : Store) (l c : List Nat)
    (s' : Store) (l' c' : List Nat) (times : Nat)
    (h : oomLoop ch (l.length + 2) s l c [] true 0 = some (s', l', c', times)) :
    times ≤ (l.length - l'.length) + 2 := by
  rw [show l.length + 2 = (l.length + 1) + 1 from rfl, oomLoop_succ] at h
  by_cases h1 : (matchPattern ch s l c).2.1 = false
  · rw [if_pos h1] at h
    simp [h1] at h
    omega
  · rw [if_neg h1] at h
    have h1' : (matchPattern ch s l c).2.1 = true := by simpa using h1
    rw [if_neg (by simp)] at h
    have hsub := matchPattern_left_sublist ch s l c
    have hrec := oomLoop_main_times _ ch _ _ _ _ s' l' c' times
      (by simpa [h1'] using h)
    have hl' : l'.length ≤ (matchPattern ch s l c).2.2.1.length :=
      (oomLoop_left_sublist _ ch _ _ _ _ false _ s' l' c' times
        (by simpa [h1'] using h)).length_le
    have := hsub.length_le
    omega

theorem specFirstMin_none_iff :
    ∀ outs : List (List Nat × List Nat), specFirstMin outs = none ↔ outs = [] := by
  intro outs
  cases outs with
  | nil => simp [specFirstMin]
  | cons o rest =>
      simp only [specFirstMin]
      cases specFirstMin rest with
      | none => simp
      | some b =>
          by_cases h : o.1.length ≤ b.1.length <;> simp [h]

theorem specFirstMin_mem :
    ∀ (outs : List (List Nat × List Nat)) (b : List Nat × List Nat),
      specFirstMin outs = some b → b ∈ outs := by
  intro outs
  induction outs with
  | nil => intro b h; simp [specFirstMin] at h
  | cons o rest ih =>
      intro b h
      simp only [specFirstMin] at h
      split at h
      · simp only [Option.some.injEq] at h
        rw [← h]
        exact List.mem_cons_self o rest
      · rename_i b' hr
        split at h <;> simp only [Option.some.injEq] at h <;> rw [← h]
        · exact List.mem_cons_self o rest
        · exact List.mem_cons_of_mem o (ih b' hr)

/-! # Claim theorems: matcher (C2, C3, C4) -/

/-- C2 counterexample: a `Required` whose first child is a counter-typed
`Option` leaf and whose second child fails returns failure with the caller's
`left` and `collected` lists unchanged, but the leaf object referenced from
the caller's `left` list has had its value overwritten from `true` to the
counter `1` — `Option::single_match` aliases the shared pointer out of
`left` and `LeafPattern::match` mutates it before the sibling fails, so the
mutation is visible to the caller, contradicting the claim that the values
stored inside the referenced leaf objects are exactly as before. -/
theorem match_fail_mutates_aliased_leaf_value :
    matchPattern (.branch .required
        [.leaf ⟨.option "-v" "" 0, "-v", .long 0⟩, .leaf ⟨.argument, "<a>", .empty⟩])
      [⟨.option "-v" "" 0, "-v", .bool true⟩] [0] [] =
      ([⟨.option "-v" "" 0, "-v", .long 1⟩], false, [0], []) ∧
    (getObj [⟨.option "-v" "" 0, "-v", .long 1⟩] 0).val ≠
      (getObj [⟨.option "-v" "" 0, "-v", .bool true⟩] 0).val := by
  constructor
  · simp [matchPattern, requiredGo, leaf_match, single_match, findName, findArgLike,
      findCollectedRef, storeSet, getObj, listValOf, Value.isLong, Value.isStringList,
      isArgLike, List.getD, List.eraseIdx]
  · decide

/-- C2 (amended): if a pattern's match call returns failure, the caller's
remaining-input list and collected-bindings list (as lists of references)
are exactly as they were before the call; the values stored inside shared
leaf objects those references point to may however have been mutated by
earlier children of the failing node (see the counterexample). -/
theorem match_fail_preserves_caller_lists (p : Pattern) (s : Store) (l c : List Nat)
    (h : (matchPattern p s l c).2.1 = false) :
    (matchPattern p s l c).2.2.1 = l ∧ (matchPattern p s l c).2.2.2 = c :=
  matchPattern_fail_restore p s l c h

/-- C2 witness: the amended theorem applied to the counterexample's failing
match. -/
theorem match_fail_preserves_caller_lists_witness :
    (matchPattern (.branch .required
        [.leaf ⟨.option "-v" "" 0, "-v", .long 0⟩, .leaf ⟨.argument, "<a>", .empty⟩])
      [⟨.option "-v" "" 0, "-v", .bool true⟩] [0] []).2.1 = false ∧
    (matchPattern (.branch .required
        [.leaf ⟨.option "-v" "" 0, "-v", .long 0⟩, .leaf ⟨.argument, "<a>", .empty⟩])
      [⟨.option "-v" "" 0, "-v", .bool true⟩] [0] []).2.2.1 = [0] ∧
    (matchPattern (.branch .required
        [.leaf ⟨.option "-v" "" 0, "-v", .long 0⟩, .leaf ⟨.argument, "<a>", .empty⟩])
      [⟨.option "-v" "" 0, "-v", .bool true⟩] [0] []).2.2.2 = [] := by
  have hf : (matchPattern (.branch .required
      [.leaf ⟨.option "-v" "" 0, "-v", .long 0⟩, .leaf ⟨.argument, "<a>", .empty⟩])
      [⟨.option "-v" "" 0, "-v", .bool true⟩] [0] []).2.1 = false := by
    simp [matchPattern, requiredGo, leaf_match, single_match, findName, findArgLike,
      findCollectedRef, storeSet, getObj, listValOf, Value.isLong, Value.isStringList,
      isArgLike, List.getD, List.eraseIdx]
  exact ⟨hf, match_fail_preserves_caller_lists _ _ _ _ hf⟩

/-- C3: `Either::match` fails exactly when no child matches; otherwise it
commits the successful child outcome whose remaining list has the fewest
elements, ties going to the child earliest in declaration order —
the committed outcome is exactly the spec's first-minimal choice over the
successful children's outcomes, provided the input list is shorter than the
`ULONG_MAX` sentinel. -/
theorem either_match_first_minimal (cs : List Pattern) (s : Store) (l c : List Nat)
    (hlen : l.length < ULONG_MAX) :
    matchPattern (.branch .either cs) s l c =
      (match specFirstMin (eitherOutcomes cs s l c).2 with
      | none => ((eitherOutcomes cs s l c).1, false, l, c)
      | some o => ((eitherOutcomes cs s l c).1, true, o.1, o.2)) ∧
    ((matchPattern (.branch .either cs) s l c).2.1 = true ↔
      (eitherOutcomes cs s l c).2 ≠ []) := by
  have hF := eitherFold_spec (eitherOutcomes cs s l c).2 ULONG_MAX ([], [])
  cases hsfm : specFirstMin (eitherOutcomes cs s l c).2 with
  | none =>
      have houts : (eitherOutcomes cs s l c).2 = [] := (specFirstMin_none_iff _).mp hsfm
      rw [hsfm] at hF
      rw [matchPattern_either, hF]
      simp [selOf, houts]
  | some b =>
      have hb : b ∈ (eitherOutcomes cs s l c).2 := specFirstMin_mem _ b hsfm
      have hblen : b.1.length < ULONG_MAX :=
        lt_of_le_of_lt (eitherOutcomes_left_sublist cs s l c b hb).length_le hlen
      rw [hsfm] at hF
      rw [matchPattern_either, hF]
      have hne : b.1.length ≠ ULONG_MAX := Nat.ne_of_lt hblen
      constructor
      · simp [selOf, hblen, hne]
      · constructor
        · intro _ he
          rw [he] at hb
          simp at hb
        · intro _
          simp [selOf, hblen, hne]

/-- C3 witness: for `(go | <x>)` matched against the single token "go",
both alternatives succeed with empty leftover; the committed bindings are
the first alternative's: the collected reference points at the `Command`
object, not the `Argument` one. -/
theorem either_match_first_minimal_witness :
    matchPattern (.branch .either
        [.leaf ⟨.command, "go", .bool false⟩, .leaf ⟨.argument, "<x>", .empty⟩])
      [⟨.argument, "", .str "go"⟩] [0] [] =
      ([⟨.argument, "", .str "go"⟩, ⟨.command, "go", .bool true⟩,
        ⟨.argument, "<x>", .str "go"⟩], true, [], [1]) ∧
    getObj [⟨.argument, "", .str "go"⟩, ⟨.command, "go", .bool true⟩,
        ⟨.argument, "<x>", .str "go"⟩] 1 = ⟨.command, "go", .bool true⟩ := by
  have h := (either_match_first_minimal
    [.leaf ⟨.command, "go", .bool false⟩, .leaf ⟨.argument, "<x>", .empty⟩]
    [⟨.argument, "", .str "go"⟩] [0] [] (by decide)).1
  rw [h]
  constructor
  · simp [eitherOutcomes, matchPattern, leaf_match, single_match, findName, findArgLike,
      findCollectedRef, storeSet, getObj, listValOf, Value.isLong, Value.isStringList,
      specFirstMin, isArgLike, List.getD, List.eraseIdx]
  · decide

/-- C4 counterexample: the child `Optional(<a>)` can match zero tokens;
wrapped in `OneOrMore` and applied to the two-token input `[0, 1]`, the loop
terminates, but it counts three successful child iterations — more than the
two consumable tokens (the claim's bound), because `Optional` also reports
success on the final zero-consumption pass that triggers the fixed-point
guard. -/
theorem oneOrMore_iterations_exceed_tokens :
    oomLoop (.branch .optional [.leaf ⟨.argument, "<a>", .empty⟩]) 4
        [⟨.argument, "", .str "x"⟩, ⟨.argument, "", .str "y"⟩] [0, 1] [] [] true 0 =
      some ([⟨.argument, "", .str "x"⟩, ⟨.argument, "", .str "y"⟩,
        ⟨.argument, "<a>", .str "x"⟩, ⟨.argument, "<a>", .str "y"⟩], [], [2, 3], 3) ∧
    ¬ (3 : Nat) ≤ 2 := by
  constructor
  · simp [oomLoop, matchPattern, optionalGo, leaf_match, single_match, findName,
      findArgLike, findCollectedRef, storeSet, getObj, listValOf, Value.isLong,
      Value.isStringList, isArgLike, List.getD, List.eraseIdx]
  · decide

/-- C4 (amended): `OneOrMore::match` always terminates — the loop, run with
the fuel `left.length + 2`, never exhausts it; when the loop stops with zero
successful iterations the node fails leaving the caller's lists untouched,
otherwise it commits the working state; and the number of successful child
iterations is at most the number of consumed tokens plus two (not, as the
claim put it, at most the number of consumable tokens). -/
theorem oneOrMore_terminates_and_bounds (ch : Pattern) (s : Store) (l c : List Nat) :
    oomLoop ch (l.length + 2) s l c [] true 0 ≠ none ∧
    (∀ s' l' c' times,
      oomLoop ch (l.length + 2) s l c [] true 0 = some (s', l', c', times) →
      (times = 0 → matchPattern (.branch .oneOrMore [ch]) s l c = (s', false, l, c)) ∧
      (times ≠ 0 → matchPattern (.branch .oneOrMore [ch]) s l c = (s', true, l', c')) ∧
      times ≤ (l.length - l'.length) + 2) := by
  refine ⟨oomLoop_entry_some ch s l c, ?_⟩
  intro s' l' c' times h
  refine ⟨?_, ?_, oomLoop_entry_times ch s l c s' l' c' times h⟩
  · intro ht
    rw [matchPattern_oneOrMore_cons, h]
    simp [ht]
  · intro ht
    rw [matchPattern_oneOrMore_cons, h]
    simp [ht]

/-- C4 witness: the termination-and-bound theorem applied to the
counterexample input (three iterations, two tokens consumed: within the
consumed + 2 bound). -/
theorem oneOrMore_terminates_and_bounds_witness :
    matchPattern (.branch .oneOrMore [.branch .optional [.leaf ⟨.argument, "<a>", .empty⟩]])
        [⟨.argument, "", .str "x"⟩, ⟨.argument, "", .str "y"⟩] [0, 1] [] =
      ([⟨.argument, "", .str "x"⟩, ⟨.argument, "", .str "y"⟩,
        ⟨.argument, "<a>", .str "x"⟩, ⟨.argument, "<a>", .str "y"⟩], true, [], [2, 3]) ∧
    (3 : Nat) ≤ ([0, 1] : List Nat).length - ([] : List Nat).length + 2 := by
  have hloop : oomLoop (.branch .optional [.leaf ⟨.argument, "<a>", .empty⟩]) 4
      [⟨.argument, "", .str "x"⟩, ⟨.argument, "", .str "y"⟩] [0, 1] [] [] true 0 =
      some ([⟨.argument, "", .str "x"⟩, ⟨.argument, "", .str "y"⟩,
        ⟨.argument, "<a>", .str "x"⟩, ⟨.argument, "<a>", .str "y"⟩], [], [2, 3], 3) := by
    simp [oomLoop, matchPattern, optionalGo, leaf_match, single_match, findName,
      findArgLike, findCollectedRef, storeSet, getObj, listValOf, Value.isLong,
      Value.isStringList, isArgLike, List.getD, List.eraseIdx]
  have h := ((oneOrMore_terminates_and_bounds
    (.branch .optional [.leaf ⟨.argument, "<a>", .empty⟩])
    [⟨.argument, "", .str "x"⟩, ⟨.argument, "", .str "y"⟩] [0, 1] []).2
    _ _ _ _ hloop)
  exact ⟨h.2.1 (by decide), h.2.2⟩

/-! # Normalizer lemmas (towards C5 and C8) -/

theorem replaceLeavesList_eq_map (fl : List LeafObj) :
    ∀ g : List Pattern, replaceLeavesList fl g = g.map (replaceLeaves fl)
  | [] => rfl
  | p :: rest => by
      simp only [replaceLeavesList, List.map_cons, replaceLeavesList_eq_map fl rest]

theorem replaceLeavesList_append (fl : List LeafObj) :
    ∀ a b : List Pattern,
      replaceLeavesList fl (a ++ b) = replaceLeavesList fl a ++ replaceLeavesList fl b := by
  intro a b
  simp [replaceLeavesList_eq_map]

theorem splitAtBranch_replace (fl : List LeafObj) :
    ∀ g : List Pattern,
      splitAtBranch (replaceLeavesList fl g) =
        (splitAtBranch g).map (fun q =>
          (replaceLeavesList fl q.1, q.2.1, replaceLeavesList fl q.2.2.1,
            replaceLeavesList fl q.2.2.2)) := by
  intro g
  induction g with
  | nil => simp [replaceLeavesList, splitAtBranch]
  | cons p rest ih =>
      match p with
      | .branch k cs =>
          simp [replaceLeavesList, replaceLeaves, splitAtBranch]
      | .leaf d =>
          simp only [replaceLeavesList, replaceLeaves]
          by_cases hd : fl.contains d
          · rw [if_pos hd]
            simp only [splitAtBranch, ih]
            have hd' : d ∈ fl := by simpa using hd
            cases splitAtBranch rest <;>
              simp [replaceLeavesList, replaceLeaves, hd, hd']
          · rw [if_neg hd]
            simp only [splitAtBranch, ih]
            have hd' : ¬ d ∈ fl := by simpa using hd
            cases splitAtBranch rest <;>
              simp [replaceLeavesList, replaceLeaves, hd, hd']

theorem expandOne_replace (fl : List LeafObj) (k : BranchKind)
    (cs rest : List Pattern) :
    expandOne k (replaceLeavesList fl cs) (replaceLeavesList fl rest) =
      (expandOne k cs rest).map (replaceLeavesList fl) := by
  cases k with
  | either =>
      simp only [expandOne, replaceLeavesList_eq_map, List.map_map]
      congr 1
      funext e
      simp [replaceLeavesList, replaceLeavesList_eq_map]
  | oneOrMore => simp [expandOne, replaceLeavesList_append]
  | required => simp [expandOne, replaceLeavesList_append]
  | optional => simp [expandOne, replaceLeavesList_append]
  | optionsShortcut => simp [expandOne, replaceLeavesList_append]

/-- The in-place leaf mutation commutes with the group expansion: the
expansion only rearranges and copies nodes. -/
theorem transformGo_replace (fl : List LeafObj) :
    ∀ groups : List (List Pattern),
      transformGo (groups.map (replaceLeavesList fl)) =
        (transformGo groups).map (replaceLeavesList fl) := by
  intro groups
  induction groups using transformGo.induct with
  | case1 => simp [transformGo]
  | case2 g rest hsplit ih =>
      rw [List.map_cons]
      rw [transformGo]
      rw [splitAtBranch_replace, hsplit]
      simp only [Option.map_none']
      rw [ih]
      conv_rhs => rw [transformGo]
      rw [hsplit]
      simp
  | case3 g rest pre k cs post hsplit ih =>
      rw [List.map_cons]
      rw [transformGo]
      rw [splitAtBranch_replace, hsplit]
      simp only [Option.map_some']
      rw [← replaceLeavesList_append fl pre post, expandOne_replace, ← List.map_append, ih]
      conv_rhs => rw [transformGo]
      rw [hsplit]

theorem transform_replace (fl : List LeafObj) (cs : List Pattern) :
    transform (replaceLeavesList fl cs) =
      (transform cs).map (replaceLeavesList fl) := by
  have := transformGo_replace fl [cs]
  simpa [transform] using this

/-- Retyping a leaf twice is retyping it once. -/
theorem retypeLeaf_idem (d : LeafObj) : retypeLeaf (retypeLeaf d) = retypeLeaf d := by
  rcases d with ⟨k, nm, v⟩
  cases k with
  | command => simp [retypeLeaf]
  | argument => cases v <;> simp [retypeLeaf, ensureListVal]
  | option so lo ac =>
      by_cases hac : ac ≠ 0
      · cases v <;> simp [retypeLeaf, ensureListVal, hac]
      · simp [retypeLeaf, hac]

theorem count_pos_mem {α : Type} [DecidableEq α] :
    ∀ (l : List α) (a : α), 1 ≤ l.count a → a ∈ l := by
  intro l a h
  by_contra hn
  rw [List.count_eq_zero_of_not_mem hn] at h
  omega

theorem groupFlagged_mem_iff (g : List Pattern) (d : LeafObj) :
    d ∈ groupFlagged g ↔ 2 ≤ g.count (Pattern.leaf d) := by
  constructor
  · intro h
    rcases List.mem_filterMap.mp h with ⟨p, hp, hf⟩
    match p with
    | .leaf e =>
        simp only at hf
        by_cases hc : 2 ≤ g.count (Pattern.leaf e)
        · rw [if_pos hc] at hf
          simp only [Option.some.injEq] at hf
          rw [← hf]
          exact hc
        · rw [if_neg hc] at hf
          simp at hf
    | .branch k cs => simp at hf
  · intro h
    apply List.mem_filterMap.mpr
    refine ⟨Pattern.leaf d, count_pos_mem g (Pattern.leaf d) (by omega), ?_⟩
    simp only [if_pos h]

theorem mem_flaggedLeaves_iff (cs : List Pattern) (d : LeafObj) :
    d ∈ flaggedLeaves cs ↔ ∃ g ∈ transform cs, 2 ≤ g.count (Pattern.leaf d) := by
  unfold flaggedLeaves
  rw [List.mem_flatten]
  constructor
  · rintro ⟨gl, hgl, hd⟩
    rcases List.mem_map.mp hgl with ⟨g, hg, rfl⟩
    exact ⟨g, hg, (groupFlagged_mem_iff g d).mp hd⟩
  · rintro ⟨g, hg, hc⟩
    exact ⟨groupFlagged g, List.mem_map_of_mem groupFlagged hg,
      (groupFlagged_mem_iff g d).mpr hc⟩

/-- The possible sources of a leaf in a replaced pattern. -/
theorem replace_eq_leaf (fl : List LeafObj) (p : Pattern) (d' : LeafObj)
    (h : replaceLeaves fl p = .leaf d') :
    ∃ e, p = .leaf e ∧
      ((fl.contains e ∧ retypeLeaf e = d') ∨ (¬ fl.contains e ∧ e = d')) := by
  match p with
  | .leaf e =>
      refine ⟨e, rfl, ?_⟩
      simp only [replaceLeaves] at h
      by_cases hc : fl.contains e
      · rw [if_pos hc] at h
        simp only [Pattern.leaf.injEq] at h
        exact Or.inl ⟨hc, h⟩
      · rw [if_neg hc] at h
        simp only [Pattern.leaf.injEq] at h
        exact Or.inr ⟨hc, h⟩
  | .branch k cs => simp [replaceLeaves] at h

theorem count_replace_le (fl : List LeafObj) (d' : LeafObj)
    (hex : ¬ ∃ e ∈ fl, retypeLeaf e = d') :
    ∀ g : List Pattern,
      (replaceLeavesList fl g).count (Pattern.leaf d') ≤ g.count (Pattern.leaf d') := by
  intro g
  induction g with
  | nil => simp [replaceLeavesList]
  | cons p rest ih =>
      simp only [replaceLeavesList, List.count_cons]
      by_cases hp : replaceLeaves fl p = .leaf d'
      · rcases replace_eq_leaf fl p d' hp with ⟨e, rfl, he | he⟩
        · exfalso
          exact hex ⟨e, by simpa using he.1, he.2⟩
        · rcases he with ⟨-, rfl⟩
          have h1 : (replaceLeaves fl (Pattern.leaf e) == Pattern.leaf e) = true := by
            simpa using hp
          have h2 : (Pattern.leaf e == Pattern.leaf e) = true := by simp
          simp only [h1, h2, if_true]
          omega
      · have h1 : (replaceLeaves fl p == Pattern.leaf d') = false := by
          simpa using hp
        simp only [h1, Bool.false_eq_true, if_false]
        have h2 : (if (p == Pattern.leaf d') = true then (1:Nat) else 0) ≤ 1 := by
          split <;> omega
        omega

/-- Every leaf flagged on the second pass already has a retype-stable
value. -/
theorem flagged_second_pass_fixed (cs : List Pattern) (d' : LeafObj)
    (h : d' ∈ flaggedLeaves (fix_repeating_arguments cs)) :
    retypeLeaf d' = d' := by
  by_cases hex : ∃ e ∈ flaggedLeaves cs, retypeLeaf e = d'
  · rcases hex with ⟨e, _, hre⟩
    rw [← hre, retypeLeaf_idem]
  · exfalso
    unfold fix_repeating_arguments at h
    rw [mem_flaggedLeaves_iff] at h
    rcases h with ⟨g', hg', hcnt⟩
    rw [transform_replace] at hg'
    rcases List.mem_map.mp hg' with ⟨g, hg, rfl⟩
    have hle := count_replace_le (flaggedLeaves cs) d' (by simpa using hex) g
    have hcg : 2 ≤ g.count (Pattern.leaf d') := le_trans hcnt hle
    have hdfl : d' ∈ flaggedLeaves cs :=
      (mem_flaggedLeaves_iff cs d').mpr ⟨g, hg, hcg⟩
    have hmem : Pattern.leaf d' ∈ replaceLeavesList (flaggedLeaves cs) g :=
      count_pos_mem _ _ (by omega)
    rw [replaceLeavesList_eq_map] at hmem
    rcases List.mem_map.mp hmem with ⟨p, hp, hrepl⟩
    rcases replace_eq_leaf _ p d' hrepl with ⟨e, rfl, he | he⟩
    · exact hex ⟨e, by simpa using he.1, he.2⟩
    · rcases he with ⟨henot, rfl⟩
      exact henot (by simpa using hdfl)

mutual

theorem replaceLeaves_id (fl : List LeafObj) (hfl : ∀ d ∈ fl, retypeLeaf d = d) :
    ∀ p : Pattern, replaceLeaves fl p = p
  | .leaf d => by
      simp only [replaceLeaves]
      by_cases hc : fl.contains d
      · rw [if_pos hc, hfl d (by simpa using hc)]
      · rw [if_neg hc]
  | .branch k cs => by
      simp only [replaceLeaves, replaceLeavesList_id fl hfl cs]

theorem replaceLeavesList_id (fl : List LeafObj) (hfl : ∀ d ∈ fl, retypeLeaf d = d) :
    ∀ g : List Pattern, replaceLeavesList fl g = g
  | [] => rfl
  | p :: rest => by
      simp only [replaceLeavesList, replaceLeaves_id fl hfl p,
        replaceLeavesList_id fl hfl rest]

end

mutual

theorem leavesOf_replace (fl : List LeafObj) :
    ∀ p : Pattern,
      leavesOf (replaceLeaves fl p) =
        (leavesOf p).map (fun d => if d ∈ fl then retypeLeaf d else d)
  | .leaf d => by
      simp only [replaceLeaves]
      by_cases hc : fl.contains d
      · rw [if_pos hc]
        have hd' : d ∈ fl := by simpa using hc
        simp [leavesOf, hd']
      · rw [if_neg hc]
        have hd' : ¬ d ∈ fl := by simpa using hc
        simp [leavesOf, hd']
  | .branch k cs => by
      simp only [replaceLeaves, leavesOf, leavesList_replace fl cs]

theorem leavesList_replace (fl : List LeafObj) :
    ∀ g : List Pattern,
      leavesList (replaceLeavesList fl g) =
        (leavesList g).map (fun d => if d ∈ fl then retypeLeaf d else d)
  | [] => rfl
  | p :: rest => by
      simp only [replaceLeavesList, leavesList, List.map_append,
        leavesOf_replace fl p, leavesList_replace fl rest]

end

/-- C5: after the repeated-argument pass the tree's leaves are exactly the
original leaves with every flagged leaf — one occurring at least twice in
some fully-expanded alternative group — retyped as follows: `Command` leaves
and zero-argument `Option` leaves hold the counter 0; `Argument` leaves and
argument-taking `Option` leaves hold a string-list that is empty only when
no prior value was set: a prior plain-string value is split on whitespace
(possibly yielding a non-empty list) and a prior string-list value is kept
unchanged. -/
theorem fix_repeating_retype_table (cs : List Pattern) :
    (leavesList (fix_repeating_arguments cs) =
      (leavesList cs).map (fun d =>
        if d ∈ flaggedLeaves cs then
          { d with val :=
              match d.kind, d.val with
              | .command, _ => Value.long 0
              | .argument, .str s => Value.strList (split s)
              | .argument, .strList xs => Value.strList xs
              | .argument, _ => Value.strList []
              | .option _ _ ac, v =>
                  if ac = 0 then Value.long 0
                  else
                    match v with
                    | .str s => Value.strList (split s)
                    | .strList xs => Value.strList xs
                    | _ => Value.strList [] }
        else d)) ∧
    ∀ d, d ∈ flaggedLeaves cs ↔
      ∃ g ∈ transform cs, 2 ≤ g.count (Pattern.leaf d) := by
  refine ⟨?_, fun d => mem_flaggedLeaves_iff cs d⟩
  rw [fix_repeating_arguments, leavesList_replace]
  congr 1
  funext d
  by_cases hd : d ∈ flaggedLeaves cs
  · rw [if_pos hd, if_pos hd]
    rcases d with ⟨k, nm, v⟩
    cases k with
    | command => simp [retypeLeaf]
    | argument => cases v <;> simp [retypeLeaf, ensureListVal]
    | option so lo ac =>
        by_cases hac : ac = 0
        · simp [retypeLeaf, hac]
        · cases v <;> simp [retypeLeaf, ensureListVal, hac]
  · rw [if_neg hd, if_neg hd]

/-- C5 counterexample: a duplicated argument-taking option carrying the
plain-string default value "a b" is flagged by the repeated-argument pass,
yet afterwards it holds the non-empty string-list ["a", "b"], not the empty
string-list the claim prescribes. -/
theorem fix_repeating_nonempty_list :
    fix_repeating_arguments
        [Pattern.leaf ⟨LeafKind.option "" "--foo" 1, "--foo", Value.str "a b"⟩,
         Pattern.leaf ⟨LeafKind.option "" "--foo" 1, "--foo", Value.str "a b"⟩] =
      [Pattern.leaf ⟨LeafKind.option "" "--foo" 1, "--foo",
          Value.strList ["a", "b"]⟩,
       Pattern.leaf ⟨LeafKind.option "" "--foo" 1, "--foo",
          Value.strList ["a", "b"]⟩] ∧
    ¬ Value.strList ["a", "b"] = Value.strList [] := by
  refine ⟨?_, by decide⟩
  have ht : transform
      [Pattern.leaf ⟨LeafKind.option "" "--foo" 1, "--foo", Value.str "a b"⟩,
       Pattern.leaf ⟨LeafKind.option "" "--foo" 1, "--foo", Value.str "a b"⟩] =
      [[Pattern.leaf ⟨LeafKind.option "" "--foo" 1, "--foo", Value.str "a b"⟩,
        Pattern.leaf ⟨LeafKind.option "" "--foo" 1, "--foo", Value.str "a b"⟩]] := by
    simp [transform, transformGo, splitAtBranch]
  simp [fix_repeating_arguments, flaggedLeaves, ht, groupFlagged,
    replaceLeavesList, replaceLeaves, retypeLeaf, ensureListVal, split,
    splitWSChars, takeRun, isAnySpace, List.count_cons]

/-- C8: normalization is idempotent — running `fix()` (identity folding,
which is the identity on the pure tree, followed by repeated-argument
coercion) twice yields the same tree as running it once. -/
theorem fix_idempotent (p : Pattern) : fix (fix p) = fix p := by
  cases p with
  | leaf d => rfl
  | branch k cs =>
      simp only [fix, Pattern.branch.injEq, true_and]
      show fix_repeating_arguments (fix_repeating_arguments cs) = fix_repeating_arguments cs
      have hstep :
          fix_repeating_arguments (fix_repeating_arguments cs) =
            replaceLeavesList (flaggedLeaves (fix_repeating_arguments cs))
              (fix_repeating_arguments cs) := rfl
      rw [hstep]
      exact replaceLeavesList_id _ (flagged_second_pass_fixed cs) _

/-- C6: for the usage document "Usage:\n  prog [-v]..." and the argument
vector ["-v", "-v", "-v"], docopt_parse succeeds and the returned bindings
map binds the key "-v" to the integer counter value 3 (the repeated flag is
coerced to a counter by the normalizer and incremented once per
occurrence). -/
theorem docopt_verbose_count_three :
    docopt_parse "Usage:\n  prog [-v]..." ["-v", "-v", "-v"] true true false =
      .ok [("-v", Value.long 3)] := by
  have hsec : parse_section "usage:" "Usage:\n  prog [-v]..." =
      ["Usage:\n  prog [-v]..."] := by
    simp +decide [parse_section, sectionScan, splitLinesChars, lineHasLabel, lowerChars,
      listInfixOf, isIndented, joinLinesChars, trim, trimChars, isTrimSpace, isAnySpace,
      List.dropWhile, List.intercalate, List.intersperse, List.flatten, List.reverse,
      List.reverseAux] <;> decide
  have hfor : formal_usage "Usage:\n  prog [-v]..." = "( [-v]... )" := by
    simp +decide [formal_usage, strPartitionEq, findSub2Idx, findCharIdx, split,
      splitWSChars, takeRun, isAnySpace, joinSep, trim, trimChars, isTrimSpace,
      List.find?, List.enum, List.enumFrom, List.dropWhile, List.reverse,
      List.reverseAux, List.foldl] <;> decide
  have hdef : parse_defaults "Usage:\n  prog [-v]..." = [] := by
    simp +decide [parse_defaults, parse_section, sectionScan, splitLinesChars,
      lineHasLabel, lowerChars, listInfixOf, isIndented, joinLinesChars, trim, trimChars,
      isTrimSpace, List.dropWhile, List.intercalate, List.intersperse, List.flatten,
      List.reverse, List.reverseAux] <;> decide
  have hfp : Tokens.from_pattern "( [-v]... )" =
      ⟨["(", "[", "-v", "]", "...", ")"], false⟩ := by
    simp +decide [Tokens.from_pattern, tokenizeGrammarChars_eq, scanStrings_cons,
      scanStrings_nil, findSep,
      isRegexSpace, isSepChar, alt1Match, alt1Try, firstGtIdx, ltPosDesc, takeTok,
      List.dropWhile, List.find?, List.filterMap, List.flatten, List.reverse,
      List.reverseAux, List.foldl, List.append] <;> decide
  have hpe : parse_expr 28 ⟨["(", "[", "-v", "]", "...", ")"], false⟩ [] =
      .ok ([Pattern.branch .required [Pattern.branch .oneOrMore
        [Pattern.branch .optional [Pattern.leaf ⟨.option "-v" "" 0, "-v", .bool false⟩]]]],
        [⟨"-v", "", 0, .bool false⟩], ⟨[], false⟩) := by rfl
  have hpp : parse_pattern "( [-v]... )" [] =
      .ok (Pattern.branch .required [Pattern.branch .required [Pattern.branch .oneOrMore
        [Pattern.branch .optional [Pattern.leaf ⟨.option "-v" "" 0, "-v", .bool false⟩]]]],
        [⟨"-v", "", 0, .bool false⟩]) := by
    simp [parse_pattern, hfp, hpe, Tokens.hasMore, bind, Except.bind]
  have hcreate : create_pattern_tree "Usage:\n  prog [-v]..." =
      .ok (Pattern.branch .required [Pattern.branch .required [Pattern.branch .oneOrMore
        [Pattern.branch .optional [Pattern.leaf ⟨.option "-v" "" 0, "-v", .bool false⟩]]]],
        [⟨"-v", "", 0, .bool false⟩]) := by
    simp [create_pattern_tree, hsec, createFromUsage, hdef, hfor, hpp,
      patternOptionLeaves, leavesOf, leavesList, leafOptIdent, optIdent, fillShortcuts,
      fillShortcutsList, OptionSpec.toLeaf, OptionSpec.name, setInsert, bind, Except.bind]
  have hargv : parse_argv ⟨["-v", "-v", "-v"], true⟩ [⟨"-v", "", 0, .bool false⟩] false =
      .ok ([⟨.option "-v" "" 0, "-v", .bool true⟩, ⟨.option "-v" "" 0, "-v", .bool true⟩,
        ⟨.option "-v" "" 0, "-v", .bool true⟩], [⟨"-v", "", 0, .bool false⟩]) := by rfl
  have hrange : List.range 3 = [0, 1, 2] := by rfl
  have hextras : extras true true [⟨.option "-v" "" 0, "-v", .bool true⟩,
      ⟨.option "-v" "" 0, "-v", .bool true⟩, ⟨.option "-v" "" 0, "-v", .bool true⟩]
      [0, 1, 2] = none := by rfl
  have hfix : fix (Pattern.branch .required [Pattern.branch .required
        [Pattern.branch .oneOrMore [Pattern.branch .optional
          [Pattern.leaf ⟨.option "-v" "" 0, "-v", .bool false⟩]]]]) =
      Pattern.branch .required [Pattern.branch .required [Pattern.branch .oneOrMore
        [Pattern.branch .optional [Pattern.leaf ⟨.option "-v" "" 0, "-v", .long 0⟩]]]] := by
    simp [fix, fix_repeating_arguments, flaggedLeaves, transform, transformGo,
      splitAtBranch, expandOne, groupFlagged, replaceLeavesList, replaceLeaves,
      retypeLeaf, ensureListVal, List.count_cons]
  have hmatch : matchPattern (Pattern.branch .required [Pattern.branch .required
        [Pattern.branch .oneOrMore [Pattern.branch .optional
          [Pattern.leaf ⟨.option "-v" "" 0, "-v", .long 0⟩]]]])
      [⟨.option "-v" "" 0, "-v", .bool true⟩, ⟨.option "-v" "" 0, "-v", .bool true⟩,
       ⟨.option "-v" "" 0, "-v", .bool true⟩] [0, 1, 2] [] =
      ([⟨.option "-v" "" 0, "-v", .long 3⟩, ⟨.option "-v" "" 0, "-v", .bool true⟩,
        ⟨.option "-v" "" 0, "-v", .bool true⟩], true, [], [0]) := by
    simp [matchPattern, requiredGo, optionalGo, oomLoop, eitherOutcomes, leaf_match,
      single_match, findName, findArgLike, findCollectedRef, storeSet, getObj, listValOf,
      Value.isLong, Value.isStringList, isArgLike, List.getD, List.eraseIdx]
  have hbuild : buildRet [⟨.option "-v" "" 0, "-v", .long 3⟩,
      ⟨.option "-v" "" 0, "-v", .bool true⟩, ⟨.option "-v" "" 0, "-v", .bool true⟩]
      (leavesOf (Pattern.branch .required [Pattern.branch .required
        [Pattern.branch .oneOrMore [Pattern.branch .optional
          [Pattern.leaf ⟨.option "-v" "" 0, "-v", .long 0⟩]]]])) [0] =
      [("-v", Value.long 3)] := by rfl
  simp [docopt_parse, hcreate, hargv, hrange, hextras, hfix, hmatch, hbuild]

/-- C9: grammar compilation dispatches on the number of "usage:" blocks
found by the case-insensitive section scan: with zero blocks docopt_parse
raises the language error "'usage:' (case-insensitive) not found.", with
two or more blocks it raises the language error "More than one 'usage:'
(case-insensitive).", and with exactly one block compilation proceeds to
grammar parsing of that block. -/
theorem usage_section_count_dispatch (doc : String) (argv : List String)
    (help version ofirst : Bool) :
    ((parse_section "usage:" doc).length = 0 →
      docopt_parse doc argv help version ofirst =
        .error (.languageError "'usage:' (case-insensitive) not found.")) ∧
    (2 ≤ (parse_section "usage:" doc).length →
      docopt_parse doc argv help version ofirst =
        .error (.languageError "More than one 'usage:' (case-insensitive).")) ∧
    (∀ u, parse_section "usage:" doc = [u] →
      create_pattern_tree doc = createFromUsage doc u) := by
  refine ⟨?_, ?_, ?_⟩
  · intro h
    have h0 : parse_section "usage:" doc = [] := List.length_eq_zero.mp h
    simp [docopt_parse, create_pattern_tree, h0]
  · intro h
    match hps : parse_section "usage:" doc with
    | [] => rw [hps] at h; simp at h
    | [u] => rw [hps] at h; simp at h
    | a :: b :: rest => simp [docopt_parse, create_pattern_tree, hps]
  · intro u hu
    simp [create_pattern_tree, hu]

/-- A concrete instance of the usage-section dispatch: a document with no
"usage:" line yields the not-found language error. -/
theorem usage_section_count_dispatch_witness :
    (parse_section "usage:" "nothing here").length = 0 ∧
    docopt_parse "nothing here" [] false false false =
      .error (.languageError "'usage:' (case-insensitive) not found.") := by
  have h : (parse_section "usage:" "nothing here").length = 0 := by
    simp +decide [parse_section, sectionScan, splitLinesChars, lineHasLabel, lowerChars,
      listInfixOf, isIndented, joinLinesChars, trim, trimChars, isTrimSpace,
      List.dropWhile, List.intercalate, List.intersperse, List.flatten, List.reverse,
      List.reverseAux] <;> decide
  exact ⟨h, (usage_section_count_dispatch "nothing here" [] false false false).1 h⟩

/-- C1: when grammar compilation and argv parsing succeed and the
help/version short-circuit does not fire, docopt_parse returns a bindings
map exactly when matching the normalized root pattern against the
argv-derived pattern list succeeds and leaves the remaining list empty; in
every other case the error is a DocoptArgumentError — in particular a
successful structural match with leftover argv tokens still errors. -/
theorem docopt_parse_ok_iff (doc : String) (argv : List String)
    (help version ofirst : Bool) (pat : Pattern) (opts opts2 : List OptionSpec)
    (objs : List LeafObj)
    (hc : create_pattern_tree doc = .ok (pat, opts))
    (ha : parse_argv ⟨argv, true⟩ opts ofirst = .ok (objs, opts2))
    (he : extras help version objs (List.range objs.length) = none) :
    ((∃ m, docopt_parse doc argv help version ofirst = .ok m) ↔
      ((matchPattern (fix pat) objs (List.range objs.length) []).2.1 = true ∧
       (matchPattern (fix pat) objs (List.range objs.length) []).2.2.1 = [])) ∧
    (∀ e, docopt_parse doc argv help version ofirst = .error e →
      ∃ msg, e = .argumentError msg) := by
  simp only [docopt_parse, hc, ha, he]
  by_cases h1 : (matchPattern (fix pat) objs (List.range objs.length) []).2.1 = true ∧
      (matchPattern (fix pat) objs (List.range objs.length) []).2.2.1 = []
  · rw [if_pos h1]
    refine ⟨⟨fun _ => h1, fun _ => ⟨_, rfl⟩⟩, ?_⟩
    intro e he'
    exact absurd he' (by simp)
  · rw [if_neg h1]
    by_cases h2 : (matchPattern (fix pat) objs (List.range objs.length) []).2.1 = true
    · rw [if_pos h2]
      refine ⟨⟨?_, fun hr => absurd hr h1⟩, ?_⟩
      · rintro ⟨m, hm⟩
        exact absurd hm (by simp)
      · intro e he'
        refine ⟨"Unexpected argument: " ++ joinSep argv ", ", ?_⟩
        simpa using he'.symm
    · rw [if_neg h2]
      refine ⟨⟨?_, fun hr => absurd hr h1⟩, ?_⟩
      · rintro ⟨m, hm⟩
        exact absurd hm (by simp)
      · intro e he'
        refine ⟨"Arguments did not match expected patterns", ?_⟩
        simpa using he'.symm

/-- A concrete instance of the success dispatch: for the one-line usage
document "usage: prog" and an empty argument vector, compilation and argv
parsing succeed, no short circuit fires, and the parse succeeds exactly as
the (trivially succeeding, nothing-left) match dictates. -/
theorem docopt_parse_ok_iff_witness :
    create_pattern_tree "usage: prog" =
      .ok (Pattern.branch .required [Pattern.branch .required []], []) ∧
    parse_argv ⟨[], true⟩ [] false = .ok ([], []) ∧
    extras false false [] (List.range 0) = none ∧
    (((∃ m, docopt_parse "usage: prog" [] false false false = .ok m) ↔
      ((matchPattern (fix (Pattern.branch .required [Pattern.branch .required []]))
          [] (List.range 0) []).2.1 = true ∧
       (matchPattern (fix (Pattern.branch .required [Pattern.branch .required []]))
          [] (List.range 0) []).2.2.1 = [])) ∧
    (∀ e, docopt_parse "usage: prog" [] false false false = .error e →
      ∃ msg, e = .argumentError msg)) := by
  have hsec : parse_section "usage:" "usage: prog" = ["usage: prog"] := by
    simp +decide [parse_section, sectionScan, splitLinesChars, lineHasLabel, lowerChars,
      listInfixOf, isIndented, joinLinesChars, trim, trimChars, isTrimSpace,
      List.dropWhile, List.intercalate, List.intersperse, List.flatten, List.reverse,
      List.reverseAux] <;> decide
  have hfor : formal_usage "usage: prog" = "( )" := by
    simp +decide [formal_usage, strPartitionEq, findSub2Idx, findCharIdx, split,
      splitWSChars, takeRun, isAnySpace, joinSep, trim, trimChars, isTrimSpace,
      List.find?, List.enum, List.enumFrom, List.dropWhile, List.reverse,
      List.reverseAux, List.foldl] <;> decide
  have hdef : parse_defaults "usage: prog" = [] := by
    simp +decide [parse_defaults, parse_section, sectionScan, splitLinesChars,
      lineHasLabel, lowerChars, listInfixOf, isIndented, joinLinesChars, trim, trimChars,
      isTrimSpace, List.dropWhile, List.intercalate, List.intersperse, List.flatten,
      List.reverse, List.reverseAux] <;> decide
  have hfp : Tokens.from_pattern "( )" = ⟨["(", ")"], false⟩ := by
    simp +decide [Tokens.from_pattern, tokenizeGrammarChars_eq, scanStrings_cons,
      scanStrings_nil, findSep,
      isRegexSpace, isSepChar, alt1Match, alt1Try, firstGtIdx, ltPosDesc, takeTok,
      List.dropWhile, List.find?, List.filterMap, List.flatten, List.reverse,
      List.reverseAux, List.foldl, List.append] <;> decide
  have hpe : parse_expr 16 ⟨["(", ")"], false⟩ [] =
      .ok ([Pattern.branch .required []], [], ⟨[], false⟩) := by rfl
  have hpp : parse_pattern "( )" [] =
      .ok (Pattern.branch .required [Pattern.branch .required []], []) := by
    simp [parse_pattern, hfp, hpe, Tokens.hasMore, bind, Except.bind]
  have hc : create_pattern_tree "usage: prog" =
      .ok (Pattern.branch .required [Pattern.branch .required []], []) := by
    simp [create_pattern_tree, hsec, createFromUsage, hdef, hfor, hpp,
      patternOptionLeaves, leavesOf, leavesList, leafOptIdent, optIdent, fillShortcuts,
      fillShortcutsList, OptionSpec.toLeaf, OptionSpec.name, setInsert, bind, Except.bind]
  have ha : parse_argv ⟨[], true⟩ [] false = .ok ([], []) := by rfl
  have he : extras false false [] (List.range 0) = none := by rfl
  exact ⟨hc, ha, he,
    docopt_parse_ok_iff "usage: prog" [] false false false _ _ _ _ hc ha he⟩

/-! ## Store evolution and consumability (matcher meta-theory) -/

/-- Whether the leaf pattern `d` could ever take an object with the
metadata of `obj` out of `left`: an `Option` leaf matches by name
(`Option::single_match` scans for `name()`); `Argument` and `Command`
leaves take the first object whose dynamic type is `Argument` (or a
subclass), whatever its name. -/
def leafCanConsume (d obj : LeafObj) : Bool :=
  match d.kind with
  | .option _ _ _ => obj.name = d.name
  | _ => isArgLike obj.kind

/-- Store evolution during matching: objects are only appended, and every
existing object keeps its kind and name (`setValue` writes values only). -/
def metaExt (s s' : Store) : Prop :=
  s.length ≤ s'.length ∧
    ∀ i, i < s.length →
      (getObj s' i).kind = (getObj s i).kind ∧ (getObj s' i).name = (getObj s i).name

theorem metaExt_refl (s : Store) : metaExt s s :=
  ⟨le_refl _, fun _ _ => ⟨rfl, rfl⟩⟩

theorem metaExt_trans {s1 s2 s3 : Store} (h1 : metaExt s1 s2) (h2 : metaExt s2 s3) :
    metaExt s1 s3 := by
  refine ⟨le_trans h1.1 h2.1, fun i hi => ?_⟩
  have e1 := h1.2 i hi
  have e2 := h2.2 i (lt_of_lt_of_le hi h1.1)
  exact ⟨e2.1.trans e1.1, e2.2.trans e1.2⟩

theorem metaExt_append (s : Store) (t : List LeafObj) : metaExt s (s ++ t) := by
  refine ⟨by simp, fun i hi => ?_⟩
  simp [getObj, List.getD_eq_getElem?_getD, List.getElem?_append, hi]

theorem storeSet_length (s : Store) (r : Nat) (v : Value) :
    (storeSet s r v).length = s.length := by
  simp [storeSet]

theorem getObj_storeSet (s : Store) (r : Nat) (v : Value) (i : Nat) :
    getObj (storeSet s r v) i =
      if r = i ∧ r < s.length then { getObj s r with val := v } else getObj s i := by
  simp only [storeSet, getObj, List.getD_eq_getElem?_getD, List.getElem?_set]
  by_cases h1 : r = i
  · subst h1
    by_cases h2 : r < s.length
    · simp [h2]
    · simp [h2, List.getElem?_eq_none (Nat.le_of_not_lt h2)]
  · simp [h1]

/-- `setValue` never changes an object's kind or name, at any index. -/
theorem storeSet_meta (s : Store) (r : Nat) (v : Value) (i : Nat) :
    (getObj (storeSet s r v) i).kind = (getObj s i).kind ∧
      (getObj (storeSet s r v) i).name = (getObj s i).name := by
  rw [getObj_storeSet]
  split
  · rename_i h
    rw [← h.1]
    exact ⟨rfl, rfl⟩
  · exact ⟨rfl, rfl⟩

theorem metaExt_storeSet (s : Store) (r : Nat) (v : Value) : metaExt s (storeSet s r v) :=
  ⟨le_of_eq (storeSet_length s r v).symm, fun i _ => storeSet_meta s r v i⟩

/-- `leafCanConsume` only looks at kind and name, so it transfers along
`metaExt` for valid references. -/
theorem leafCanConsume_congr (d : LeafObj) {s s' : Store} (j : Nat)
    (h : metaExt s s') (hj : j < s.length) :
    leafCanConsume d (getObj s' j) = leafCanConsume d (getObj s j) := by
  obtain ⟨hk, hn⟩ := h.2 j hj
  unfold leafCanConsume
  cases d.kind <;> simp [hk, hn]

theorem getObj_append_last (s : Store) (x : LeafObj) : getObj (s ++ [x]) s.length = x := by
  simp [getObj, List.getD_eq_getElem?_getD, List.getElem?_append]

theorem findName_spec (s : Store) (nm : String) :
    ∀ (l : List Nat) (i r : Nat), findName s nm l = some (i, r) →
      l[i]? = some r ∧ (getObj s r).name = nm
  | [], i, r => by simp [findName]
  | a :: rest, i, r => by
      intro h
      simp only [findName] at h
      by_cases ha : (getObj s a).name = nm
      · rw [if_pos ha] at h
        simp only [Option.some.injEq, Prod.mk.injEq] at h
        obtain ⟨h1, h2⟩ := h
        subst h1; subst h2
        exact ⟨by simp, ha⟩
      · rw [if_neg ha] at h
        match hr : findName s nm rest with
        | none => rw [hr] at h; simp at h
        | some pr =>
            rw [hr] at h
            simp at h
            obtain ⟨h1, h2⟩ := h
            subst h1; subst h2
            have hrec := findName_spec s nm rest pr.1 pr.2 (by rw [hr])
            refine ⟨?_, hrec.2⟩
            rw [List.getElem?_cons_succ]
            exact hrec.1

theorem findArgLike_spec (s : Store) :
    ∀ (l : List Nat) (i r : Nat), findArgLike s l = some (i, r) →
      l[i]? = some r ∧ isArgLike (getObj s r).kind = true
  | [], i, r => by simp [findArgLike]
  | a :: rest, i, r => by
      intro h
      simp only [findArgLike] at h
      by_cases ha : isArgLike (getObj s a).kind
      · rw [if_pos ha] at h
        simp only [Option.some.injEq, Prod.mk.injEq] at h
        obtain ⟨h1, h2⟩ := h
        subst h1; subst h2
        exact ⟨by simp, ha⟩
      · rw [if_neg ha] at h
        match hr : findArgLike s rest with
        | none => rw [hr] at h; simp at h
        | some pr =>
            rw [hr] at h
            simp at h
            obtain ⟨h1, h2⟩ := h
            subst h1; subst h2
            have hrec := findArgLike_spec s rest pr.1 pr.2 (by rw [hr])
            refine ⟨?_, hrec.2⟩
            rw [List.getElem?_cons_succ]
            exact hrec.1

theorem mem_eraseIdx_of_ne :
    ∀ (l : List Nat) (i j r0 : Nat), j ∈ l → l[i]? = some r0 → j ≠ r0 →
      j ∈ l.eraseIdx i
  | [], i, j, r0 => by simp
  | a :: rest, 0, j, r0 => by
      intro hj hg hne
      simp only [List.getElem?_cons_zero, Option.some.injEq] at hg
      subst hg
      rcases List.mem_cons.mp hj with h | h
      · exact absurd h hne
      · simpa [List.eraseIdx] using h
  | a :: rest, i + 1, j, r0 => by
      intro hj hg hne
      simp only [List.getElem?_cons_succ] at hg
      rcases List.mem_cons.mp hj with h | h
      · simp [List.eraseIdx, h]
      · simpa [List.eraseIdx] using
          Or.inr (mem_eraseIdx_of_ne rest i j r0 h hg hne)

theorem single_match_metaExt (d : LeafObj) (s : Store) (l : List Nat) :
    metaExt s (single_match d s l).1 := by
  unfold single_match
  repeat' split
  all_goals first
    | exact metaExt_refl s
    | exact metaExt_append s _

/-- The position erased by a successful `single_match` holds an object the
leaf can consume. -/
theorem single_match_erased (d : LeafObj) (s : Store) (l : List Nat) (i r : Nat)
    (h : (single_match d s l).2 = some (i, r)) :
    ∃ r0, l[i]? = some r0 ∧ leafCanConsume d (getObj s r0) = true := by
  match hk : d.kind with
  | .argument =>
      match hf : findArgLike s l with
      | none =>
          rw [show single_match d s l = (s, none) by simp [single_match, hk, hf]] at h
          simp at h
      | some pr =>
          rw [show single_match d s l =
              (s ++ [⟨.argument, d.name, (getObj s pr.2).val⟩], some (pr.1, s.length)) by
            simp [single_match, hk, hf]] at h
          simp only [Option.some.injEq, Prod.mk.injEq] at h
          obtain ⟨h1, -⟩ := h
          have hs := findArgLike_spec s l pr.1 pr.2 (by rw [hf])
          exact ⟨pr.2, by rw [← h1]; exact hs.1, by simp [leafCanConsume, hk, hs.2]⟩
  | .command =>
      match hf : findArgLike s l with
      | none =>
          rw [show single_match d s l = (s, none) by simp [single_match, hk, hf]] at h
          simp at h
      | some pr =>
          by_cases hv : (getObj s pr.2).val = .str d.name
          · rw [show single_match d s l =
                (s ++ [⟨.command, d.name, .bool true⟩], some (pr.1, s.length)) by
              simp [single_match, hk, hf, hv]] at h
            simp only [Option.some.injEq, Prod.mk.injEq] at h
            obtain ⟨h1, -⟩ := h
            have hs := findArgLike_spec s l pr.1 pr.2 (by rw [hf])
            exact ⟨pr.2, by rw [← h1]; exact hs.1, by simp [leafCanConsume, hk, hs.2]⟩
          · rw [show single_match d s l = (s, none) by
              simp [single_match, hk, hf, hv]] at h
            simp at h
  | .option so lo ac =>
      rw [show single_match d s l = (s, findName s d.name l) by
        simp [single_match, hk]] at h
      have hs := findName_spec s d.name l i r h
      exact ⟨r, hs.1, by simp [leafCanConsume, hk, hs.2]⟩

/-- A successful `single_match` hands back a valid reference carrying the
leaf's name. -/
theorem single_match_ref (d : LeafObj) (s : Store) (l : List Nat) (i r : Nat)
    (hl : ∀ j ∈ l, j < s.length)
    (h : (single_match d s l).2 = some (i, r)) :
    r < (single_match d s l).1.length ∧
      (getObj (single_match d s l).1 r).name = d.name := by
  match hk : d.kind with
  | .argument =>
      match hf : findArgLike s l with
      | none =>
          rw [show single_match d s l = (s, none) by simp [single_match, hk, hf]] at h
          simp at h
      | some pr =>
          have hres : single_match d s l =
              (s ++ [⟨.argument, d.name, (getObj s pr.2).val⟩], some (pr.1, s.length)) := by
            simp [single_match, hk, hf]
          rw [hres] at h ⊢
          simp only [Option.some.injEq, Prod.mk.injEq] at h
          obtain ⟨-, h2⟩ := h
          subst h2
          exact ⟨by simp, by simp [getObj_append_last]⟩
  | .command =>
      match hf : findArgLike s l with
      | none =>
          rw [show single_match d s l = (s, none) by simp [single_match, hk, hf]] at h
          simp at h
      | some pr =>
          by_cases hv : (getObj s pr.2).val = .str d.name
          · have hres : single_match d s l =
                (s ++ [⟨.command, d.name, .bool true⟩], some (pr.1, s.length)) := by
              simp [single_match, hk, hf, hv]
            rw [hres] at h ⊢
            simp only [Option.some.injEq, Prod.mk.injEq] at h
            obtain ⟨-, h2⟩ := h
            subst h2
            exact ⟨by simp, by simp [getObj_append_last]⟩
          · rw [show single_match d s l = (s, none) by
              simp [single_match, hk, hf, hv]] at h
            simp at h
  | .option so lo ac =>
      have hres : single_match d s l = (s, findName s d.name l) := by
        simp [single_match, hk]
      rw [hres] at h ⊢
      have hs := findName_spec s d.name l i r h
      have hrl : r ∈ l := List.getElem?_mem hs.1
      exact ⟨hl r hrl, hs.2⟩

theorem leaf_match_metaExt (d : LeafObj) (s : Store) (l c : List Nat) :
    metaExt s (leaf_match d s l c).1 := by
  rcases hsm : single_match d s l with ⟨s1, io⟩
  have hme : metaExt s s1 := by
    have h0 := single_match_metaExt d s l
    rwa [hsm] at h0
  unfold leaf_match
  rw [hsm]
  cases io with
  | none => exact hme
  | some ir =>
      rcases ir with ⟨i, r⟩
      dsimp only
      repeat' split
      all_goals first
        | exact hme
        | exact metaExt_trans hme (metaExt_storeSet _ _ _)

/-- A failed leaf match keeps `left` as it was; a successful one removes
exactly one position, and that position held an object the leaf can
consume.  So a reference to an object the leaf cannot consume survives. -/
theorem leaf_match_retention (d : LeafObj) (s : Store) (l c : List Nat) (j : Nat)
    (hj : j ∈ l) (hno : leafCanConsume d (getObj s j) = false) :
    j ∈ (leaf_match d s l c).2.2.1 := by
  rcases hsm : single_match d s l with ⟨s1, io⟩
  unfold leaf_match
  rw [hsm]
  cases io with
  | none => exact hj
  | some ir =>
      rcases ir with ⟨i, r⟩
      dsimp only
      obtain ⟨r0, hg, hcons⟩ := single_match_erased d s l i r (by rw [hsm])
      have hne : j ≠ r0 := by
        intro he
        rw [he] at hno
        rw [hno] at hcons
        exact Bool.false_ne_true hcons
      have hmem := mem_eraseIdx_of_ne l i j r0 hj hg hne
      repeat' split
      all_goals exact hmem

/-- `LeafPattern::match` only ever appends to `collected` a reference to a
valid object carrying the leaf's own name (fresh `Argument`/`Command`
copies, or the matched `Option` object from `left`). -/
theorem leaf_match_meta (d : LeafObj) (s : Store) (l c : List Nat)
    (hl : ∀ j ∈ l, j < s.length) (hc : ∀ j ∈ c, j < s.length) :
    metaExt s (leaf_match d s l c).1 ∧
    (∀ j ∈ (leaf_match d s l c).2.2.2, j < (leaf_match d s l c).1.length) ∧
    (∀ j ∈ (leaf_match d s l c).2.2.2,
      j ∈ c ∨ (getObj (leaf_match d s l c).1 j).name = d.name) := by
  rcases hsm : single_match d s l with ⟨s1, io⟩
  have hme : metaExt s s1 := by
    have h0 := single_match_metaExt d s l
    rwa [hsm] at h0
  unfold leaf_match
  rw [hsm]
  cases io with
  | none =>
      refine ⟨hme, ?_, ?_⟩
      · intro j hj
        exact lt_of_lt_of_le (hc j hj) hme.1
      · intro j hj
        exact Or.inl hj
  | some ir =>
      rcases ir with ⟨i, r⟩
      dsimp only
      have href : r < s1.length ∧ (getObj s1 r).name = d.name := by
        have h0 := single_match_ref d s l i r hl (by rw [hsm])
        rwa [hsm] at h0
      have hcv : ∀ (s2 : Store), s2.length = s1.length →
          ∀ j ∈ c ++ [r], j < s2.length := by
        intro s2 h2 j hj
        rcases List.mem_append.mp hj with hjc | hjr
        · exact lt_of_lt_of_le (hc j hjc) (h2 ▸ hme.1)
        · have : j = r := by simpa using hjr
          rw [this, h2]
          exact href.1
      have hcv0 : ∀ (s2 : Store), s2.length = s1.length → ∀ j ∈ c, j < s2.length := by
        intro s2 h2 j hj
        exact lt_of_lt_of_le (hc j hj) (h2 ▸ hme.1)
      have hnm : ∀ (r1 : Nat) (v : Value), ∀ j ∈ c ++ [r],
          j ∈ c ∨ (getObj (storeSet s1 r1 v) j).name = d.name := by
        intro r1 v j hj
        rcases List.mem_append.mp hj with hjc | hjr
        · exact Or.inl hjc
        · have : j = r := by simpa using hjr
          subst this
          exact Or.inr (((storeSet_meta s1 r1 v j).2).trans href.2)
      have hnm0 : ∀ j ∈ c ++ [r], j ∈ c ∨ (getObj s1 j).name = d.name := by
        intro j hj
        rcases List.mem_append.mp hj with hjc | hjr
        · exact Or.inl hjc
        · have : j = r := by simpa using hjr
          subst this
          exact Or.inr href.2
      repeat' split
      all_goals
        refine ⟨?_, ?_, ?_⟩
      all_goals first
        | exact hme
        | exact metaExt_trans hme (metaExt_storeSet _ _ _)
        | exact hcv _ (storeSet_length _ _ _)
        | exact hcv _ rfl
        | exact hcv0 _ (storeSet_length _ _ _)
        | exact hcv0 _ rfl
        | exact hnm _ _
        | exact hnm0
        | exact fun j hj => Or.inl hj

/-- Store evolution across the whole matcher: the store only grows, and
every existing object keeps its kind and name (joint induction over the
five mutually recursive matcher functions). -/
theorem matchPattern_metaExt :
    ∀ (p : Pattern) (s : Store) (l c : List Nat), metaExt s (matchPattern p s l c).1 := by
  refine matchPattern.induct
    (fun p s l c => metaExt s (matchPattern p s l c).1)
    (fun cs s l c => metaExt s (eitherOutcomes cs s l c).1)
    (fun ch fuel s l c lprev fl t =>
      ∀ s' l' c' t', oomLoop ch fuel s l c lprev fl t = some (s', l', c', t') →
        metaExt s s')
    (fun cs s l c => metaExt s (optionalGo cs s l c).1)
    (fun cs s l c l0 c0 => metaExt s (requiredGo cs s l c l0 c0).1)
    ?_ ?_ ?_ ?_ ?_ ?_ ?_ ?_ ?_ ?_ ?_ ?_ ?_ ?_ ?_ ?_ ?_ ?_ ?_ ?_ ?_
  · intro s l c d
    rw [matchPattern_leaf]
    exact leaf_match_metaExt d s l c
  · intro s l c cs ih
    rw [matchPattern_required]
    exact ih
  · intro s l c cs ih
    rw [matchPattern_optional]
    exact ih
  · intro s l c cs ih
    rw [matchPattern_optionsShortcut]
    exact ih
  · intro s l c
    rw [matchPattern_oneOrMore_nil]
    exact metaExt_refl s
  · intro s l c ch tail hnone ih
    rw [matchPattern_oneOrMore_cons, hnone]
    exact metaExt_refl s
  · intro s l c ch tail s' l' c' hsome ih
    rw [matchPattern_oneOrMore_cons, hsome]
    simpa using ih s' l' c' 0 hsome
  · intro s l c ch tail s' l' c' times hsome ht ih
    rw [matchPattern_oneOrMore_cons, hsome]
    simp only [ht, if_false]
    exact ih s' l' c' times hsome
  · intro s l c cs ro rsel hUM ih
    rw [matchPattern_either, if_pos hUM]
    exact ih
  · intro s l c cs ro rsel hUM ih
    have hUM' : ¬ (eitherFold (eitherOutcomes cs s l c).2 ULONG_MAX ([], [])).1 = ULONG_MAX :=
      hUM
    rw [matchPattern_either, if_neg hUM']
    exact ih
  · intro s l c
    simp only [eitherOutcomes]
    exact metaExt_refl s
  · intro s l c ch tail r ih1 ih2
    rw [eitherOutcomes_cons]
    exact metaExt_trans ih1 ih2
  · intro ch s l c lprev fl t s' l' c' t' h
    simp [oomLoop] at h
  · intro ch s l c lprev fl t fuel' r hfalse ih
    intro s' l' c' t' h
    simp only [Nat.succ_eq_add_one] at h
    rw [oomLoop_succ, if_pos hfalse] at h
    simp only [Option.some.injEq, Prod.mk.injEq] at h
    obtain ⟨h1, -, -, -⟩ := h
    rw [← h1]
    exact ih
  · intro ch s l c lprev fl t fuel' r hfalse hbrk ih
    intro s' l' c' t' h
    simp only [Nat.succ_eq_add_one] at h
    rw [oomLoop_succ, if_neg hfalse, if_pos hbrk] at h
    simp only [Option.some.injEq, Prod.mk.injEq] at h
    obtain ⟨h1, -, -, -⟩ := h
    rw [← h1]
    exact ih
  · intro ch s l c lprev fl t fuel' r t2 hfalse hbrk ih1 ih2
    intro s' l' c' t' h
    simp only [Nat.succ_eq_add_one] at h
    rw [oomLoop_succ, if_neg hfalse, if_neg hbrk] at h
    exact metaExt_trans ih1 (ih2 s' l' c' t' h)
  · intro s l c
    simp only [optionalGo]
    exact metaExt_refl s
  · intro s l c ch tail r ih1 ih2
    rw [optionalGo_cons]
    exact metaExt_trans ih1 ih2
  · intro s l c l0 c0
    simp only [requiredGo]
    exact metaExt_refl s
  · intro s l c l0 c0 ch tail r hr ih1 ih2
    rw [requiredGo_cons, if_pos hr]
    exact metaExt_trans ih1 ih2
  · intro s l c l0 c0 ch tail r hr ih1
    rw [requiredGo_cons, if_neg hr]
    exact ih1

theorem leavesOf_leaf (d : LeafObj) : leavesOf (.leaf d) = [d] := by
  simp [leavesOf]

theorem leavesOf_branch (k : BranchKind) (cs : List Pattern) :
    leavesOf (.branch k cs) = leavesList cs := by
  simp [leavesOf]

theorem leavesList_cons (p : Pattern) (rest : List Pattern) :
    leavesList (p :: rest) = leavesOf p ++ leavesList rest := by
  simp [leavesList]

/-- Unconsumability of a valid reference transfers across a child match. -/
theorem retention_transfer (p0 : Pattern) (s : Store) (l c : List Nat) (j : Nat)
    (hlt : j < s.length) (D : List LeafObj)
    (hno : ∀ d ∈ D, leafCanConsume d (getObj s j) = false) :
    j < (matchPattern p0 s l c).1.length ∧
      ∀ d ∈ D, leafCanConsume d (getObj (matchPattern p0 s l c).1 j) = false := by
  refine ⟨lt_of_lt_of_le hlt (matchPattern_metaExt p0 s l c).1, fun d hd => ?_⟩
  rw [leafCanConsume_congr d j (matchPattern_metaExt p0 s l c) hlt]
  exact hno d hd

/-- Retention: a valid `left` reference to an object that no leaf of the
pattern can consume is still in `left` after the match, whatever the
outcome (joint induction over the matcher). -/
theorem matchPattern_retention :
    ∀ (p : Pattern) (s : Store) (l c : List Nat),
      ∀ j, j ∈ l → j < s.length →
        (∀ d ∈ leavesOf p, leafCanConsume d (getObj s j) = false) →
        j ∈ (matchPattern p s l c).2.2.1 := by
  refine matchPattern.induct
    (fun p s l c => ∀ j, j ∈ l → j < s.length →
      (∀ d ∈ leavesOf p, leafCanConsume d (getObj s j) = false) →
      j ∈ (matchPattern p s l c).2.2.1)
    (fun cs s l c => ∀ j, j ∈ l → j < s.length →
      (∀ d ∈ leavesList cs, leafCanConsume d (getObj s j) = false) →
      ∀ o ∈ (eitherOutcomes cs s l c).2, j ∈ o.1)
    (fun ch fuel s l c lprev fl t => ∀ j, j ∈ l → j < s.length →
      (∀ d ∈ leavesOf ch, leafCanConsume d (getObj s j) = false) →
      ∀ s' l' c' t', oomLoop ch fuel s l c lprev fl t = some (s', l', c', t') → j ∈ l')
    (fun cs s l c => ∀ j, j ∈ l → j < s.length →
      (∀ d ∈ leavesList cs, leafCanConsume d (getObj s j) = false) →
      j ∈ (optionalGo cs s l c).2.2.1)
    (fun cs s l c l0 c0 => ∀ j, j ∈ l → j ∈ l0 → j < s.length →
      (∀ d ∈ leavesList cs, leafCanConsume d (getObj s j) = false) →
      j ∈ (requiredGo cs s l c l0 c0).2.2.1)
    ?_ ?_ ?_ ?_ ?_ ?_ ?_ ?_ ?_ ?_ ?_ ?_ ?_ ?_ ?_ ?_ ?_ ?_ ?_ ?_ ?_
  · intro s l c d j hj hlt hno
    rw [matchPattern_leaf]
    refine leaf_match_retention d s l c j hj (hno d ?_)
    rw [leavesOf_leaf]
    simp
  · intro s l c cs ih j hj hlt hno
    rw [leavesOf_branch] at hno
    rw [matchPattern_required]
    exact ih j hj hj hlt hno
  · intro s l c cs ih j hj hlt hno
    rw [leavesOf_branch] at hno
    rw [matchPattern_optional]
    exact ih j hj hlt hno
  · intro s l c cs ih j hj hlt hno
    rw [leavesOf_branch] at hno
    rw [matchPattern_optionsShortcut]
    exact ih j hj hlt hno
  · intro s l c j hj hlt hno
    rw [matchPattern_oneOrMore_nil]
    exact hj
  · intro s l c ch tail hnone ih j hj hlt hno
    rw [matchPattern_oneOrMore_cons, hnone]
    exact hj
  · intro s l c ch tail s' l' c' hsome ih j hj hlt hno
    rw [matchPattern_oneOrMore_cons, hsome]
    simpa using hj
  · intro s l c ch tail s' l' c' times hsome ht ih j hj hlt hno
    rw [leavesOf_branch, leavesList_cons] at hno
    rw [matchPattern_oneOrMore_cons, hsome]
    simp only [ht, if_false]
    exact ih j hj hlt (fun d hd => hno d (List.mem_append_left _ hd)) s' l' c' times hsome
  · intro s l c cs ro rsel hUM ih j hj hlt hno
    rw [matchPattern_either, if_pos hUM]
    exact hj
  · intro s l c cs ro rsel hUM ih j hj hlt hno
    rw [leavesOf_branch] at hno
    have hUM' : ¬ (eitherFold (eitherOutcomes cs s l c).2 ULONG_MAX ([], [])).1 = ULONG_MAX :=
      hUM
    rw [matchPattern_either, if_neg hUM']
    rcases eitherFold_cases (eitherOutcomes cs s l c).2 ULONG_MAX ([], []) with h | ⟨h1, -, -⟩
    · exfalso
      apply hUM'
      rw [h]
    · exact ih j hj hlt hno _ h1
  · intro s l c j hj hlt hno o ho
    simp [eitherOutcomes] at ho
  · intro s l c ch tail r ih1 ih2 j hj hlt hno o ho
    rw [leavesList_cons] at hno
    obtain ⟨hlt', hno'⟩ := retention_transfer ch s l c j hlt _
      (fun d hd => hno d (List.mem_append_right _ hd))
    rw [eitherOutcomes_cons] at ho
    by_cases hr : (matchPattern ch s l c).2.1
    · rw [if_pos hr] at ho
      rcases List.mem_cons.mp ho with he | hm
      · rw [he]
        exact ih1 j hj hlt (fun d hd => hno d (List.mem_append_left _ hd))
      · exact ih2 j hj hlt' hno' o hm
    · rw [if_neg hr] at ho
      exact ih2 j hj hlt' hno' o ho
  · intro ch s l c lprev fl t j hj hlt hno s' l' c' t' h
    simp [oomLoop] at h
  · intro ch s l c lprev fl t fuel' r hfalse ih j hj hlt hno s' l' c' t' h
    simp only [Nat.succ_eq_add_one] at h
    rw [oomLoop_succ, if_pos hfalse] at h
    simp only [Option.some.injEq, Prod.mk.injEq] at h
    obtain ⟨-, h2, -, -⟩ := h
    rw [← h2]
    exact ih j hj hlt hno
  · intro ch s l c lprev fl t fuel' r hfalse hbrk ih j hj hlt hno s' l' c' t' h
    simp only [Nat.succ_eq_add_one] at h
    rw [oomLoop_succ, if_neg hfalse, if_pos hbrk] at h
    simp only [Option.some.injEq, Prod.mk.injEq] at h
    obtain ⟨-, h2, -, -⟩ := h
    rw [← h2]
    exact ih j hj hlt hno
  · intro ch s l c lprev fl t fuel' r t2 hfalse hbrk ih1 ih2 j hj hlt hno s' l' c' t' h
    simp only [Nat.succ_eq_add_one] at h
    rw [oomLoop_succ, if_neg hfalse, if_neg hbrk] at h
    obtain ⟨hlt', hno'⟩ := retention_transfer ch s l c j hlt _ hno
    exact ih2 j (ih1 j hj hlt hno) hlt' hno' s' l' c' t' h
  · intro s l c j hj hlt hno
    simpa [optionalGo] using hj
  · intro s l c ch tail r ih1 ih2 j hj hlt hno
    rw [leavesList_cons] at hno
    obtain ⟨hlt', hno'⟩ := retention_transfer ch s l c j hlt _
      (fun d hd => hno d (List.mem_append_right _ hd))
    rw [optionalGo_cons]
    exact ih2 j (ih1 j hj hlt (fun d hd => hno d (List.mem_append_left _ hd))) hlt' hno'
  · intro s l c l0 c0 j hj hj0 hlt hno
    simpa [requiredGo] using hj
  · intro s l c l0 c0 ch tail r hr ih1 ih2 j hj hj0 hlt hno
    rw [leavesList_cons] at hno
    obtain ⟨hlt', hno'⟩ := retention_transfer ch s l c j hlt _
      (fun d hd => hno d (List.mem_append_right _ hd))
    rw [requiredGo_cons, if_pos hr]
    exact ih2 j (ih1 j hj hlt (fun d hd => hno d (List.mem_append_left _ hd))) hj0 hlt' hno'
  · intro s l c l0 c0 ch tail r hr ih1 j hj hj0 hlt hno
    rw [requiredGo_cons, if_neg hr]
    exact hj0

theorem name_transfer {s2 s3 : Store} (hme : metaExt s2 s3) (j : Nat) (hj : j < s2.length)
    (nm : String) (h : (getObj s2 j).name = nm) : (getObj s3 j).name = nm :=
  ((hme.2 j hj).2).trans h

theorem optionalGo_metaExt :
    ∀ (cs : List Pattern) (s : Store) (l c : List Nat),
      metaExt s (optionalGo cs s l c).1 := by
  intro cs
  induction cs with
  | nil => intro s l c; simp only [optionalGo]; exact metaExt_refl s
  | cons p rest ih =>
      intro s l c
      rw [optionalGo_cons]
      exact metaExt_trans (matchPattern_metaExt p s l c) (ih _ _ _)

theorem requiredGo_metaExt :
    ∀ (cs : List Pattern) (s : Store) (l c l0 c0 : List Nat),
      metaExt s (requiredGo cs s l c l0 c0).1 := by
  intro cs
  induction cs with
  | nil => intro s l c l0 c0; simp only [requiredGo]; exact metaExt_refl s
  | cons p rest ih =>
      intro s l c l0 c0
      rw [requiredGo_cons]
      by_cases hr : (matchPattern p s l c).2.1
      · rw [if_pos hr]
        exact metaExt_trans (matchPattern_metaExt p s l c) (ih _ _ _ _ _)
      · rw [if_neg hr]
        exact matchPattern_metaExt p s l c

theorem eitherOutcomes_metaExt :
    ∀ (cs : List Pattern) (s : Store) (l c : List Nat),
      metaExt s (eitherOutcomes cs s l c).1 := by
  intro cs
  induction cs with
  | nil => intro s l c; simp only [eitherOutcomes]; exact metaExt_refl s
  | cons p rest ih =>
      intro s l c
      rw [eitherOutcomes_cons]
      exact metaExt_trans (matchPattern_metaExt p s l c) (ih _ _ _)

theorem oomLoop_metaExt :
    ∀ (fuel : Nat) (ch : Pattern) (s : Store) (l c lprev : List Nat) (fl : Bool)
      (t : Nat) (s' : Store) (l' c' : List Nat) (t' : Nat),
      oomLoop ch fuel s l c lprev fl t = some (s', l', c', t') → metaExt s s'
  | 0 => by
      intro ch s l c lprev fl t s' l' c' t' h
      simp [oomLoop] at h
  | fuel + 1 => by
      intro ch s l c lprev fl t s' l' c' t' h
      rw [oomLoop_succ] at h
      by_cases h1 : (matchPattern ch s l c).2.1 = false
      · rw [if_pos h1] at h
        simp only [Option.some.injEq, Prod.mk.injEq] at h
        obtain ⟨he, -, -, -⟩ := h
        rw [← he]
        exact matchPattern_metaExt ch s l c
      · rw [if_neg h1] at h
        by_cases h2 :
          (decide (fl = false) && decide ((matchPattern ch s l c).2.2.1 = lprev)) = true
        · rw [if_pos (by exact h2)] at h
          simp only [Option.some.injEq, Prod.mk.injEq] at h
          obtain ⟨he, -, -, -⟩ := h
          rw [← he]
          exact matchPattern_metaExt ch s l c
        · rw [if_neg (by exact h2)] at h
          exact metaExt_trans (matchPattern_metaExt ch s l c)
            (oomLoop_metaExt fuel ch _ _ _ _ _ _ s' l' c' t' h)

/-- Every reference in `collected` after a match is either one of the
caller's, or points to a valid object carrying the name of some leaf of the
pattern (joint induction over the matcher). -/
theorem matchPattern_collected :
    ∀ (p : Pattern) (s : Store) (l c : List Nat),
      (∀ j ∈ l, j < s.length) → (∀ j ∈ c, j < s.length) →
      (∀ j ∈ (matchPattern p s l c).2.2.2, j < (matchPattern p s l c).1.length) ∧
      (∀ j ∈ (matchPattern p s l c).2.2.2,
        j ∈ c ∨ ∃ d ∈ leavesOf p, (getObj (matchPattern p s l c).1 j).name = d.name) := by
  refine matchPattern.induct
    (fun p s l c => (∀ j ∈ l, j < s.length) → (∀ j ∈ c, j < s.length) →
      (∀ j ∈ (matchPattern p s l c).2.2.2, j < (matchPattern p s l c).1.length) ∧
      (∀ j ∈ (matchPattern p s l c).2.2.2,
        j ∈ c ∨ ∃ d ∈ leavesOf p, (getObj (matchPattern p s l c).1 j).name = d.name))
    (fun cs s l c => (∀ j ∈ l, j < s.length) → (∀ j ∈ c, j < s.length) →
      ∀ o ∈ (eitherOutcomes cs s l c).2,
        (∀ j ∈ o.2, j < (eitherOutcomes cs s l c).1.length) ∧
        (∀ j ∈ o.2, j ∈ c ∨ ∃ d ∈ leavesList cs,
          (getObj (eitherOutcomes cs s l c).1 j).name = d.name))
    (fun ch fuel s l c lprev fl t => (∀ j ∈ l, j < s.length) → (∀ j ∈ c, j < s.length) →
      ∀ s' l' c' t', oomLoop ch fuel s l c lprev fl t = some (s', l', c', t') →
        (∀ j ∈ c', j < s'.length) ∧
        (∀ j ∈ c', j ∈ c ∨ ∃ d ∈ leavesOf ch, (getObj s' j).name = d.name))
    (fun cs s l c => (∀ j ∈ l, j < s.length) → (∀ j ∈ c, j < s.length) →
      (∀ j ∈ (optionalGo cs s l c).2.2.2, j < (optionalGo cs s l c).1.length) ∧
      (∀ j ∈ (optionalGo cs s l c).2.2.2, j ∈ c ∨ ∃ d ∈ leavesList cs,
        (getObj (optionalGo cs s l c).1 j).name = d.name))
    (fun cs s l c l0 c0 => (∀ j ∈ l, j < s.length) → (∀ j ∈ c, j < s.length) →
      (∀ j ∈ c0, j < s.length) →
      (∀ j ∈ (requiredGo cs s l c l0 c0).2.2.2,
        j < (requiredGo cs s l c l0 c0).1.length) ∧
      (∀ j ∈ (requiredGo cs s l c l0 c0).2.2.2, j ∈ c ∨ j ∈ c0 ∨
        ∃ d ∈ leavesList cs, (getObj (requiredGo cs s l c l0 c0).1 j).name = d.name))
    ?_ ?_ ?_ ?_ ?_ ?_ ?_ ?_ ?_ ?_ ?_ ?_ ?_ ?_ ?_ ?_ ?_ ?_ ?_ ?_ ?_
  · intro s l c d hl hc
    rw [matchPattern_leaf]
    obtain ⟨-, hv, hn⟩ := leaf_match_meta d s l c hl hc
    refine ⟨hv, fun j hj => ?_⟩
    rcases hn j hj with h | h
    · exact Or.inl h
    · exact Or.inr ⟨d, by rw [leavesOf_leaf]; simp, h⟩
  · intro s l c cs ih hl hc
    rw [matchPattern_required]
    obtain ⟨hv, hn⟩ := ih hl hc hc
    refine ⟨hv, fun j hj => ?_⟩
    rcases hn j hj with h | h | ⟨d, hd, hname⟩
    · exact Or.inl h
    · exact Or.inl h
    · exact Or.inr ⟨d, by rw [leavesOf_branch]; exact hd, hname⟩
  · intro s l c cs ih hl hc
    rw [matchPattern_optional]
    obtain ⟨hv, hn⟩ := ih hl hc
    refine ⟨hv, fun j hj => ?_⟩
    rcases hn j hj with h | ⟨d, hd, hname⟩
    · exact Or.inl h
    · exact Or.inr ⟨d, by rw [leavesOf_branch]; exact hd, hname⟩
  · intro s l c cs ih hl hc
    rw [matchPattern_optionsShortcut]
    obtain ⟨hv, hn⟩ := ih hl hc
    refine ⟨hv, fun j hj => ?_⟩
    rcases hn j hj with h | ⟨d, hd, hname⟩
    · exact Or.inl h
    · exact Or.inr ⟨d, by rw [leavesOf_branch]; exact hd, hname⟩
  · intro s l c hl hc
    rw [matchPattern_oneOrMore_nil]
    exact ⟨fun j hj => hc j hj, fun j hj => Or.inl hj⟩
  · intro s l c ch tail hnone ih hl hc
    rw [matchPattern_oneOrMore_cons, hnone]
    exact ⟨fun j hj => hc j hj, fun j hj => Or.inl hj⟩
  · intro s l c ch tail s' l' c' hsome ih hl hc
    rw [matchPattern_oneOrMore_cons, hsome]
    have hme := oomLoop_metaExt (l.length + 2) ch s l c [] true 0 s' l' c' 0 hsome
    exact ⟨fun j hj => lt_of_lt_of_le (hc j hj) hme.1, fun j hj => Or.inl hj⟩
  · intro s l c ch tail s' l' c' times hsome ht ih hl hc
    rw [matchPattern_oneOrMore_cons, hsome]
    simp only [ht, if_false]
    obtain ⟨hv, hn⟩ := ih hl hc s' l' c' times hsome
    refine ⟨hv, fun j hj => ?_⟩
    rcases hn j hj with h | ⟨d, hd, hname⟩
    · exact Or.inl h
    · refine Or.inr ⟨d, ?_, hname⟩
      rw [leavesOf_branch, leavesList_cons]
      exact List.mem_append_left _ hd
  · intro s l c cs ro rsel hUM ih hl hc
    rw [matchPattern_either, if_pos hUM]
    have hme := eitherOutcomes_metaExt cs s l c
    exact ⟨fun j hj => lt_of_lt_of_le (hc j hj) hme.1, fun j hj => Or.inl hj⟩
  · intro s l c cs ro rsel hUM ih hl hc
    have hUM' : ¬ (eitherFold (eitherOutcomes cs s l c).2 ULONG_MAX ([], [])).1 = ULONG_MAX :=
      hUM
    rw [matchPattern_either, if_neg hUM']
    rcases eitherFold_cases (eitherOutcomes cs s l c).2 ULONG_MAX ([], []) with h | ⟨h1, -, -⟩
    · exfalso
      apply hUM'
      rw [h]
    · obtain ⟨hv, hn⟩ := ih hl hc _ h1
      refine ⟨hv, fun j hj => ?_⟩
      rcases hn j hj with h | ⟨d, hd, hname⟩
      · exact Or.inl h
      · exact Or.inr ⟨d, by rw [leavesOf_branch]; exact hd, hname⟩
  · intro s l c hl hc o ho
    simp [eitherOutcomes] at ho
  · intro s l c ch tail r ih1 ih2 hl hc o ho
    have hmeCh := matchPattern_metaExt ch s l c
    have hl' : ∀ j ∈ l, j < (matchPattern ch s l c).1.length :=
      fun j hj => lt_of_lt_of_le (hl j hj) hmeCh.1
    have hc' : ∀ j ∈ c, j < (matchPattern ch s l c).1.length :=
      fun j hj => lt_of_lt_of_le (hc j hj) hmeCh.1
    have hmeRest := eitherOutcomes_metaExt tail (matchPattern ch s l c).1 l c
    rw [eitherOutcomes_cons] at ho ⊢
    by_cases hr : (matchPattern ch s l c).2.1
    · rw [if_pos hr] at ho
      rcases List.mem_cons.mp ho with he | hm
      · subst he
        obtain ⟨hv, hn⟩ := ih1 hl hc
        refine ⟨fun j hj => lt_of_lt_of_le (hv j hj) hmeRest.1, fun j hj => ?_⟩
        rcases hn j hj with h | ⟨d, hd, hname⟩
        · exact Or.inl h
        · refine Or.inr ⟨d, by rw [leavesList_cons]; exact List.mem_append_left _ hd, ?_⟩
          exact name_transfer hmeRest j (hv j hj) d.name hname
      · obtain ⟨hv, hn⟩ := ih2 hl' hc' o hm
        refine ⟨hv, fun j hj => ?_⟩
        rcases hn j hj with h | ⟨d, hd, hname⟩
        · exact Or.inl h
        · exact Or.inr ⟨d, by rw [leavesList_cons]; exact List.mem_append_right _ hd,
            hname⟩
    · rw [if_neg hr] at ho
      obtain ⟨hv, hn⟩ := ih2 hl' hc' o ho
      refine ⟨hv, fun j hj => ?_⟩
      rcases hn j hj with h | ⟨d, hd, hname⟩
      · exact Or.inl h
      · exact Or.inr ⟨d, by rw [leavesList_cons]; exact List.mem_append_right _ hd, hname⟩
  · intro ch s l c lprev fl t hl hc s' l' c' t' h
    simp [oomLoop] at h
  · intro ch s l c lprev fl t fuel' r hfalse ih hl hc s' l' c' t' h
    simp only [Nat.succ_eq_add_one] at h
    rw [oomLoop_succ, if_pos hfalse] at h
    simp only [Option.some.injEq, Prod.mk.injEq] at h
    obtain ⟨h1, -, h3, -⟩ := h
    subst h1
    subst h3
    exact ih hl hc
  · intro ch s l c lprev fl t fuel' r hfalse hbrk ih hl hc s' l' c' t' h
    simp only [Nat.succ_eq_add_one] at h
    rw [oomLoop_succ, if_neg hfalse, if_pos hbrk] at h
    simp only [Option.some.injEq, Prod.mk.injEq] at h
    obtain ⟨h1, -, h3, -⟩ := h
    subst h1
    subst h3
    exact ih hl hc
  · intro ch s l c lprev fl t fuel' r t2 hfalse hbrk ih1 ih2 hl hc s' l' c' t' h
    simp only [Nat.succ_eq_add_one] at h
    rw [oomLoop_succ, if_neg hfalse, if_neg hbrk] at h
    have hmeCh := matchPattern_metaExt ch s l c
    have hl' : ∀ j ∈ (matchPattern ch s l c).2.2.1, j < (matchPattern ch s l c).1.length :=
      fun j hj => lt_of_lt_of_le
        (hl j ((matchPattern_left_sublist ch s l c).subset hj)) hmeCh.1
    obtain ⟨hv1, hn1⟩ := ih1 hl hc
    obtain ⟨hv2, hn2⟩ := ih2 hl' hv1 s' l' c' t' h
    have hmeLoop := oomLoop_metaExt fuel' ch (matchPattern ch s l c).1
      (matchPattern ch s l c).2.2.1 (matchPattern ch s l c).2.2.2
      (matchPattern ch s l c).2.2.1 false t2 s' l' c' t' h
    refine ⟨hv2, fun j hj => ?_⟩
    rcases hn2 j hj with hjc | hex
    · rcases hn1 j hjc with h0 | ⟨d, hd, hname⟩
      · exact Or.inl h0
      · exact Or.inr ⟨d, hd, name_transfer hmeLoop j (hv1 j hjc) d.name hname⟩
    · exact Or.inr hex
  · intro s l c hl hc
    simp only [optionalGo]
    exact ⟨fun j hj => hc j hj, fun j hj => Or.inl hj⟩
  · intro s l c ch tail r ih1 ih2 hl hc
    rw [optionalGo_cons]
    have hmeCh := matchPattern_metaExt ch s l c
    have hl' : ∀ j ∈ (matchPattern ch s l c).2.2.1, j < (matchPattern ch s l c).1.length :=
      fun j hj => lt_of_lt_of_le
        (hl j ((matchPattern_left_sublist ch s l c).subset hj)) hmeCh.1
    obtain ⟨hv1, hn1⟩ := ih1 hl hc
    obtain ⟨hv2, hn2⟩ := ih2 hl' hv1
    have hmeRest := optionalGo_metaExt tail (matchPattern ch s l c).1
      (matchPattern ch s l c).2.2.1 (matchPattern ch s l c).2.2.2
    refine ⟨hv2, fun j hj => ?_⟩
    rcases hn2 j hj with hjc | ⟨d, hd, hname⟩
    · rcases hn1 j hjc with h0 | ⟨d, hd, hname⟩
      · exact Or.inl h0
      · exact Or.inr ⟨d, by rw [leavesList_cons]; exact List.mem_append_left _ hd,
          name_transfer hmeRest j (hv1 j hjc) d.name hname⟩
    · exact Or.inr ⟨d, by rw [leavesList_cons]; exact List.mem_append_right _ hd, hname⟩
  · intro s l c l0 c0 hl hc hc0
    simp only [requiredGo]
    exact ⟨fun j hj => hc j hj, fun j hj => Or.inl hj⟩
  · intro s l c l0 c0 ch tail r hr ih1 ih2 hl hc hc0
    rw [requiredGo_cons, if_pos hr]
    have hmeCh := matchPattern_metaExt ch s l c
    have hl' : ∀ j ∈ (matchPattern ch s l c).2.2.1, j < (matchPattern ch s l c).1.length :=
      fun j hj => lt_of_lt_of_le
        (hl j ((matchPattern_left_sublist ch s l c).subset hj)) hmeCh.1
    have hc0' : ∀ j ∈ c0, j < (matchPattern ch s l c).1.length :=
      fun j hj => lt_of_lt_of_le (hc0 j hj) hmeCh.1
    obtain ⟨hv1, hn1⟩ := ih1 hl hc
    obtain ⟨hv2, hn2⟩ := ih2 hl' hv1 hc0'
    have hmeRest := requiredGo_metaExt tail (matchPattern ch s l c).1
      (matchPattern ch s l c).2.2.1 (matchPattern ch s l c).2.2.2 l0 c0
    refine ⟨hv2, fun j hj => ?_⟩
    rcases hn2 j hj with hjc | hjc0 | ⟨d, hd, hname⟩
    · rcases hn1 j hjc with h0 | ⟨d, hd, hname⟩
      · exact Or.inl h0
      · exact Or.inr (Or.inr ⟨d, by rw [leavesList_cons]; exact List.mem_append_left _ hd,
          name_transfer hmeRest j (hv1 j hjc) d.name hname⟩)
    · exact Or.inr (Or.inl hjc0)
    · exact Or.inr (Or.inr ⟨d, by rw [leavesList_cons]; exact List.mem_append_right _ hd,
        hname⟩)
  · intro s l c l0 c0 ch tail r hr ih1 hl hc hc0
    rw [requiredGo_cons, if_neg hr]
    have hmeCh := matchPattern_metaExt ch s l c
    exact ⟨fun j hj => lt_of_lt_of_le (hc0 j hj) hmeCh.1,
      fun j hj => Or.inr (Or.inl hj)⟩

/-- C7: an argv long-option token that resolves to no known option does not
fail argv parsing — `parse_long` registers it as a new option even in argv
mode, exactly as in grammar mode (second conjunct) — and when no leaf of
the compiled tree can consume the resulting object, matching can never take
it out of `left`, so `docopt_parse` reports a DocoptArgumentError; the
message is "Unexpected argument: " followed by the whole argv join when the
rest of the pattern matched, and otherwise the fixed text "Arguments did
not match expected patterns", which does not name the token. -/
theorem unknown_long_option_rejected
    (doc : String) (argv : List String) (help version ofirst : Bool)
    (pat : Pattern) (opts opts2 : List OptionSpec) (objs : List LeafObj) (j : Nat)
    (hc : create_pattern_tree doc = .ok (pat, opts))
    (ha : parse_argv ⟨argv, true⟩ opts ofirst = .ok (objs, opts2))
    (he : extras help version objs (List.range objs.length) = none)
    (hj : j < objs.length)
    (hno : ∀ d ∈ leavesOf (fix pat), leafCanConsume d (getObj objs j) = false) :
    (∃ msg, docopt_parse doc argv help version ofirst = .error (.argumentError msg) ∧
      (msg = "Unexpected argument: " ++ joinSep argv ", " ∨
       msg = "Arguments did not match expected patterns")) ∧
    (∀ (tok : String) (rest : List String) (opts0 : List OptionSpec),
      strPartitionEq tok = (tok, "", "") →
      (∀ o ∈ opts0, o.longOpt ≠ tok) →
      (∀ o ∈ opts0, o.longOpt ≠ "" → startsWithStr o.longOpt tok = false) →
      parse_long ⟨tok :: rest, true⟩ opts0 =
        .ok ([⟨.option "" tok 0, tok, .bool true⟩],
          opts0 ++ [⟨"", tok, 0, .bool false⟩], ⟨rest, true⟩)) := by
  constructor
  · have hjmem : j ∈ List.range objs.length := List.mem_range.mpr hj
    have hret := matchPattern_retention (fix pat) objs (List.range objs.length) [] j
      hjmem hj hno
    have hne : (matchPattern (fix pat) objs (List.range objs.length) []).2.2.1 ≠ [] :=
      List.ne_nil_of_mem hret
    simp only [docopt_parse, hc, ha, he]
    have hcond : ¬ ((matchPattern (fix pat) objs (List.range objs.length) []).2.1 = true ∧
        (matchPattern (fix pat) objs (List.range objs.length) []).2.2.1 = []) :=
      fun hh => hne hh.2
    rw [if_neg hcond]
    by_cases h2 : (matchPattern (fix pat) objs (List.range objs.length) []).2.1 = true
    · rw [if_pos h2]
      exact ⟨_, rfl, Or.inl rfl⟩
    · rw [if_neg h2]
      exact ⟨_, rfl, Or.inr rfl⟩
  · intro tok rest opts0 hpart hex hpre
    have hexf : List.filter (fun o => decide (o.longOpt = tok)) opts0 = [] := by
      rw [List.filter_eq_nil_iff]
      intro a ha
      simpa using hex a ha
    have hpref : List.filter
        (fun o => !decide (o.longOpt = "") && startsWithStr o.longOpt tok) opts0 = [] := by
      rw [List.filter_eq_nil_iff]
      intro a ha
      by_cases h0 : a.longOpt = ""
      · simp [h0]
      · simp [h0, hpre a ha h0]
    by_cases htok : tok = ""
    · subst htok
      simp [parse_long, Tokens.pop, hpart, OptionSpec.make, OptionSpec.name, hexf, hpref,
        hex, hpre]
    · simp [parse_long, Tokens.pop, hpart, OptionSpec.make, OptionSpec.name, hexf, hpref,
        hex, hpre, htok]

/-- A concrete instance of the unknown-long-option rejection: for the
document "Usage:\n  prog <a>" and argv ["--xyz"], the single argv object is
the registered unknown option, no leaf of the compiled tree can consume it,
and docopt_parse reports a DocoptArgumentError with one of the two
messages. -/
theorem unknown_long_option_rejected_witness :
    (∀ d ∈ leavesOf (fix (Pattern.branch .required [Pattern.branch .required
        [Pattern.leaf ⟨.argument, "<a>", .empty⟩]])),
      leafCanConsume d (getObj [⟨.option "" "--xyz" 0, "--xyz", .bool true⟩] 0) = false) ∧
    (∃ msg, docopt_parse "Usage:\n  prog <a>" ["--xyz"] false false false =
      .error (.argumentError msg) ∧
      (msg = "Unexpected argument: " ++ joinSep ["--xyz"] ", " ∨
       msg = "Arguments did not match expected patterns")) := by
  have hsec : parse_section "usage:" "Usage:\n  prog <a>" = ["Usage:\n  prog <a>"] := by
    simp +decide [parse_section, sectionScan, splitLinesChars, lineHasLabel, lowerChars,
      listInfixOf, isIndented, joinLinesChars, trim, trimChars, isTrimSpace, isAnySpace,
      List.dropWhile, List.intercalate, List.intersperse, List.flatten, List.reverse,
      List.reverseAux] <;> decide
  have hfor : formal_usage "Usage:\n  prog <a>" = "( <a> )" := by
    simp +decide [formal_usage, strPartitionEq, findSub2Idx, findCharIdx, split,
      splitWSChars, takeRun, isAnySpace, joinSep, trim, trimChars, isTrimSpace,
      List.find?, List.enum, List.enumFrom, List.dropWhile, List.reverse,
      List.reverseAux, List.foldl] <;> decide
  have hdef : parse_defaults "Usage:\n  prog <a>" = [] := by
    simp +decide [parse_defaults, parse_section, sectionScan, splitLinesChars,
      lineHasLabel, lowerChars, listInfixOf, isIndented, joinLinesChars, trim, trimChars,
      isTrimSpace, List.dropWhile, List.intercalate, List.intersperse, List.flatten,
      List.reverse, List.reverseAux] <;> decide
  have hfp : Tokens.from_pattern "( <a> )" = ⟨["(", "<a>", ")"], false⟩ := by
    simp +decide [Tokens.from_pattern, tokenizeGrammarChars_eq, scanStrings_cons,
      scanStrings_nil, findSep,
      isRegexSpace, isSepChar, alt1Match, alt1Try, firstGtIdx, ltPosDesc, takeTok,
      List.dropWhile, List.find?, List.filterMap, List.flatten, List.reverse,
      List.reverseAux, List.foldl, List.append] <;> decide
  have hpe : parse_expr 19 ⟨["(", "<a>", ")"], false⟩ [] =
      .ok ([Pattern.branch .required [Pattern.leaf ⟨.argument, "<a>", .empty⟩]], [],
        ⟨[], false⟩) := by rfl
  have hpp : parse_pattern "( <a> )" [] =
      .ok (Pattern.branch .required [Pattern.branch .required
        [Pattern.leaf ⟨.argument, "<a>", .empty⟩]], []) := by
    simp [parse_pattern, hfp, hpe, Tokens.hasMore, bind, Except.bind]
  have hc : create_pattern_tree "Usage:\n  prog <a>" =
      .ok (Pattern.branch .required [Pattern.branch .required
        [Pattern.leaf ⟨.argument, "<a>", .empty⟩]], []) := by
    simp [create_pattern_tree, hsec, createFromUsage, hdef, hfor, hpp,
      patternOptionLeaves, leavesOf, leavesList, leafOptIdent, optIdent, fillShortcuts,
      fillShortcutsList, OptionSpec.toLeaf, OptionSpec.name, setInsert, bind, Except.bind]
  have ha : parse_argv ⟨["--xyz"], true⟩ [] false =
      .ok ([⟨.option "" "--xyz" 0, "--xyz", .bool true⟩], [⟨"", "--xyz", 0, .bool false⟩]) :=
    by rfl
  have he : extras false false [⟨.option "" "--xyz" 0, "--xyz", .bool true⟩]
      (List.range 1) = none := by rfl
  have hfix : fix (Pattern.branch .required [Pattern.branch .required
        [Pattern.leaf ⟨.argument, "<a>", .empty⟩]]) =
      Pattern.branch .required [Pattern.branch .required
        [Pattern.leaf ⟨.argument, "<a>", .empty⟩]] := by
    simp [fix, fix_repeating_arguments, flaggedLeaves, transform, transformGo,
      splitAtBranch, expandOne, groupFlagged, replaceLeavesList, replaceLeaves,
      retypeLeaf, ensureListVal, List.count_cons]
  have hleaves : leavesOf (fix (Pattern.branch .required [Pattern.branch .required
        [Pattern.leaf ⟨.argument, "<a>", .empty⟩]])) =
      [⟨.argument, "<a>", .empty⟩] := by
    rw [hfix]
    simp [leavesOf, leavesList]
  have hno : ∀ d ∈ leavesOf (fix (Pattern.branch .required [Pattern.branch .required
        [Pattern.leaf ⟨.argument, "<a>", .empty⟩]])),
      leafCanConsume d (getObj [⟨.option "" "--xyz" 0, "--xyz", .bool true⟩] 0) = false := by
    rw [hleaves]
    intro d hd
    simp only [List.mem_singleton] at hd
    subst hd
    decide
  exact ⟨hno, (unknown_long_option_rejected "Usage:\n  prog <a>" ["--xyz"] false false
    false _ _ _ _ 0 hc ha he (by decide) hno).1⟩

/-- C7 counterexample: for "Usage:\n  prog <a>" and argv ["--xyz"] the error
is the generic "Arguments did not match expected patterns", whose text does
not contain the offending token, and the unresolvable long option was
registered as a new option during argv parsing (the options table grows). -/
theorem unknown_long_option_generic_message :
    docopt_parse "Usage:\n  prog <a>" ["--xyz"] false false false =
      .error (.argumentError "Arguments did not match expected patterns") ∧
    listInfixOf "--xyz".data "Arguments did not match expected patterns".data = false ∧
    parse_argv ⟨["--xyz"], true⟩ [] false =
      .ok ([⟨.option "" "--xyz" 0, "--xyz", .bool true⟩],
        [⟨"", "--xyz", 0, .bool false⟩]) := by
  refine ⟨?_, by decide, by rfl⟩
  have hsec : parse_section "usage:" "Usage:\n  prog <a>" = ["Usage:\n  prog <a>"] := by
    simp +decide [parse_section, sectionScan, splitLinesChars, lineHasLabel, lowerChars,
      listInfixOf, isIndented, joinLinesChars, trim, trimChars, isTrimSpace, isAnySpace,
      List.dropWhile, List.intercalate, List.intersperse, List.flatten, List.reverse,
      List.reverseAux] <;> decide
  have hfor : formal_usage "Usage:\n  prog <a>" = "( <a> )" := by
    simp +decide [formal_usage, strPartitionEq, findSub2Idx, findCharIdx, split,
      splitWSChars, takeRun, isAnySpace, joinSep, trim, trimChars, isTrimSpace,
      List.find?, List.enum, List.enumFrom, List.dropWhile, List.reverse,
      List.reverseAux, List.foldl] <;> decide
  have hdef : parse_defaults "Usage:\n  prog <a>" = [] := by
    simp +decide [parse_defaults, parse_section, sectionScan, splitLinesChars,
      lineHasLabel, lowerChars, listInfixOf, isIndented, joinLinesChars, trim, trimChars,
      isTrimSpace, List.dropWhile, List.intercalate, List.intersperse, List.flatten,
      List.reverse, List.reverseAux] <;> decide
  have hfp : Tokens.from_pattern "( <a> )" = ⟨["(", "<a>", ")"], false⟩ := by
    simp +decide [Tokens.from_pattern, tokenizeGrammarChars_eq, scanStrings_cons,
      scanStrings_nil, findSep,
      isRegexSpace, isSepChar, alt1Match, alt1Try, firstGtIdx, ltPosDesc, takeTok,
      List.dropWhile, List.find?, List.filterMap, List.flatten, List.reverse,
      List.reverseAux, List.foldl, List.append] <;> decide
  have hpe : parse_expr 19 ⟨["(", "<a>", ")"], false⟩ [] =
      .ok ([Pattern.branch .required [Pattern.leaf ⟨.argument, "<a>", .empty⟩]], [],
        ⟨[], false⟩) := by rfl
  have hpp : parse_pattern "( <a> )" [] =
      .ok (Pattern.branch .required [Pattern.branch .required
        [Pattern.leaf ⟨.argument, "<a>", .empty⟩]], []) := by
    simp [parse_pattern, hfp, hpe, Tokens.hasMore, bind, Except.bind]
  have hc : create_pattern_tree "Usage:\n  prog <a>" =
      .ok (Pattern.branch .required [Pattern.branch .required
        [Pattern.leaf ⟨.argument, "<a>", .empty⟩]], []) := by
    simp [create_pattern_tree, hsec, createFromUsage, hdef, hfor, hpp,
      patternOptionLeaves, leavesOf, leavesList, leafOptIdent, optIdent, fillShortcuts,
      fillShortcutsList, OptionSpec.toLeaf, OptionSpec.name, setInsert, bind, Except.bind]
  have ha : parse_argv ⟨["--xyz"], true⟩ [] false =
      .ok ([⟨.option "" "--xyz" 0, "--xyz", .bool true⟩], [⟨"", "--xyz", 0, .bool false⟩]) :=
    by rfl
  have hrange : List.range 1 = [0] := by rfl
  have he : extras false false [⟨.option "" "--xyz" 0, "--xyz", .bool true⟩] [0] = none :=
    by rfl
  have hfix : fix (Pattern.branch .required [Pattern.branch .required
        [Pattern.leaf ⟨.argument, "<a>", .empty⟩]]) =
      Pattern.branch .required [Pattern.branch .required
        [Pattern.leaf ⟨.argument, "<a>", .empty⟩]] := by
    simp [fix, fix_repeating_arguments, flaggedLeaves, transform, transformGo,
      splitAtBranch, expandOne, groupFlagged, replaceLeavesList, replaceLeaves,
      retypeLeaf, ensureListVal, List.count_cons]
  have hmatch : matchPattern (Pattern.branch .required [Pattern.branch .required
        [Pattern.leaf ⟨.argument, "<a>", .empty⟩]])
      [⟨.option "" "--xyz" 0, "--xyz", .bool true⟩] [0] [] =
      ([⟨.option "" "--xyz" 0, "--xyz", .bool true⟩], false, [0], []) := by
    simp [matchPattern, requiredGo, optionalGo, oomLoop, eitherOutcomes, leaf_match,
      single_match, findName, findArgLike, findCollectedRef, storeSet, getObj, listValOf,
      Value.isLong, Value.isStringList, isArgLike, List.getD, List.eraseIdx]
  simp [docopt_parse, hc, ha, hrange, he, hfix, hmatch]

/-! ## Result-map semantics (`std::map` assignment and lookup) -/

/-- Following the spec's words for the result-map construction: the value
bound to a key is the value of the last (name, value) pair carrying that
key, pairs being enumerated leaves first, collected bindings second. -/
def lastValOf : List (String × Value) → String → Option Value
  | [], _ => none
  | pr :: rest, k =>
      match lastValOf rest k with
      | some v => some v
      | none => if pr.1 = k then some pr.2 else none

theorem lastValOf_eq_none_iff :
    ∀ (prs : List (String × Value)) (k : String),
      lastValOf prs k = none ↔ k ∉ prs.map (fun pr => pr.1)
  | [], k => by simp [lastValOf]
  | pr :: rest, k => by
      simp only [lastValOf, List.map_cons, List.mem_cons]
      cases hr : lastValOf rest k with
      | some v =>
          simp only []
          constructor
          · intro h; cases h
          · intro h
            exfalso
            have := (lastValOf_eq_none_iff rest k).mpr (fun hm => h (Or.inr hm))
            rw [hr] at this
            cases this
      | none =>
          have hrn := (lastValOf_eq_none_iff rest k).mp hr
          by_cases hp : pr.1 = k
          · simp [hp]
          · have hp' : ¬ k = pr.1 := fun h => hp h.symm
            simp [hp, hp', hrn]

theorem lookupMap_mapSet :
    ∀ (m : List (String × Value)) (k : String) (v : Value) (k' : String),
      lookupMap (mapSet m k v) k' = if k' = k then some v else lookupMap m k'
  | [], k, v, k' => by simp [mapSet, lookupMap]
  | (k1, v1) :: rest, k, v, k' => by
      simp only [mapSet]
      by_cases h1 : k = k1
      · subst h1
        by_cases h2 : k' = k
        · simp [lookupMap, h2]
        · simp [lookupMap, h2]
      · rw [if_neg h1]
        by_cases hlt : strLt k k1
        · rw [if_pos hlt]
          by_cases h2 : k' = k
          · simp [lookupMap, h2]
          · simp [lookupMap, h2]
        · rw [if_neg hlt]
          by_cases h2 : k' = k1
          · subst h2
            have : ¬ k' = k := fun he => h1 he.symm
            simp [lookupMap, this]
          · simp only [lookupMap, h2, if_false]
            exact lookupMap_mapSet rest k v k'

theorem lookupMap_foldl :
    ∀ (prs : List (String × Value)) (m0 : List (String × Value)) (k : String),
      lookupMap (prs.foldl (fun m pr => mapSet m pr.1 pr.2) m0) k =
        (match lastValOf prs k with
          | some v => some v
          | none => lookupMap m0 k)
  | [], m0, k => by simp [lastValOf]
  | pr :: rest, m0, k => by
      simp only [List.foldl_cons, lastValOf]
      rw [lookupMap_foldl rest (mapSet m0 pr.1 pr.2) k]
      cases hr : lastValOf rest k with
      | some v => simp
      | none =>
          simp only []
          rw [lookupMap_mapSet]
          by_cases hp : pr.1 = k
          · simp [hp]
          · have hp' : ¬ k = pr.1 := fun h => hp h.symm
            simp [hp, hp']

theorem buildRet_eq_foldl (s : Store) (leaves : List LeafObj) (collected : List Nat) :
    buildRet s leaves collected =
      ((leaves.map (fun d => (d.name, d.val)) ++
        collected.map (fun r => ((getObj s r).name, (getObj s r).val))).foldl
          (fun m pr => mapSet m pr.1 pr.2) []) := by
  simp [buildRet, List.foldl_append, List.foldl_map]

/-- The value the result map associates to a key is the last write: the
last same-named collected binding if any, otherwise the last same-named
grammar leaf's (default) value, otherwise nothing. -/
theorem buildRet_lookup (s : Store) (leaves : List LeafObj) (collected : List Nat)
    (k : String) :
    lookupMap (buildRet s leaves collected) k =
      lastValOf (leaves.map (fun d => (d.name, d.val)) ++
        collected.map (fun r => ((getObj s r).name, (getObj s r).val))) k := by
  rw [buildRet_eq_foldl, lookupMap_foldl]
  cases lastValOf (leaves.map (fun d => (d.name, d.val)) ++
      collected.map (fun r => ((getObj s r).name, (getObj s r).val))) k with
  | some v => rfl
  | none => rfl

theorem uintLt_trans {a b c : UInt32} (h1 : a < b) (h2 : b < c) : a < c := by
  simp only [UInt32.lt_def, BitVec.lt_def] at *
  omega

theorem uintLt_irrefl (a : UInt32) : ¬ a < a := by
  simp [UInt32.lt_def, BitVec.lt_def]

theorem uint_eq_of_not_lt {a b : UInt32} (h1 : ¬ a < b) (h2 : ¬ b < a) : a = b := by
  have h1' : ¬ a.toNat < b.toNat := by
    simpa [UInt32.lt_def, BitVec.lt_def, UInt32.toNat] using h1
  have h2' : ¬ b.toNat < a.toNat := by
    simpa [UInt32.lt_def, BitVec.lt_def, UInt32.toNat] using h2
  exact UInt32.toNat.inj (by omega)

theorem charsLt_irrefl : ∀ a : List Char, charsLt a a = false
  | [] => rfl
  | c :: rest => by
      simp only [charsLt]
      rw [if_neg (uintLt_irrefl c.val), if_neg (uintLt_irrefl c.val)]
      exact charsLt_irrefl rest

theorem charsLt_trans :
    ∀ a b c : List Char, charsLt a b = true → charsLt b c = true → charsLt a c = true
  | [], [], _ => by intro h; simp [charsLt] at h
  | [], _ :: _, [] => by intro _ h; simp [charsLt] at h
  | [], _ :: _, _ :: _ => by intro _ _; simp [charsLt]
  | _ :: _, [], _ => by intro h; simp [charsLt] at h
  | _ :: _, _ :: _, [] => by intro _ h; simp [charsLt] at h
  | x :: xs, y :: ys, z :: zs => by
      intro h1 h2
      simp only [charsLt] at h1 h2 ⊢
      by_cases hxy : x.val < y.val
      · by_cases hyz : y.val < z.val
        · rw [if_pos (uintLt_trans hxy hyz)]
        · rw [if_neg hyz] at h2
          by_cases hzy : z.val < y.val
          · rw [if_pos hzy] at h2
            cases h2
          · rw [if_neg hzy] at h2
            have hyeqz : y.val = z.val := uint_eq_of_not_lt hyz hzy
            rw [if_pos (hyeqz ▸ hxy)]
      · rw [if_neg hxy] at h1
        by_cases hyx : y.val < x.val
        · rw [if_pos hyx] at h1
          cases h1
        · rw [if_neg hyx] at h1
          have hxeqy : x.val = y.val := uint_eq_of_not_lt hxy hyx
          by_cases hyz : y.val < z.val
          · rw [if_pos (hxeqy ▸ hyz)]
          · rw [if_neg hyz] at h2
            by_cases hzy : z.val < y.val
            · rw [if_pos hzy] at h2
              cases h2
            · rw [if_neg hzy] at h2
              rw [if_neg (hxeqy ▸ hyz), if_neg (hxeqy ▸ hzy)]
              exact charsLt_trans xs ys zs h1 h2

theorem charsLt_eq_of_not :
    ∀ a b : List Char, charsLt a b = false → charsLt b a = false → a = b
  | [], [] => by intro _ _; rfl
  | [], _ :: _ => by intro h _; simp [charsLt] at h
  | _ :: _, [] => by intro _ h; simp [charsLt] at h
  | x :: xs, y :: ys => by
      intro h1 h2
      simp only [charsLt] at h1 h2
      by_cases hxy : x.val < y.val
      · rw [if_pos hxy] at h1
        cases h1
      · by_cases hyx : y.val < x.val
        · rw [if_pos hyx] at h2
          cases h2
        · rw [if_neg hxy, if_neg hyx] at h1
          rw [if_neg hyx, if_neg hxy] at h2
          have hv : x.val = y.val := uint_eq_of_not_lt hxy hyx
          have hc : x = y := Char.ext hv
          rw [hc, charsLt_eq_of_not xs ys h1 h2]

theorem strLt_irrefl (a : String) : strLt a a = false := charsLt_irrefl a.data

theorem strLt_trans {a b c : String} (h1 : strLt a b = true) (h2 : strLt b c = true) :
    strLt a c = true := charsLt_trans a.data b.data c.data h1 h2

theorem strLt_eq_of_not {a b : String} (h1 : strLt a b = false) (h2 : strLt b a = false) :
    a = b := by
  have hdata := charsLt_eq_of_not a.data b.data h1 h2
  exact congrArg String.mk hdata

theorem mapSet_keys_subset :
    ∀ (m : List (String × Value)) (k : String) (v : Value) (x : String),
      x ∈ (mapSet m k v).map (fun pr => pr.1) →
        x ∈ m.map (fun pr => pr.1) ∨ x = k
  | [], k, v, x => by
      intro h
      simp only [mapSet, List.map_cons, List.map_nil, List.mem_singleton] at h
      exact Or.inr h
  | (k1, v1) :: rest, k, v, x => by
      intro h
      simp only [mapSet] at h
      by_cases h1 : k = k1
      · rw [if_pos h1] at h
        simp only [List.map_cons, List.mem_cons] at h ⊢
        rcases h with h | h
        · exact Or.inr h
        · exact Or.inl (Or.inr h)
      · rw [if_neg h1] at h
        by_cases hlt : strLt k k1
        · rw [if_pos hlt] at h
          simp only [List.map_cons, List.mem_cons] at h ⊢
          rcases h with h | h | h
          · exact Or.inr h
          · exact Or.inl (Or.inl h)
          · exact Or.inl (Or.inr h)
        · rw [if_neg hlt] at h
          simp only [List.map_cons, List.mem_cons] at h ⊢
          rcases h with h | h
          · exact Or.inl (Or.inl h)
          · rcases mapSet_keys_subset rest k v x h with h' | h'
            · exact Or.inl (Or.inr h')
            · exact Or.inr h'

theorem mapSet_sorted :
    ∀ (m : List (String × Value)) (k : String) (v : Value),
      (m.map (fun pr => pr.1)).Pairwise (fun a b => strLt a b = true) →
      ((mapSet m k v).map (fun pr => pr.1)).Pairwise (fun a b => strLt a b = true)
  | [], k, v => by
      intro h
      simp [mapSet]
  | (k1, v1) :: rest, k, v => by
      intro h
      simp only [List.map_cons, List.pairwise_cons] at h
      obtain ⟨hk1, hrest⟩ := h
      simp only [mapSet]
      by_cases h1 : k = k1
      · rw [if_pos h1]
        simp only [List.map_cons, List.pairwise_cons]
        exact ⟨by rw [h1]; exact hk1, hrest⟩
      · rw [if_neg h1]
        by_cases hlt : strLt k k1
        · rw [if_pos hlt]
          simp only [List.map_cons, List.pairwise_cons]
          refine ⟨?_, hk1, hrest⟩
          intro x hx
          simp only [List.mem_cons] at hx
          rcases hx with hx | hx
          · rw [hx]; exact hlt
          · exact strLt_trans hlt (hk1 x hx)
        · rw [if_neg hlt]
          simp only [List.map_cons, List.pairwise_cons]
          refine ⟨?_, mapSet_sorted rest k v hrest⟩
          intro x hx
          rcases mapSet_keys_subset rest k v x hx with hx' | hx'
          · exact hk1 x hx'
          · subst hx'
            by_cases hk1x : strLt k1 x
            · exact hk1x
            · exact absurd (strLt_eq_of_not (by simpa using hlt) (by simpa using hk1x)) h1

theorem foldl_mapSet_sorted :
    ∀ (prs : List (String × Value)) (m0 : List (String × Value)),
      (m0.map (fun pr => pr.1)).Pairwise (fun a b => strLt a b = true) →
      (((prs.foldl (fun m pr => mapSet m pr.1 pr.2) m0)).map
        (fun pr => pr.1)).Pairwise (fun a b => strLt a b = true)
  | [], m0 => fun h => h
  | pr :: rest, m0 => by
      intro h
      simp only [List.foldl_cons]
      exact foldl_mapSet_sorted rest (mapSet m0 pr.1 pr.2) (mapSet_sorted m0 pr.1 pr.2 h)

/-- The result map's keys are strictly sorted, hence each key appears in
exactly one entry. -/
theorem buildRet_keys_nodup (s : Store) (leaves : List LeafObj)
    (collected : List Nat) :
    ((buildRet s leaves collected).map (fun pr => pr.1)).Nodup := by
  rw [buildRet_eq_foldl]
  have hs := foldl_mapSet_sorted
    (leaves.map (fun d => (d.name, d.val)) ++
      collected.map (fun r => ((getObj s r).name, (getObj s r).val))) [] (by simp)
  refine hs.imp ?_
  intro a b hab heq
  subst heq
  rw [strLt_irrefl] at hab
  cases hab

/-- C10: on a successful parse the returned map is exactly the buildRet
construction — an entry for every leaf of the normalized tree, keyed by the
leaf's name, then the collected bindings written over by name.  Its keys
are free of duplicates (one entry per distinct name); an entry exists for a
key exactly when some leaf of the normalized tree carries that name (every
collected binding carries a leaf name); and the value bound to a key is the
last write: the last same-named collected binding when one exists,
otherwise the last same-named leaf's default or coercion-initialized
value — so grammar leaves that matched nothing still appear with their
default values. -/
theorem docopt_result_map
    (doc : String) (argv : List String) (help version ofirst : Bool)
    (pat : Pattern) (opts opts2 : List OptionSpec) (objs : List LeafObj)
    (s' : Store) (c' : List Nat)
    (hc : create_pattern_tree doc = .ok (pat, opts))
    (ha : parse_argv ⟨argv, true⟩ opts ofirst = .ok (objs, opts2))
    (he : extras help version objs (List.range objs.length) = none)
    (hmr : matchPattern (fix pat) objs (List.range objs.length) [] = (s', true, [], c')) :
    docopt_parse doc argv help version ofirst =
      .ok (buildRet s' (leavesOf (fix pat)) c') ∧
    ((buildRet s' (leavesOf (fix pat)) c').map (fun pr => pr.1)).Nodup ∧
    (∀ k, lookupMap (buildRet s' (leavesOf (fix pat)) c') k =
      lastValOf ((leavesOf (fix pat)).map (fun d => (d.name, d.val)) ++
        c'.map (fun r => ((getObj s' r).name, (getObj s' r).val))) k) ∧
    (∀ k, (¬ lookupMap (buildRet s' (leavesOf (fix pat)) c') k = none) ↔
      k ∈ (leavesOf (fix pat)).map (fun d => d.name)) := by
  have hcol := matchPattern_collected (fix pat) objs (List.range objs.length) []
    (fun j hj => List.mem_range.mp hj) (by simp)
  rw [hmr] at hcol
  obtain ⟨-, hnames⟩ := hcol
  refine ⟨?_, buildRet_keys_nodup s' (leavesOf (fix pat)) c',
    fun k => buildRet_lookup s' (leavesOf (fix pat)) c' k, ?_⟩
  · simp [docopt_parse, hc, ha, he, hmr]
  · intro k
    rw [buildRet_lookup]
    rw [show (¬ lastValOf ((leavesOf (fix pat)).map (fun d => (d.name, d.val)) ++
        c'.map (fun r => ((getObj s' r).name, (getObj s' r).val))) k = none ↔
        ¬ k ∉ ((leavesOf (fix pat)).map (fun d => (d.name, d.val)) ++
          c'.map (fun r => ((getObj s' r).name, (getObj s' r).val))).map
            (fun pr => pr.1)) from not_congr (lastValOf_eq_none_iff _ _)]
    rw [not_not]
    constructor
    · intro hmem
      simp only [List.map_append, List.map_map, List.mem_append] at hmem
      rcases hmem with hmem | hmem
      · simpa using hmem
      · simp only [List.mem_map, Function.comp] at hmem
        obtain ⟨r, hr, hrk⟩ := hmem
        rcases hnames r hr with h0 | ⟨d, hd, hname⟩
        · cases h0
        · subst hrk
          simp only [List.mem_map]
          exact ⟨d, hd, hname.symm⟩
    · intro hmem
      simp only [List.mem_map] at hmem
      obtain ⟨d, hd, hdk⟩ := hmem
      simp only [List.map_append, List.map_map, List.mem_append]
      left
      simp only [List.mem_map]
      exact ⟨d, hd, hdk⟩

/-- A concrete instance of the result-map construction: for the document
"Usage:\n  prog [-v] <a>" and argv ["go"], the option leaf "-v" matched
nothing and still appears with its default value false, while "<a>" is
bound to "go" by the collected binding. -/
theorem docopt_result_map_witness :
    matchPattern (fix (Pattern.branch .required [Pattern.branch .required
        [Pattern.branch .optional [Pattern.leaf ⟨.option "-v" "" 0, "-v", .bool false⟩],
         Pattern.leaf ⟨.argument, "<a>", .empty⟩]]))
      [⟨.argument, "", .str "go"⟩] (List.range 1) [] =
      ([⟨.argument, "", .str "go"⟩, ⟨.argument, "<a>", .str "go"⟩], true, [], [1]) ∧
    docopt_parse "Usage:\n  prog [-v] <a>" ["go"] false false false =
      .ok (buildRet [⟨.argument, "", .str "go"⟩, ⟨.argument, "<a>", .str "go"⟩]
        (leavesOf (fix (Pattern.branch .required [Pattern.branch .required
          [Pattern.branch .optional [Pattern.leaf ⟨.option "-v" "" 0, "-v", .bool false⟩],
           Pattern.leaf ⟨.argument, "<a>", .empty⟩]]))) [1]) := by
  have hsec : parse_section "usage:" "Usage:\n  prog [-v] <a>" =
      ["Usage:\n  prog [-v] <a>"] := by
    simp +decide [parse_section, sectionScan, splitLinesChars, lineHasLabel, lowerChars,
      listInfixOf, isIndented, joinLinesChars, trim, trimChars, isTrimSpace, isAnySpace,
      List.dropWhile, List.intercalate, List.intersperse, List.flatten, List.reverse,
      List.reverseAux] <;> decide
  have hfor : formal_usage "Usage:\n  prog [-v] <a>" = "( [-v] <a> )" := by
    simp +decide [formal_usage, strPartitionEq, findSub2Idx, findCharIdx, split,
      splitWSChars, takeRun, isAnySpace, joinSep, trim, trimChars, isTrimSpace,
      List.find?, List.enum, List.enumFrom, List.dropWhile, List.reverse,
      List.reverseAux, List.foldl] <;> decide
  have hdef : parse_defaults "Usage:\n  prog [-v] <a>" = [] := by
    simp +decide [parse_defaults, parse_section, sectionScan, splitLinesChars,
      lineHasLabel, lowerChars, listInfixOf, isIndented, joinLinesChars, trim, trimChars,
      isTrimSpace, List.dropWhile, List.intercalate, List.intersperse, List.flatten,
      List.reverse, List.reverseAux] <;> decide
  have hfp : Tokens.from_pattern "( [-v] <a> )" =
      ⟨["(", "[", "-v", "]", "<a>", ")"], false⟩ := by
    simp +decide [Tokens.from_pattern, tokenizeGrammarChars_eq, scanStrings_cons,
      scanStrings_nil, findSep, isRegexSpace, isSepChar, alt1Match, alt1Try, firstGtIdx,
      ltPosDesc, takeTok, List.dropWhile, List.find?, List.filterMap, List.flatten,
      List.reverse, List.reverseAux, List.foldl, List.append] <;> decide
  have hpe : parse_expr 28 ⟨["(", "[", "-v", "]", "<a>", ")"], false⟩ [] =
      .ok ([Pattern.branch .required
        [Pattern.branch .optional [Pattern.leaf ⟨.option "-v" "" 0, "-v", .bool false⟩],
         Pattern.leaf ⟨.argument, "<a>", .empty⟩]],
        [⟨"-v", "", 0, .bool false⟩], ⟨[], false⟩) := by rfl
  have hpp : parse_pattern "( [-v] <a> )" [] =
      .ok (Pattern.branch .required [Pattern.branch .required
        [Pattern.branch .optional [Pattern.leaf ⟨.option "-v" "" 0, "-v", .bool false⟩],
         Pattern.leaf ⟨.argument, "<a>", .empty⟩]],
        [⟨"-v", "", 0, .bool false⟩]) := by
    simp [parse_pattern, hfp, hpe, Tokens.hasMore, bind, Except.bind]
  have hc : create_pattern_tree "Usage:\n  prog [-v] <a>" =
      .ok (Pattern.branch .required [Pattern.branch .required
        [Pattern.branch .optional [Pattern.leaf ⟨.option "-v" "" 0, "-v", .bool false⟩],
         Pattern.leaf ⟨.argument, "<a>", .empty⟩]],
        [⟨"-v", "", 0, .bool false⟩]) := by
    simp [create_pattern_tree, hsec, createFromUsage, hdef, hfor, hpp,
      patternOptionLeaves, leavesOf, leavesList, leafOptIdent, optIdent, fillShortcuts,
      fillShortcutsList, OptionSpec.toLeaf, OptionSpec.name, setInsert, bind, Except.bind]
  have ha : parse_argv ⟨["go"], true⟩ [⟨"-v", "", 0, .bool false⟩] false =
      .ok ([⟨.argument, "", .str "go"⟩], [⟨"-v", "", 0, .bool false⟩]) := by rfl
  have he : extras false false [⟨.argument, "", .str "go"⟩] (List.range 1) = none := by rfl
  have hfix : fix (Pattern.branch .required [Pattern.branch .required
        [Pattern.branch .optional [Pattern.leaf ⟨.option "-v" "" 0, "-v", .bool false⟩],
         Pattern.leaf ⟨.argument, "<a>", .empty⟩]]) =
      Pattern.branch .required [Pattern.branch .required
        [Pattern.branch .optional [Pattern.leaf ⟨.option "-v" "" 0, "-v", .bool false⟩],
         Pattern.leaf ⟨.argument, "<a>", .empty⟩]] := by
    simp [fix, fix_repeating_arguments, flaggedLeaves, transform, transformGo,
      splitAtBranch, expandOne, groupFlagged, replaceLeavesList, replaceLeaves,
      retypeLeaf, ensureListVal, List.count_cons]
  have hmatch : matchPattern (Pattern.branch .required [Pattern.branch .required
        [Pattern.branch .optional [Pattern.leaf ⟨.option "-v" "" 0, "-v", .bool false⟩],
         Pattern.leaf ⟨.argument, "<a>", .empty⟩]])
      [⟨.argument, "", .str "go"⟩] [0] [] =
      ([⟨.argument, "", .str "go"⟩, ⟨.argument, "<a>", .str "go"⟩], true, [], [1]) := by
    simp [matchPattern, requiredGo, optionalGo, oomLoop, eitherOutcomes, leaf_match,
      single_match, findName, findArgLike, findCollectedRef, storeSet, getObj, listValOf,
      Value.isLong, Value.isStringList, isArgLike, List.getD, List.eraseIdx]
  have hrange : List.range 1 = [0] := by rfl
  have hmr : matchPattern (fix (Pattern.branch .required [Pattern.branch .required
        [Pattern.branch .optional [Pattern.leaf ⟨.option "-v" "" 0, "-v", .bool false⟩],
         Pattern.leaf ⟨.argument, "<a>", .empty⟩]]))
      [⟨.argument, "", .str "go"⟩] (List.range 1) [] =
      ([⟨.argument, "", .str "go"⟩, ⟨.argument, "<a>", .str "go"⟩], true, [], [1]) := by
    rw [hfix, hrange]
    exact hmatch
  exact ⟨hmr, (docopt_result_map "Usage:\n  prog [-v] <a>" ["go"] false false false
    _ _ _ _ _ _ hc ha he hmr).1⟩

end Docopt
